import Mathlib

/-!
# A verification development for `db.c` (a paged B+ tree store)

The C program is embedded shallowly.  A page buffer is a list of bytes, a
pointer into a page is a byte offset from the start of its buffer, and every
load or store is checked against the size of the buffer it goes through.  An
operation returns `Except Fault _`: either its result (together with the new
state where it mutates one) or the way the C program stops.

Several macros of `db.c` are defined without parentheses, and every accessor
adds its offset to a `uint32_t*`.  The definitions below follow the token
sequence the C compiler sees after macro expansion and scale every pointer
addition by `sizeof(uint32_t)`.
-/

namespace Db

/-! ## Faults -/

/-- The ways an operation of the program may fail to return. -/
inductive Fault where
  /-- The program printed a diagnostic and called `exit(EXIT_FAILURE)`. -/
  | fatalExit
  /-- The program accessed memory outside an allocated object, or otherwise
  left the behaviour defined by C (for example by running off the end of a
  value-returning function). -/
  | undefinedBehavior
  /-- The bound given to the model of a loop was used up (the C loop has no
  such bound; this fault belongs to the model only). -/
  | outOfFuel
deriving DecidableEq, Repr

deriving instance DecidableEq for Except

/-! ## Enumerations -/

/-- The C enum `ExecuteResult`. -/
inductive ExecuteResult where
  | EXECUTE_SUCCESS
  | EXECUTE_DUPLICATE_KEY
  | EXECUTE_TABLE_FULL
deriving DecidableEq, Repr

/-- The C enum `StatementType`. -/
inductive StatementType where
  | STATEMENT_INSERT
  | STATEMENT_SELECT
deriving DecidableEq, Repr

/-- `NODE_INTERNAL` is the first enumerator of `NodeType`. -/
def NODE_INTERNAL : Nat := 0

/-- `NODE_LEAF` is the second enumerator of `NodeType`. -/
def NODE_LEAF : Nat := 1

/-! ## Constants (after macro expansion) -/

def COLUMN_USERNAME_SIZE : Nat := 32
def COLUMN_EMAIL_SIZE : Nat := 255
def TABLE_MAX_PAGES : Nat := 100

/-- `size_of_attribute(Row, id)`: a `uint32_t`. -/
def ID_SIZE : Nat := 4
/-- `size_of_attribute(Row, username)`: `char[COLUMN_USERNAME_SIZE + 1]`. -/
def USERNAME_SIZE : Nat := COLUMN_USERNAME_SIZE + 1
/-- `size_of_attribute(Row, email)`: `char[COLUMN_EMAIL_SIZE + 1]`. -/
def EMAIL_SIZE : Nat := COLUMN_EMAIL_SIZE + 1
def ID_OFFSET : Nat := 0
def USERNAME_OFFSET : Nat := ID_OFFSET + ID_SIZE
def EMAIL_OFFSET : Nat := USERNAME_OFFSET + USERNAME_SIZE
def ROW_SIZE : Nat := ID_SIZE + USERNAME_SIZE + EMAIL_SIZE
def PAGE_SIZE : Nat := 4096

def NODE_TYPE_SIZE : Nat := 1
def NODE_TYPE_OFFSET : Nat := 0
def IS_ROOT_SIZE : Nat := 1
def IS_ROOT_OFFSET : Nat := 1
def PARENT_POINTER_SIZE : Nat := 4
def PARENT_POINTER_OFFSET : Nat := 1 + 1
def LEAF_NODE_NEXT_LEAF_SIZE : Nat := 4
def LEAF_NODE_NUM_CELLS_SIZE : Nat := 4

/-- The macro `COMMON_NODE_METADATA_SIZE` where it stands as an addend. -/
def COMMON_NODE_METADATA_SIZE : Nat := NODE_TYPE_SIZE + IS_ROOT_SIZE + PARENT_POINTER_SIZE
/-- The macro `LEAF_NODE_NUM_CELLS_OFFSET` where it stands as an addend. -/
def LEAF_NODE_NUM_CELLS_OFFSET : Nat := COMMON_NODE_METADATA_SIZE
/-- The macro `LEAF_NODE_NEXT_LEAF_OFFSET` where it stands as an addend. -/
def LEAF_NODE_NEXT_LEAF_OFFSET : Nat := LEAF_NODE_NUM_CELLS_OFFSET + LEAF_NODE_NUM_CELLS_SIZE
/-- The macro `LEAF_NODE_METADATA_SIZE` where it stands as an addend. -/
def LEAF_NODE_METADATA_SIZE : Nat :=
  COMMON_NODE_METADATA_SIZE + LEAF_NODE_NUM_CELLS_SIZE + LEAF_NODE_NEXT_LEAF_SIZE

def LEAF_NODE_KEY_SIZE : Nat := 4
def LEAF_NODE_KEY_OFFSET : Nat := 0
def LEAF_NODE_VALUE_SIZE : Nat := ROW_SIZE
def LEAF_NODE_VALUE_OFFSET : Nat := LEAF_NODE_KEY_OFFSET + LEAF_NODE_KEY_SIZE
def LEAF_NODE_CELL_SIZE : Nat := LEAF_NODE_KEY_SIZE + LEAF_NODE_VALUE_SIZE

/-- The macro `LEAF_NODE_SPACE_FOR_CELLS` is `PAGE_SIZE - LEAF_NODE_METADATA_SIZE`
without parentheses, and `LEAF_NODE_METADATA_SIZE` is a sum without parentheses:
only its first term is subtracted. -/
def LEAF_NODE_SPACE_FOR_CELLS : Nat :=
  PAGE_SIZE - NODE_TYPE_SIZE + IS_ROOT_SIZE + PARENT_POINTER_SIZE
    + LEAF_NODE_NUM_CELLS_SIZE + LEAF_NODE_NEXT_LEAF_SIZE

/-- The macro `LEAF_NODE_MAX_CELLS` is
`(LEAF_NODE_SPACE_FOR_CELLS / LEAF_NODE_CELL_SIZE)`; after expansion the
division applies to the last term of the sum only. -/
def LEAF_NODE_MAX_CELLS : Nat :=
  PAGE_SIZE - NODE_TYPE_SIZE + IS_ROOT_SIZE + PARENT_POINTER_SIZE
    + LEAF_NODE_NUM_CELLS_SIZE + LEAF_NODE_NEXT_LEAF_SIZE / LEAF_NODE_CELL_SIZE

/-- The macro `LEAF_NODE_RIGHT_SPLIT_COUNT` where it stands alone on the right
of an assignment. -/
def LEAF_NODE_RIGHT_SPLIT_COUNT : Nat := (LEAF_NODE_MAX_CELLS + 1) / 2

/-- The macro `LEAF_NODE_LEFT_SPLIT_COUNT` where it stands alone on the right
of an assignment or of a comparison. -/
def LEAF_NODE_LEFT_SPLIT_COUNT : Nat :=
  (LEAF_NODE_MAX_CELLS + 1) - (LEAF_NODE_MAX_CELLS + 1) / 2

def INTERNAL_NODE_NUM_KEYS_SIZE : Nat := 4
/-- The macro `INTERNAL_NODE_NUM_KEYS_OFFSET` where it stands as an addend. -/
def INTERNAL_NODE_NUM_KEYS_OFFSET : Nat := COMMON_NODE_METADATA_SIZE
def INTERNAL_NODE_RIGHT_CHILD_SIZE : Nat := 4
/-- The macro adds `INTERNAL_NODE_NUM_KEYS_OFFSET` to itself. -/
def INTERNAL_NODE_RIGHT_CHILD_OFFSET : Nat :=
  INTERNAL_NODE_NUM_KEYS_OFFSET + INTERNAL_NODE_NUM_KEYS_OFFSET
def INTERNAL_NODE_HEADER_SIZE : Nat :=
  COMMON_NODE_METADATA_SIZE + INTERNAL_NODE_NUM_KEYS_SIZE + INTERNAL_NODE_RIGHT_CHILD_SIZE
def INTERNAL_NODE_KEY_SIZE : Nat := 4
def INTERNAL_NODE_CHILD_SIZE : Nat := 4
def INTERNAL_NODE_CELL_SIZE : Nat := INTERNAL_NODE_CHILD_SIZE + INTERNAL_NODE_KEY_SIZE
def INTERNAL_NODE_MAX_CELLS : Nat := 3

/-- The modulus of `uint32_t` arithmetic. -/
def U32 : Nat := 4294967296

/-! ## Byte buffers -/

/-- A buffer of bytes: a page returned by `malloc(PAGE_SIZE)`, or any other
region a pointer of the program points into. -/
abbrev Page := List Nat

/-- Read `len` bytes at byte offset `off` of a buffer. -/
def loadBytes (buf : Page) (off len : Nat) : Except Fault (List Nat) :=
  if off + len ≤ buf.length then .ok ((buf.drop off).take len)
  else .error .undefinedBehavior

/-- Write the bytes `bs` at byte offset `off` of a buffer. -/
def storeBytes (buf : Page) (off : Nat) (bs : List Nat) : Except Fault Page :=
  if off + bs.length ≤ buf.length then
    .ok (buf.take off ++ bs ++ buf.drop (off + bs.length))
  else .error .undefinedBehavior

/-- The four bytes of a `uint32_t`, least significant first. -/
def encodeU32 (v : Nat) : List Nat :=
  [v % 256, v / 256 % 256, v / 65536 % 256, v / 16777216 % 256]

/-- The `uint32_t` held in four bytes, least significant first. -/
def decodeU32 : List Nat → Nat
  | [b0, b1, b2, b3] => b0 + 256 * b1 + 65536 * b2 + 16777216 * b3
  | _ => 0

/-- The load `*(uint32_t*)p` for `p` at byte offset `off`. -/
def loadU32 (buf : Page) (off : Nat) : Except Fault Nat := do
  let bs ← loadBytes buf off 4
  pure (decodeU32 bs)

/-- The store `*(uint32_t*)p = v` for `p` at byte offset `off`. -/
def storeU32 (buf : Page) (off : Nat) (v : Nat) : Except Fault Page :=
  storeBytes buf off (encodeU32 v)

/-- The load `*(uint8_t*)p` for `p` at byte offset `off`. -/
def loadU8 (buf : Page) (off : Nat) : Except Fault Nat := do
  let bs ← loadBytes buf off 1
  pure (bs.headD 0)

/-- The store `*(uint8_t*)p = v` for `p` at byte offset `off`. -/
def storeU8 (buf : Page) (off : Nat) (v : Nat) : Except Fault Page :=
  storeBytes buf off [v % 256]

/-- The call `memcpy(dst, src, n)` for two pointers into the same buffer. -/
def memcpyWithin (buf : Page) (dst src n : Nat) : Except Fault Page := do
  let bs ← loadBytes buf src n
  storeBytes buf dst bs

/-! ## Rows and the row codec -/

/-- The C struct `Row`: a `uint32_t` and two character arrays. -/
structure Row where
  id : Nat
  username : List Nat
  email : List Nat
deriving DecidableEq, Repr

/-- A value of the model is a C `Row` when its fields have the sizes of the
struct members. -/
def Row.WF (r : Row) : Prop :=
  r.id < U32 ∧ r.username.length = USERNAME_SIZE ∧ r.email.length = EMAIL_SIZE

instance (r : Row) : Decidable r.WF := by
  unfold Row.WF; infer_instance

/-- The function `serializeRow`: `destination` is a byte offset into `buf`,
and each of the three offsets is added to a `uint32_t*`. -/
def serializeRow (source : Row) (buf : Page) (destination : Nat) : Except Fault Page := do
  let buf ← storeBytes buf (destination + 4 * ID_OFFSET) (encodeU32 source.id)
  let buf ← storeBytes buf (destination + 4 * USERNAME_OFFSET) source.username
  storeBytes buf (destination + 4 * EMAIL_OFFSET) source.email

/-- The function `deserializeRow`: `source` is a byte offset into `buf`. -/
def deserializeRow (buf : Page) (source : Nat) : Except Fault Row := do
  let id ← loadBytes buf (source + 4 * ID_OFFSET) ID_SIZE
  let username ← loadBytes buf (source + 4 * USERNAME_OFFSET) USERNAME_SIZE
  let email ← loadBytes buf (source + 4 * EMAIL_OFFSET) EMAIL_SIZE
  pure { id := decodeU32 id, username := username, email := email }

/-- The C string a `char*` argument of `printf("%s")` denotes when it points
at the first of `bytes`: the bytes before the first NUL.  Without a NUL the
read leaves the object. -/
def cstring (bytes : List Nat) : Except Fault (List Nat) :=
  if 0 ∈ bytes then .ok (bytes.takeWhile (fun b => b ≠ 0)) else .error .undefinedBehavior

/-- One line written by `printRow`. -/
structure PrintedRow where
  id : Int
  username : List Nat
  email : List Nat
deriving DecidableEq, Repr

/-- The function `printRow`: `%d` shows the `uint32_t` id as an `int`; the
member `email` follows `username` in the struct, so a `username` without NUL
is read on into `email`. -/
def printRow (row : Row) : Except Fault PrintedRow := do
  let username ← cstring (row.username ++ row.email)
  let email ← cstring row.email
  pure { id := if row.id % U32 < U32 / 2 then (row.id % U32 : Nat) else (row.id % U32 : Nat) - (U32 : Int),
         username := username, email := email }

/-! ## Node accessors

A node pointer is the start of a page buffer; each accessor below is the byte
offset, from the start of the page, of the pointer the C accessor returns. -/

/-- Byte offset of `(uint32_t*) node + LEAF_NODE_NEXT_LEAF_OFFSET`. -/
def leafNodeNextLeaf : Nat := 4 * LEAF_NODE_NEXT_LEAF_OFFSET

/-- Byte offset of `(uint32_t*) node + PARENT_POINTER_OFFSET`. -/
def nodeParent : Nat := 4 * PARENT_POINTER_OFFSET

/-- Byte offset of `(uint32_t*) node + LEAF_NODE_NUM_CELLS_OFFSET`. -/
def leafNodeNumCells : Nat := 4 * LEAF_NODE_NUM_CELLS_OFFSET

/-- Byte offset of
`(uint32_t*) node + LEAF_NODE_METADATA_SIZE + cellNum * LEAF_NODE_CELL_SIZE`. -/
def leafNodeCell (cellNum : Nat) : Nat :=
  4 * (LEAF_NODE_METADATA_SIZE + cellNum * LEAF_NODE_CELL_SIZE)

/-- Byte offset of `leafNodeCell(node, cellNum)` (the key comes first). -/
def leafNodeKey (cellNum : Nat) : Nat := leafNodeCell cellNum

/-- Byte offset of `(uint32_t*) leafNodeCell(node, cellNum) + LEAF_NODE_KEY_SIZE`. -/
def leafNodeValue (cellNum : Nat) : Nat := leafNodeCell cellNum + 4 * LEAF_NODE_KEY_SIZE

/-- Byte offset of `(uint32_t*) node + INTERNAL_NODE_NUM_KEYS_OFFSET`. -/
def internalNodeNumKeys : Nat := 4 * INTERNAL_NODE_NUM_KEYS_OFFSET

/-- Byte offset of `(uint32_t*) node + INTERNAL_NODE_RIGHT_CHILD_OFFSET`. -/
def internalNodeRightChild : Nat := 4 * INTERNAL_NODE_RIGHT_CHILD_OFFSET

/-- Byte offset of
`(uint32_t*) node + INTERNAL_NODE_HEADER_SIZE + cellNum * INTERNAL_NODE_CELL_SIZE`. -/
def internalNodeCell (cellNum : Nat) : Nat :=
  4 * (INTERNAL_NODE_HEADER_SIZE + cellNum * INTERNAL_NODE_CELL_SIZE)

/-- Byte offset of `internalNodeCell(node, keyNum) + INTERNAL_NODE_CHILD_SIZE`,
an addition to a `uint32_t*`. -/
def internalNodeKey (keyNum : Nat) : Nat := internalNodeCell keyNum + 4 * INTERNAL_NODE_CHILD_SIZE

/-- The function `internalNodeChild`: the byte offset of the child pointer, or
the fatal exit for a child number above `num_keys`. -/
def internalNodeChild (node : Page) (childNum : Nat) : Except Fault Nat := do
  let numKeys ← loadU32 node internalNodeNumKeys
  if childNum > numKeys then .error .fatalExit
  else if childNum = numKeys then pure internalNodeRightChild
  else pure (internalNodeCell childNum)

/-- The function `getNodeType`: the byte at `(uint32_t*) node + NODE_TYPE_OFFSET`. -/
def getNodeType (node : Page) : Except Fault Nat := loadU8 node (4 * NODE_TYPE_OFFSET)

/-- The function `setNodeType`. -/
def setNodeType (node : Page) (type : Nat) : Except Fault Page :=
  storeU8 node (4 * NODE_TYPE_OFFSET) type

/-- The function `isRootNode`: the byte at `(uint32_t*) node + IS_ROOT_OFFSET`
converted to `bool`. -/
def isRootNode (node : Page) : Except Fault Bool := do
  let value ← loadU8 node (4 * IS_ROOT_OFFSET)
  pure (value != 0)

/-- The function `setNodeRoot`. -/
def setNodeRoot (node : Page) (isRoot : Bool) : Except Fault Page :=
  storeU8 node (4 * IS_ROOT_OFFSET) (if isRoot then 1 else 0)

/-- The function `initializeLeafNode`. -/
def initializeLeafNode (node : Page) : Except Fault Page := do
  let node ← setNodeType node NODE_LEAF
  let node ← setNodeRoot node false
  let node ← storeU32 node leafNodeNumCells 0
  storeU32 node leafNodeNextLeaf 0

/-- The function `initializeInternalNode`. -/
def initializeInternalNode (node : Page) : Except Fault Page := do
  let node ← setNodeType node NODE_INTERNAL
  let node ← setNodeRoot node false
  storeU32 node internalNodeNumKeys 0

/-- The function `getNodeMaxKey`.  The index `count - 1` is computed in
`uint32_t`; a node type that is neither enumerator matches no case and the
function ends without returning a value. -/
def getNodeMaxKey (node : Page) : Except Fault Nat := do
  let type ← getNodeType node
  if type = NODE_INTERNAL then do
    let numKeys ← loadU32 node internalNodeNumKeys
    loadU32 node (internalNodeKey ((numKeys + U32 - 1) % U32))
  else if type = NODE_LEAF then do
    let numCells ← loadU32 node leafNodeNumCells
    loadU32 node (leafNodeKey ((numCells + U32 - 1) % U32))
  else .error .undefinedBehavior

/-- The loop of `internalNodeFindChild`; `fuel` bounds the iterations. -/
def internalNodeFindChildLoop (node : Page) (key : Nat) : Nat → Nat → Nat → Except Fault Nat
  | 0, _, _ => .error .outOfFuel
  | fuel + 1, minIndex, maxIndex =>
    if minIndex ≠ maxIndex then do
      let index := (minIndex + maxIndex) % U32 / 2
      let keyToRight ← loadU32 node (internalNodeKey index)
      if keyToRight ≥ key then internalNodeFindChildLoop node key fuel minIndex index
      else internalNodeFindChildLoop node key fuel ((index + 1) % U32) maxIndex
    else .ok minIndex

/-- The function `internalNodeFindChild`. -/
def internalNodeFindChild (node : Page) (key : Nat) : Except Fault Nat := do
  let numKeys ← loadU32 node internalNodeNumKeys
  internalNodeFindChildLoop node key (numKeys + 1) 0 numKeys

/-- The function `updateInternalNodeKey`. -/
def updateInternalNodeKey (node : Page) (oldKey newKey : Nat) : Except Fault Page := do
  let oldChildIndex ← internalNodeFindChild node oldKey
  storeU32 node (internalNodeKey oldChildIndex) newKey

/-! ## The pager -/

/-- The C struct `Pager`.  The stream `file_descriptor` is represented by the
bytes of the file it is open on; `pages` holds, per slot, `none` for `NULL` or
the contents of the buffer the slot points to. -/
structure Pager where
  file_descriptor : List Nat
  file_length : Nat
  num_pages : Nat
  pages : List (Option Page)
deriving DecidableEq, Repr

/-- The C struct `Table`. -/
structure Table where
  root_page_num : Nat
  pager : Pager
deriving DecidableEq, Repr

/-- The C struct `Cursor` without its back pointer to the table (the table is
passed along).  `end_of_table` is `none` while the member has not been
assigned since `malloc`. -/
structure Cursor where
  page_num : Nat
  cell_num : Nat
  end_of_table : Option Bool
deriving DecidableEq, Repr

/-- The C struct `Statement`. -/
structure Statement where
  type : StatementType
  row_to_insert : Row
deriving DecidableEq, Repr

/-- The contents of the buffer the page pointer of slot `pageNum` points to. -/
def Pager.buffer (pager : Pager) (pageNum : Nat) : Except Fault Page :=
  match pager.pages[pageNum]? with
  | some (some page) => .ok page
  | _ => .error .undefinedBehavior

/-- Replace the contents of the buffer of slot `pageNum`. -/
def Pager.setBuffer (pager : Pager) (pageNum : Nat) (page : Page) : Pager :=
  { pager with pages := pager.pages.set pageNum (some page) }

/-- Apply a sequence of stores, given as a function on the contents, to the
buffer of slot `pageNum`. -/
def Pager.update (pager : Pager) (pageNum : Nat) (f : Page → Except Fault Page) :
    Except Fault Pager := do
  let page ← pager.buffer pageNum
  let page ← f page
  pure (pager.setBuffer pageNum page)

/-- The call `memcpy(dst, src, n)` for pointers into the buffers of two slots. -/
def Pager.memcpy (pager : Pager) (dstPage dst srcPage src n : Nat) : Except Fault Pager := do
  let source ← pager.buffer srcPage
  let bs ← loadBytes source src n
  pager.update dstPage (fun page => storeBytes page dst bs)

/-- The C library call `fread(ptr, size, nmemb, stream)` with the stream at
position `pos`: up to `size * nmemb` bytes, as many as the file still has, are
stored from the start of the buffer. -/
def fread (ptr : Page) (size nmemb : Nat) (stream : List Nat) (pos : Nat) : Except Fault Page :=
  storeBytes ptr 0 ((stream.drop pos).take (size * nmemb))

/-- The C library call `fwrite(ptr, size, nmemb, stream)` with the stream at
position `pos`: `size * nmemb` bytes are read from the start of the buffer and
written at the position (a gap after the end of the file reads as zeros). -/
def fwrite (ptr : Page) (size nmemb : Nat) (stream : List Nat) (pos : Nat) :
    Except Fault (List Nat) := do
  let bs ← loadBytes ptr 0 (size * nmemb)
  if bs = [] then pure stream
  else pure ((stream ++ List.replicate (pos - stream.length) 0).take pos ++ bs
              ++ stream.drop (pos + bs.length))

/-- The value `fseek` returns when it succeeds: zero, not the new position. -/
def fseek (_stream : List Nat) (_offset : Nat) : Int := 0

/-- The function `getUnusedPageNum`. -/
def getUnusedPageNum (pager : Pager) : Nat := pager.num_pages

/-- The function `getPage`.  The result is the pager after the call; the
pointer it returns is the buffer of slot `pageNum`.  `fresh pageNum` is the
(indeterminate) contents of the buffer `malloc` returns for the slot. -/
def getPage (fresh : Nat → Page) (pager : Pager) (pageNum : Nat) : Except Fault Pager :=
  if pageNum > TABLE_MAX_PAGES then .error .fatalExit
  else
    match pager.pages[pageNum]? with
    | none => .error .undefinedBehavior
    | some (some _) => .ok pager
    | some none => do
      let page := fresh pageNum
      let numPages := pager.file_length / PAGE_SIZE
      let numPages := if pager.file_length % PAGE_SIZE ≠ 0 then (numPages + 1) % U32 else numPages
      let page ←
        if pageNum ≤ numPages then
          fread page PAGE_SIZE (pageNum * PAGE_SIZE % U32) pager.file_descriptor
            (pageNum * PAGE_SIZE % U32)
        else pure page
      pure { pager with
        pages := pager.pages.set pageNum (some page)
        num_pages := if pageNum ≥ pager.num_pages then (pageNum + 1) % U32 else pager.num_pages }

/-- The function `pagerFlush`: the size argument of `fwrite` is
`pageNum * PAGE_SIZE` and the count is `PAGE_SIZE`. -/
def pagerFlush (pager : Pager) (pageNum : Nat) : Except Fault Pager :=
  match pager.pages[pageNum]? with
  | none => .error .undefinedBehavior
  | some none => .error .fatalExit
  | some (some page) =>
    if fseek pager.file_descriptor (pageNum * PAGE_SIZE % U32) = -1 then .error .fatalExit
    else do
      let stream ← fwrite page (pageNum * PAGE_SIZE % U32) PAGE_SIZE pager.file_descriptor
        (pageNum * PAGE_SIZE % U32)
      pure { pager with file_descriptor := stream }

/-- The function `pagerOpen`.  `file` is the file of that name, `none` when
there is none (the second `fopen` then creates it empty).  The length stored
is the value returned by `fseek`. -/
def pagerOpen (file : Option (List Nat)) : Except Fault Pager :=
  let fd := file.getD []
  let fileLength : Int := fseek fd 0
  if fileLength % (PAGE_SIZE : Int) ≠ 0 then .error .fatalExit
  else
    .ok { file_descriptor := fd
          file_length := (fileLength % (U32 : Int)).toNat
          num_pages := ((fileLength / (PAGE_SIZE : Int)) % (U32 : Int)).toNat
          pages := List.replicate TABLE_MAX_PAGES none }

/-- The function `dbOpen`. -/
def dbOpen (fresh : Nat → Page) (file : Option (List Nat)) : Except Fault Table := do
  let pager ← pagerOpen file
  if pager.num_pages = 0 then do
    let pager ← getPage fresh pager 0
    let pager ← pager.update 0 initializeLeafNode
    let pager ← pager.update 0 (fun node => setNodeRoot node true)
    pure { root_page_num := 0, pager := pager }
  else pure { root_page_num := 0, pager := pager }

/-- One iteration of the first loop of `dbClose`. -/
def dbCloseStep (pager : Pager) (i : Nat) : Except Fault Pager :=
  match pager.pages[i]? with
  | none => .error .undefinedBehavior
  | some none => .ok pager
  | some (some _) => do
    let pager ← pagerFlush pager i
    pure { pager with pages := pager.pages.set i none }

/-- The function `dbClose`: the result is the contents of the file once the
stream is closed (the second loop and the calls of `free` leave it as it is). -/
def dbClose (table : Table) : Except Fault (List Nat) := do
  let pager ← (List.range table.pager.num_pages).foldlM dbCloseStep table.pager
  pure pager.file_descriptor

/-! ## The B+ tree -/

/-- The load `*(uint32_t*)p` for `p` at byte offset `off` of the buffer of
slot `pageNum`. -/
def Pager.readU32 (pager : Pager) (pageNum off : Nat) : Except Fault Nat := do
  let page ← pager.buffer pageNum
  loadU32 page off

/-- The store `*(uint32_t*)p = v` for `p` at byte offset `off` of the buffer
of slot `pageNum`. -/
def Pager.writeU32 (pager : Pager) (pageNum off v : Nat) : Except Fault Pager :=
  pager.update pageNum (fun page => storeU32 page off v)

/-- The loop of `findLeafNode`; `fuel` bounds the iterations.  The result is
the value assigned to `cursor->cell_num`. -/
def findLeafNodeLoop (node : Page) (key : Nat) : Nat → Nat → Nat → Except Fault Nat
  | 0, _, _ => .error .outOfFuel
  | fuel + 1, minIndex, onePastMaxIndex =>
    if onePastMaxIndex ≠ minIndex then do
      let index := (minIndex + onePastMaxIndex) % U32 / 2
      let keyAtIndex ← loadU32 node (leafNodeKey index)
      if key = keyAtIndex then pure index
      else if key < keyAtIndex then findLeafNodeLoop node key fuel minIndex index
      else findLeafNodeLoop node key fuel ((index + 1) % U32) onePastMaxIndex
    else .ok minIndex

/-- The function `findLeafNode`. -/
def findLeafNode (fresh : Nat → Page) (table : Table) (pageNum key : Nat) :
    Except Fault (Cursor × Table) := do
  let pager ← getPage fresh table.pager pageNum
  let node ← pager.buffer pageNum
  let numCells ← loadU32 node leafNodeNumCells
  let cellNum ← findLeafNodeLoop node key (numCells + 1) 0 numCells
  pure ({ page_num := pageNum, cell_num := cellNum, end_of_table := none },
        { table with pager := pager })

/-- The function `tableFind`. -/
def tableFind (fresh : Nat → Page) (table : Table) (key : Nat) :
    Except Fault (Cursor × Table) := do
  let rootPageNum := table.root_page_num
  let pager ← getPage fresh table.pager rootPageNum
  let rootNode ← pager.buffer rootPageNum
  let type ← getNodeType rootNode
  if type = NODE_LEAF then findLeafNode fresh { table with pager := pager } rootPageNum key
  else .error .fatalExit

/-- The function `internalNodeFind`; `fuel` bounds the depth of the descent. -/
def internalNodeFind (fresh : Nat → Page) : Nat → Table → Nat → Nat → Except Fault (Cursor × Table)
  | 0, _, _, _ => .error .outOfFuel
  | fuel + 1, table, pageNum, key => do
    let pager ← getPage fresh table.pager pageNum
    let node ← pager.buffer pageNum
    let childIndex ← internalNodeFindChild node key
    let childPtr ← internalNodeChild node childIndex
    let childNum ← loadU32 node childPtr
    let pager ← getPage fresh pager childNum
    let child ← pager.buffer childNum
    let type ← getNodeType child
    if type = NODE_LEAF then findLeafNode fresh { table with pager := pager } childNum key
    else if type = NODE_INTERNAL then
      internalNodeFind fresh fuel { table with pager := pager } childNum key
    else .error .undefinedBehavior

/-- The function `tableStart`. -/
def tableStart (fresh : Nat → Page) (table : Table) : Except Fault (Cursor × Table) := do
  let (cursor, table) ← tableFind fresh table 0
  let pager ← getPage fresh table.pager cursor.page_num
  let numCells ← pager.readU32 cursor.page_num leafNodeNumCells
  pure ({ cursor with end_of_table := some (numCells == 0) }, { table with pager := pager })

/-- The function `cursorValue`: the byte offset, in the buffer of slot
`cursor.page_num`, of the pointer it returns. -/
def cursorValue (fresh : Nat → Page) (table : Table) (cursor : Cursor) :
    Except Fault (Nat × Table) := do
  let pageNum := cursor.page_num
  let pager ← getPage fresh table.pager pageNum
  pure (leafNodeValue cursor.cell_num, { table with pager := pager })

/-- The function `incrementCursor`. -/
def incrementCursor (fresh : Nat → Page) (table : Table) (cursor : Cursor) :
    Except Fault (Cursor × Table) := do
  let pageNum := cursor.page_num
  let pager ← getPage fresh table.pager pageNum
  let cellNum := (cursor.cell_num + 1) % U32
  let numCells ← pager.readU32 pageNum leafNodeNumCells
  pure ({ cursor with
            cell_num := cellNum
            end_of_table := if cellNum ≥ numCells then some true else cursor.end_of_table },
        { table with pager := pager })

/-- The shift loop of `insertInternalNode`, with loop variable `i`. -/
def insertInternalNodeShift (index : Nat) : Nat → Page → Except Fault Page
  | 0, parent => .ok parent
  | i + 1, parent =>
    if i + 1 > index then do
      let parent ← memcpyWithin parent (internalNodeCell (i + 1)) (internalNodeCell i)
        INTERNAL_NODE_CELL_SIZE
      insertInternalNodeShift index i parent
    else .ok parent

/-- The function `insertInternalNode`. -/
def insertInternalNode (fresh : Nat → Page) (table : Table) (parentPageNum childPageNum : Nat) :
    Except Fault Table := do
  let pager ← getPage fresh table.pager parentPageNum
  let pager ← getPage fresh pager childPageNum
  let child ← pager.buffer childPageNum
  let childMaxKey ← getNodeMaxKey child
  let parent ← pager.buffer parentPageNum
  let index ← internalNodeFindChild parent childMaxKey
  let originalNumKeys ← loadU32 parent internalNodeNumKeys
  let pager ← pager.writeU32 parentPageNum internalNodeNumKeys ((originalNumKeys + 1) % U32)
  if originalNumKeys ≥ INTERNAL_NODE_MAX_CELLS then .error .fatalExit
  else do
    let rightChildPageNum ← pager.readU32 parentPageNum internalNodeRightChild
    let pager ← getPage fresh pager rightChildPageNum
    let rightChild ← pager.buffer rightChildPageNum
    let rightChildMaxKey ← getNodeMaxKey rightChild
    if childMaxKey > rightChildMaxKey then do
      let parent ← pager.buffer parentPageNum
      let childPtr ← internalNodeChild parent originalNumKeys
      let pager ← pager.writeU32 parentPageNum childPtr rightChildPageNum
      let rightChild ← pager.buffer rightChildPageNum
      let rightChildMaxKey ← getNodeMaxKey rightChild
      let pager ← pager.writeU32 parentPageNum (internalNodeKey originalNumKeys) rightChildMaxKey
      let pager ← pager.writeU32 parentPageNum internalNodeRightChild childPageNum
      pure { table with pager := pager }
    else do
      let pager ← pager.update parentPageNum (insertInternalNodeShift index originalNumKeys)
      let parent ← pager.buffer parentPageNum
      let childPtr ← internalNodeChild parent index
      let pager ← pager.writeU32 parentPageNum childPtr childPageNum
      let pager ← pager.writeU32 parentPageNum (internalNodeKey index) childMaxKey
      pure { table with pager := pager }

/-- The function `createNewRoot`. -/
def createNewRoot (fresh : Nat → Page) (table : Table) (rightChildPageNum : Nat) :
    Except Fault Table := do
  let rootPageNum := table.root_page_num
  let pager ← getPage fresh table.pager rootPageNum
  let pager ← getPage fresh pager rightChildPageNum
  let leftChildPageNum := getUnusedPageNum pager
  let pager ← getPage fresh pager leftChildPageNum
  let pager ← pager.memcpy leftChildPageNum 0 rootPageNum 0 PAGE_SIZE
  let pager ← pager.update leftChildPageNum (fun node => setNodeRoot node false)
  let pager ← pager.update rootPageNum initializeInternalNode
  let pager ← pager.update rootPageNum (fun node => setNodeRoot node true)
  let pager ← pager.writeU32 rootPageNum internalNodeNumKeys 1
  let root ← pager.buffer rootPageNum
  let childPtr ← internalNodeChild root 0
  let pager ← pager.writeU32 rootPageNum childPtr leftChildPageNum
  let leftChild ← pager.buffer leftChildPageNum
  let leftChildMaxKey ← getNodeMaxKey leftChild
  let pager ← pager.writeU32 rootPageNum (internalNodeKey 0) leftChildMaxKey
  let pager ← pager.writeU32 rootPageNum internalNodeRightChild rightChildPageNum
  let pager ← pager.writeU32 leftChildPageNum nodeParent table.root_page_num
  let pager ← pager.writeU32 rightChildPageNum nodeParent table.root_page_num
  pure { table with pager := pager }

/-- The value of `i % LEAF_NODE_LEFT_SPLIT_COUNT` assigned to the `uint32_t`
`indexWithinNode`: after expansion it is
`i % (LEAF_NODE_MAX_CELLS + 1) - (LEAF_NODE_MAX_CELLS + 1) / 2`, computed in
`size_t` and truncated to 32 bits. -/
def splitIndexWithinNode (i : Nat) : Nat :=
  (i % (LEAF_NODE_MAX_CELLS + 1) + 2 ^ 64 - (LEAF_NODE_MAX_CELLS + 1) / 2) % 2 ^ 64 % U32

/-- The copy loop of `splitLeafNodeAndInsert`: the first argument is the
number of iterations left, so the loop variable of the next one is one less. -/
def splitLeafNodeLoop (oldPageNum newPageNum : Nat) (cursor : Cursor) (key : Nat) (value : Row) :
    Nat → Pager → Except Fault Pager
  | 0, pager => .ok pager
  | i + 1, pager => do
    let destinationNode := if i ≥ LEAF_NODE_LEFT_SPLIT_COUNT then newPageNum else oldPageNum
    let indexWithinNode := splitIndexWithinNode i
    let destination := leafNodeCell indexWithinNode
    let pager ←
      if i = cursor.cell_num then do
        let pager ← pager.update destinationNode
          (fun node => serializeRow value node (leafNodeValue indexWithinNode))
        pager.writeU32 destinationNode (leafNodeKey indexWithinNode) key
      else if i > cursor.cell_num then
        pager.memcpy destinationNode destination oldPageNum (leafNodeCell (i - 1))
          LEAF_NODE_CELL_SIZE
      else
        pager.memcpy destinationNode destination oldPageNum (leafNodeCell i) LEAF_NODE_CELL_SIZE
    splitLeafNodeLoop oldPageNum newPageNum cursor key value i pager

/-- The function `splitLeafNodeAndInsert`. -/
def splitLeafNodeAndInsert (fresh : Nat → Page) (table : Table) (cursor : Cursor) (key : Nat)
    (value : Row) : Except Fault Table := do
  let oldPageNum := cursor.page_num
  let pager ← getPage fresh table.pager oldPageNum
  let oldNode ← pager.buffer oldPageNum
  let oldMax ← getNodeMaxKey oldNode
  let newPageNum := getUnusedPageNum pager
  let pager ← getPage fresh pager newPageNum
  let pager ← pager.update newPageNum initializeLeafNode
  let oldParent ← pager.readU32 oldPageNum nodeParent
  let pager ← pager.writeU32 newPageNum nodeParent oldParent
  let oldNextLeaf ← pager.readU32 oldPageNum leafNodeNextLeaf
  let pager ← pager.writeU32 newPageNum leafNodeNextLeaf oldNextLeaf
  let pager ← pager.writeU32 oldPageNum leafNodeNextLeaf newPageNum
  let pager ← splitLeafNodeLoop oldPageNum newPageNum cursor key value (LEAF_NODE_MAX_CELLS + 1) pager
  let pager ← pager.writeU32 oldPageNum leafNodeNumCells LEAF_NODE_LEFT_SPLIT_COUNT
  let pager ← pager.writeU32 newPageNum leafNodeNumCells LEAF_NODE_RIGHT_SPLIT_COUNT
  let oldNode ← pager.buffer oldPageNum
  let isRoot ← isRootNode oldNode
  if isRoot then createNewRoot fresh { table with pager := pager } newPageNum
  else do
    let parentPageNum ← pager.readU32 oldPageNum nodeParent
    let oldNode ← pager.buffer oldPageNum
    let newMax ← getNodeMaxKey oldNode
    let pager ← getPage fresh pager parentPageNum
    let pager ← pager.update parentPageNum
      (fun parent => updateInternalNodeKey parent oldMax newMax)
    insertInternalNode fresh { table with pager := pager } parentPageNum newPageNum

/-- The shift loop of `insertLeafNode`, with loop variable `i`. -/
def insertLeafNodeShift (cellNum : Nat) : Nat → Page → Except Fault Page
  | 0, node => .ok node
  | i + 1, node =>
    if i + 1 > cellNum then do
      let node ← memcpyWithin node (leafNodeCell (i + 1)) (leafNodeCell i) LEAF_NODE_CELL_SIZE
      insertLeafNodeShift cellNum i node
    else .ok node

/-- The function `insertLeafNode`. -/
def insertLeafNode (fresh : Nat → Page) (table : Table) (cursor : Cursor) (key : Nat)
    (value : Row) : Except Fault Table := do
  let pager ← getPage fresh table.pager cursor.page_num
  let node ← pager.buffer cursor.page_num
  let numCells ← loadU32 node leafNodeNumCells
  if numCells ≥ LEAF_NODE_MAX_CELLS then
    splitLeafNodeAndInsert fresh { table with pager := pager } cursor key value
  else do
    let node ←
      if cursor.cell_num < numCells then insertLeafNodeShift cursor.cell_num numCells node
      else pure node
    let count ← loadU32 node leafNodeNumCells
    let node ← storeU32 node leafNodeNumCells ((count + 1) % U32)
    let node ← storeU32 node (leafNodeKey cursor.cell_num) key
    let node ← serializeRow value node (leafNodeValue cursor.cell_num)
    pure { table with pager := pager.setBuffer cursor.page_num node }

/-- The function `executeInsert`. -/
def executeInsert (fresh : Nat → Page) (statement : Statement) (table : Table) :
    Except Fault (ExecuteResult × Table) := do
  let rowToInsert := statement.row_to_insert
  let keyToInsert := rowToInsert.id
  let (cursor, table) ← tableFind fresh table keyToInsert
  let pager ← getPage fresh table.pager table.root_page_num
  let table := { table with pager := pager }
  let node ← pager.buffer table.root_page_num
  let numCells ← loadU32 node leafNodeNumCells
  let duplicate ←
    if cursor.cell_num < numCells then do
      let keyAtIndex ← loadU32 node (leafNodeKey cursor.cell_num)
      pure (decide (keyAtIndex = keyToInsert))
    else pure false
  if duplicate then pure (ExecuteResult.EXECUTE_DUPLICATE_KEY, table)
  else do
    let table ← insertLeafNode fresh table cursor rowToInsert.id rowToInsert
    pure (ExecuteResult.EXECUTE_SUCCESS, table)

/-- The loop of `executeSelect`; `fuel` bounds the iterations and `out`
collects the lines printed so far. -/
def executeSelectLoop (fresh : Nat → Page) :
    Nat → Table → Cursor → List PrintedRow → Except Fault (List PrintedRow × Table)
  | 0, _, _, _ => .error .outOfFuel
  | fuel + 1, table, cursor, out =>
    match cursor.end_of_table with
    | none => .error .undefinedBehavior
    | some true => .ok (out, table)
    | some false => do
      let (source, table) ← cursorValue fresh table cursor
      let page ← table.pager.buffer cursor.page_num
      let row ← deserializeRow page source
      let line ← printRow row
      let (cursor, table) ← incrementCursor fresh table cursor
      executeSelectLoop fresh fuel table cursor (out ++ [line])

/-- The function `executeSelect`, returning what it prints as well.  The
`uint32_t` member `cell_num` grows by one per iteration until it reaches
`num_cells`, so `U32` iterations are never used up. -/
def executeSelect (fresh : Nat → Page) (table : Table) :
    Except Fault (ExecuteResult × List PrintedRow × Table) := do
  let (cursor, table) ← tableStart fresh table
  let (out, table) ← executeSelectLoop fresh U32 table cursor []
  pure (ExecuteResult.EXECUTE_SUCCESS, out, table)


/-! ## Concrete inputs used by the examples -/

/-- A row holding two strings, each followed by NUL bytes up to the end of
its array. -/
def sampleRow (id : Nat) (username email : List Nat) : Row :=
  { id := id
    username := username ++ List.replicate (USERNAME_SIZE - username.length) 0
    email := email ++ List.replicate (EMAIL_SIZE - email.length) 0 }

/-- A zeroed buffer of `n` bytes. -/
def zeroBuffer (n : Nat) : Page := List.replicate n 0

/-- The allocator whose buffers all come back zeroed. -/
def zeroHeap : Nat → Page := fun _ => zeroBuffer PAGE_SIZE

/-! ## Predicates and helpers used to state the theorems -/

/-- The page `node` has the size of a page, its `num_cells` field holds the
length of `keys`, and the key of cell `i` is `keys[i]` for every `i` below
that length. -/
def LeafKeys (node : Page) (keys : List Nat) : Prop :=
  node.length = PAGE_SIZE ∧ loadU32 node leafNodeNumCells = .ok keys.length ∧
    ∀ i (h : i < keys.length), loadU32 node (leafNodeKey i) = .ok keys[i]

instance (node : Page) (keys : List Nat) : Decidable (LeafKeys node keys) := by
  unfold LeafKeys; infer_instance

/-- The statement `insert id username email`. -/
def insertStatement (row : Row) : Statement :=
  { type := StatementType.STATEMENT_INSERT, row_to_insert := row }

/-- Run `executeInsert` on each statement in turn, collecting the results. -/
def executeInserts (fresh : Nat → Page) :
    List Statement → Table → Except Fault (List ExecuteResult × Table)
  | [], table => .ok ([], table)
  | statement :: rest, table => do
    let (result, table) ← executeInsert fresh statement table
    let (results, table) ← executeInserts fresh rest table
    pure (result :: results, table)

/-- The table obtained from a new file, with zeroed buffers, by inserting the
given rows in turn (the table without slots should a step fail). -/
def sampleTable (rows : List Row) : Table :=
  match dbOpen zeroHeap none >>= executeInserts zeroHeap (rows.map insertStatement) with
  | .ok (_, table) => table
  | .error _ => { root_page_num := 0,
                  pager := { file_descriptor := [], file_length := 0, num_pages := 0, pages := [] } }

/-- The contents of the buffer of slot `pageNum` (empty for a `NULL` slot). -/
def Table.page (table : Table) (pageNum : Nat) : Page :=
  match table.pager.pages[pageNum]? with
  | some (some page) => page
  | _ => []

/-- A leaf page, with the given parent, holding one cell per row in order. -/
def sampleLeafPage (parent : Nat) (rows : List Row) : Except Fault Page := do
  let node ← initializeLeafNode (zeroBuffer PAGE_SIZE)
  let node ← storeU32 node nodeParent parent
  let node ← storeU32 node leafNodeNumCells rows.length
  (List.range rows.length).foldlM
    (fun node i => do
      let row := rows.getD i (sampleRow 0 [] [])
      let node ← storeU32 node (leafNodeKey i) row.id
      serializeRow row node (leafNodeValue i))
    node

/-- An internal root page with one key, a left child and a right child. -/
def sampleRootPage (leftChild key rightChild : Nat) : Except Fault Page := do
  let node ← initializeInternalNode (zeroBuffer PAGE_SIZE)
  let node ← setNodeRoot node true
  let node ← storeU32 node internalNodeNumKeys 1
  let node ← storeU32 node (internalNodeCell 0) leftChild
  let node ← storeU32 node (internalNodeKey 0) key
  storeU32 node internalNodeRightChild rightChild

/-- A table of three pages: page 0 is an internal root with the key 2, page 1
its left child (a leaf with the keys 1 and 2) and page 2 its right child (a
leaf with the keys 5 and 7). -/
def sampleTree : Table :=
  match sampleRootPage 1 2 2,
        sampleLeafPage 0 [sampleRow 1 [97] [98], sampleRow 2 [97] [98]],
        sampleLeafPage 0 [sampleRow 5 [97] [98], sampleRow 7 [97] [98]] with
  | .ok root, .ok left, .ok right =>
    { root_page_num := 0,
      pager := { file_descriptor := [], file_length := 0, num_pages := 3,
                 pages := [some root, some left, some right] ++
                   List.replicate (TABLE_MAX_PAGES - 3) none } }
  | _, _, _ => { root_page_num := 0,
                 pager := { file_descriptor := [], file_length := 0, num_pages := 0, pages := [] } }

/-- A pager over a file of three zeroed pages whose `file_length` is the real
length of the file; no slot is loaded. -/
def samplePager : Pager :=
  { file_descriptor := zeroBuffer (3 * PAGE_SIZE), file_length := 3 * PAGE_SIZE, num_pages := 3,
    pages := List.replicate TABLE_MAX_PAGES none }

/-- Open the file, insert the rows, select, close, open the file that was
written, and select again: the first output, the bytes of the file after the
close, and the second output. -/
def sessionThenReopen (fresh : Nat → Page) (file : Option (List Nat)) (rows : List Row) :
    Except Fault (List PrintedRow × List Nat × List PrintedRow) := do
  let table ← dbOpen fresh file
  let (_, table) ← executeInserts fresh (rows.map insertStatement) table
  let (_, before, table) ← executeSelect fresh table
  let stored ← dbClose table
  let table ← dbOpen fresh (some stored)
  let (_, after, _) ← executeSelect fresh table
  pure (before, stored, after)

/-- The statements `insert 1 u e`, ..., `insert n u e`. -/
def ascendingInserts (n : Nat) : List Statement :=
  (List.range n).map (fun i => insertStatement (sampleRow (i + 1) [117] [101]))

/-! ## The rows a leaf holds -/

/-- The string in the `username` array of a row: the bytes before the first NUL. -/
def Row.usernameString (r : Row) : List Nat := r.username.takeWhile (fun b => b ≠ 0)

/-- The string in the `email` array of a row: the bytes before the first NUL. -/
def Row.emailString (r : Row) : List Nat := r.email.takeWhile (fun b => b ≠ 0)

/-- The line `printRow` writes for a row with a non-negative id. -/
def Row.printed (r : Row) : PrintedRow :=
  { id := (r.id : Int), username := r.usernameString, email := r.emailString }

/-- The greatest length of an email that lies, NUL included, within the first
`LEAF_NODE_CELL_SIZE` bytes of a cell: the email array starts
`4 * LEAF_NODE_KEY_SIZE + 4 * EMAIL_OFFSET` bytes into the cell. -/
def COPIED_EMAIL_LENGTH : Nat :=
  LEAF_NODE_CELL_SIZE - (4 * LEAF_NODE_KEY_SIZE + 4 * EMAIL_OFFSET) - 1

/-- A row as `prepareInsert` accepts it, with the stricter bound on the
email: the fields have the sizes of the struct members, the id is that of a
non-negative `int`, the username is a string of at most `COLUMN_USERNAME_SIZE`
bytes and the email a string of at most `COPIED_EMAIL_LENGTH` bytes. -/
def Row.Short (r : Row) : Prop :=
  r.WF ∧ r.id < U32 / 2 ∧ 0 ∈ r.username ∧ 0 ∈ r.email.take (COPIED_EMAIL_LENGTH + 1)

instance (r : Row) : Decidable r.Short := by
  unfold Row.Short; infer_instance

/-- The first `LEAF_NODE_CELL_SIZE` bytes of a cell, `img`, hold the key, the
id, the username string and the email string of the row `r`. -/
def ImageHolds (img : List Nat) (r : Row) : Prop :=
  img.take 4 = encodeU32 r.id ∧
    (img.drop 16).take 4 = encodeU32 r.id ∧
    (img.drop 32).take (r.usernameString.length + 1) = r.usernameString ++ [0] ∧
    (img.drop 164).take (r.emailString.length + 1) = r.emailString ++ [0]

/-- The page `node` is a leaf whose cells hold, in order, the rows `rows`. -/
def LeafRep (node : Page) (rows : List Row) : Prop :=
  node.length = PAGE_SIZE ∧ getNodeType node = .ok NODE_LEAF ∧
    loadU32 node leafNodeNumCells = .ok rows.length ∧
    ∀ i r, rows[i]? = some r → ∃ img,
      loadBytes node (leafNodeCell i) LEAF_NODE_CELL_SIZE = .ok img ∧ ImageHolds img r

/-- A new database: open the file, insert the rows in turn, and select.  The
results of the inserts and the lines the select prints. -/
def selectAfterInserts (fresh : Nat → Page) (file : Option (List Nat)) (rows : List Row) :
    Except Fault (List ExecuteResult × List PrintedRow) := do
  let table ← dbOpen fresh file
  let (results, table) ← executeInserts fresh (rows.map insertStatement) table
  let (_, out, _) ← executeSelect fresh table
  pure (results, out)

/-- The slot array of the table has `TABLE_MAX_PAGES` slots and its root page
is loaded and is a leaf holding `rows`. -/
def TableHolds (table : Table) (rows : List Row) : Prop :=
  table.pager.pages.length = TABLE_MAX_PAGES ∧
    ∃ node, table.pager.pages[table.root_page_num]? = some (some node) ∧ LeafRep node rows

/-! ## Parsing statements and the REPL -/

/-- The C enum `PrepareResult`. -/
inductive PrepareResult where
  | PREPARE_SUCCESS
  | PREPARE_SYNTAX_ERROR
  | PREPARE_NEGATIVE_ID
  | PREPARE_UNRECOGNIZED_STATEMENT
  | PREPARE_STRING_TOO_LONG
deriving DecidableEq, Repr

/-- The C enum `MetaCommandResult`. -/
inductive MetaCommandResult where
  | META_COMMAND_SUCCESS
  | META_COMMAND_UNRECOGNIZED_COMMAND
deriving DecidableEq, Repr

/-- What the program writes to standard output, one constructor per `printf`
of the program (the text of a `%s` argument is kept as bytes). -/
inductive Output where
  /-- `db > ` -/
  | prompt
  /-- `Unrecognized command %s` -/
  | unrecognizedCommand (line : List Nat)
  /-- `ID must be a positive number` -/
  | negativeId
  /-- `String is too long` -/
  | stringTooLong
  /-- `Syntax error. Could not parse statement` -/
  | syntaxError
  /-- `Unrecognized keyword at start of '%s'` -/
  | unrecognizedKeyword (line : List Nat)
  /-- `Executed` -/
  | executed
  /-- `Error: Table full` -/
  | tableFull
  /-- A line of `printRow`. -/
  | row (line : PrintedRow)
  /-- `Tree:` -/
  | treeTitle
  /-- `- leaf (size %d)` after `indent` spaces. -/
  | leaf (indent size : Nat)
  /-- `- %d` after `indent` spaces. -/
  | leafKey (indent key : Nat)
  /-- `- internal (size %d)` after `indent` spaces. -/
  | internal (indent size : Nat)
  /-- `- key %d` after `indent` spaces. -/
  | internalKey (indent key : Nat)
  /-- `Constants:` -/
  | constantsTitle
  /-- A line `NAME: value` of `printConstants`. -/
  | constant (name : String) (value : Nat)
deriving DecidableEq, Repr

/-- The function `printConstants`: each argument is the macro or constant as
it expands in the argument list of `printf`. -/
def printConstants : List Output :=
  [ Output.constant "ROW_SIZE" ROW_SIZE,
    Output.constant "COMMON_NODE_METADATA_SIZE"
      (NODE_TYPE_SIZE + IS_ROOT_SIZE + PARENT_POINTER_SIZE),
    Output.constant "LEAF_NODE_METADATA_SIZE"
      (NODE_TYPE_SIZE + IS_ROOT_SIZE + PARENT_POINTER_SIZE + LEAF_NODE_NUM_CELLS_SIZE
        + LEAF_NODE_NEXT_LEAF_SIZE),
    Output.constant "LEAF_NODE_CELL_SIZE" LEAF_NODE_CELL_SIZE,
    Output.constant "LEAF_NODE_SPACE_FOR_CELLS" LEAF_NODE_SPACE_FOR_CELLS,
    Output.constant "LEAF_NODE_MAX_CELLS" LEAF_NODE_MAX_CELLS ]

/-- One call of `strtok` with the delimiter `" "` on the text that remains:
the next token and the text after the delimiter that ends it, or `none`
(`NULL`) when only delimiters remain. -/
def strtok (s : List Nat) : Option (List Nat × List Nat) :=
  let s := s.dropWhile (fun c => c = 32)
  if s = [] then none
  else some (s.takeWhile (fun c => c ≠ 32), (s.dropWhile (fun c => c ≠ 32)).drop 1)

/-- The C library predicate `isspace` in the C locale. -/
def isspace (c : Nat) : Bool := c = 32 || (9 ≤ c && c ≤ 13)

/-- The C library predicate `isdigit`. -/
def isdigit (c : Nat) : Bool := 48 ≤ c && c ≤ 57

/-- The C library function `atoi` as the C library in use computes it,
`(int) strtol(s, NULL, 10)`: white space, an optional sign, then the decimal
digits up to the first other character; `strtol` keeps the value within
`long` (64 bits) and the conversion to `int` keeps the low 32 bits. -/
def atoi (s : List Nat) : Int :=
  let s := s.dropWhile isspace
  let negative := s.head? = some 45
  let s := if s.head? = some 45 ∨ s.head? = some 43 then s.drop 1 else s
  let digits := s.takeWhile isdigit
  let magnitude : Nat := digits.foldl (fun acc d => 10 * acc + (d - 48)) 0
  let value : Int := if negative then -(magnitude : Int) else (magnitude : Int)
  let long : Int := max (-9223372036854775808) (min value 9223372036854775807)
  (long + 2147483648) % 4294967296 - 2147483648

/-- The C library function `strcpy` into an array that holds `dest`: the
string and its NUL replace the first bytes, the others stay. -/
def strcpy (dest : List Nat) (src : List Nat) : List Nat :=
  src ++ [0] ++ dest.drop (src.length + 1)

/-- The function `prepareInsert`.  `buffer` is the text of the line and
`statement` the contents of the statement before the call. -/
def prepareInsert (buffer : List Nat) (statement : Statement) :
    Except Fault (PrepareResult × Statement) :=
  let statement := { statement with type := StatementType.STATEMENT_INSERT }
  match strtok buffer with
  | none => .ok (PrepareResult.PREPARE_SYNTAX_ERROR, statement)
  | some (_, rest) =>
    match strtok rest with
    | none => .ok (PrepareResult.PREPARE_SYNTAX_ERROR, statement)
    | some (idString, rest) =>
      match strtok rest with
      | none => .ok (PrepareResult.PREPARE_SYNTAX_ERROR, statement)
      | some (username, rest) =>
        match strtok rest with
        | none => .ok (PrepareResult.PREPARE_SYNTAX_ERROR, statement)
        | some (email, _) => do
          let id := atoi idString
          if id < 0 then pure (PrepareResult.PREPARE_NEGATIVE_ID, statement)
          else if username.length > COLUMN_USERNAME_SIZE then
            pure (PrepareResult.PREPARE_STRING_TOO_LONG, statement)
          else if email.length > COLUMN_EMAIL_SIZE then
            pure (PrepareResult.PREPARE_STRING_TOO_LONG, statement)
          else
            pure (PrepareResult.PREPARE_SUCCESS,
              { statement with
                row_to_insert :=
                  { id := id.toNat
                    username := strcpy statement.row_to_insert.username username
                    email := strcpy statement.row_to_insert.email email } })

/-- The text `insert`. -/
def insertKeyword : List Nat := [105, 110, 115, 101, 114, 116]

/-- The text `select`. -/
def selectKeyword : List Nat := [115, 101, 108, 101, 99, 116]

/-- The function `prepareStatement`: `strncmp(buffer, "insert", 6) == 0`
holds when the line starts with `insert`, `strcmp(buffer, "select") == 0`
when the line is `select`. -/
def prepareStatement (buffer : List Nat) (statement : Statement) :
    Except Fault (PrepareResult × Statement) :=
  if buffer.take 6 = insertKeyword then prepareInsert buffer statement
  else if buffer = selectKeyword then
    .ok (PrepareResult.PREPARE_SUCCESS, { statement with type := StatementType.STATEMENT_SELECT })
  else .ok (PrepareResult.PREPARE_UNRECOGNIZED_STATEMENT, statement)

/-- The function `executeStatement`, returning what it prints as well. -/
def executeStatement (fresh : Nat → Page) (statement : Statement) (table : Table) :
    Except Fault (ExecuteResult × List PrintedRow × Table) :=
  match statement.type with
  | StatementType.STATEMENT_INSERT => do
    let (result, table) ← executeInsert fresh statement table
    pure (result, [], table)
  | StatementType.STATEMENT_SELECT => executeSelect fresh table

/-- The loop over the keys of a leaf in `print_tree`, from key `i` on. -/
def printLeafKeys (node : Page) (indentationLevel : Nat) : Nat → Nat → Except Fault (List Output)
  | 0, _ => .ok []
  | count + 1, i => do
    let key ← loadU32 node (leafNodeKey i)
    let rest ← printLeafKeys node indentationLevel count (i + 1)
    pure (Output.leafKey (indentationLevel + 1) key :: rest)

/-- The function `print_tree`; `fuel` bounds the depth of the recursion.  The
result is the output and the pager after the calls of `getPage`. -/
def print_tree (fresh : Nat → Page) :
    Nat → Pager → Nat → Nat → Except Fault (List Output × Pager)
  | 0, _, _, _ => .error .outOfFuel
  | fuel + 1, pager, pageNum, indentationLevel => do
    let pager ← getPage fresh pager pageNum
    let node ← pager.buffer pageNum
    let type ← getNodeType node
    if type = NODE_LEAF then do
      let numKeys ← loadU32 node leafNodeNumCells
      let keys ← printLeafKeys node indentationLevel numKeys 0
      pure (Output.leaf indentationLevel numKeys :: keys, pager)
    else if type = NODE_INTERNAL then do
      let numKeys ← loadU32 node internalNodeNumKeys
      let (out, pager) ← (List.range numKeys).foldlM
        (fun (acc : List Output × Pager) i => do
          let node ← acc.2.buffer pageNum
          let childPtr ← internalNodeChild node i
          let child ← loadU32 node childPtr
          let (sub, pager) ← print_tree fresh fuel acc.2 child (indentationLevel + 1)
          let node ← pager.buffer pageNum
          let key ← loadU32 node (internalNodeKey i)
          pure (acc.1 ++ sub ++ [Output.internalKey (indentationLevel + 1) key], pager))
        ([Output.internal indentationLevel numKeys], pager)
      let node ← pager.buffer pageNum
      let child ← loadU32 node internalNodeRightChild
      let (sub, pager) ← print_tree fresh fuel pager child (indentationLevel + 1)
      pure (out ++ sub, pager)
    else pure ([], pager)

/-- How one iteration of the loop of `main` ends. -/
inductive ReplResult where
  /-- The loop goes on to the next prompt. -/
  | continues (out : List Output) (table : Table)
  /-- The program ended through `exit(EXIT_SUCCESS)`; `file` is the database
  file as `dbClose` left it. -/
  | exits (out : List Output) (file : List Nat)
deriving DecidableEq, Repr

/-- The text `.exit`. -/
def exitCommand : List Nat := [46, 101, 120, 105, 116]

/-- The text `.btree`. -/
def btreeCommand : List Nat := [46, 98, 116, 114, 101, 101]

/-- The text `.constants`. -/
def constantsCommand : List Nat := [46, 99, 111, 110, 115, 116, 97, 110, 116, 115]

/-- One iteration of the loop of `main` on a line that `readInput` has read
(without its newline).  `statement` is the contents of the local variable
`statement`, which the iteration does not initialise. -/
def replStep (fresh : Nat → Page) (statement : Statement) (line : List Nat) (table : Table) :
    Except Fault ReplResult :=
  if line.head? = some 46 then
    -- execMetaCommand
    if line = exitCommand then do
      let file ← dbClose table
      pure (ReplResult.exits [Output.prompt] file)
    else if line = btreeCommand then do
      let (out, pager) ← print_tree fresh (TABLE_MAX_PAGES + 1) table.pager 0 0
      pure (ReplResult.continues ([Output.prompt, Output.treeTitle] ++ out)
        { table with pager := pager })
    else if line = constantsCommand then
      pure (ReplResult.continues ([Output.prompt, Output.constantsTitle] ++ printConstants) table)
    else pure (ReplResult.continues [Output.prompt, Output.unrecognizedCommand line] table)
  else do
    let (prepared, statement) ← prepareStatement line statement
    let execute (out : List Output) : Except Fault ReplResult := do
      let (result, rows, table) ← executeStatement fresh statement table
      let out := out ++ rows.map Output.row
      match result with
      | ExecuteResult.EXECUTE_SUCCESS => pure (ReplResult.continues (out ++ [Output.executed]) table)
      | ExecuteResult.EXECUTE_TABLE_FULL =>
        pure (ReplResult.continues (out ++ [Output.tableFull]) table)
      | ExecuteResult.EXECUTE_DUPLICATE_KEY => pure (ReplResult.continues out table)
    match prepared with
    | PrepareResult.PREPARE_SUCCESS => execute [Output.prompt]
    | PrepareResult.PREPARE_NEGATIVE_ID => execute [Output.prompt, Output.negativeId]
    | PrepareResult.PREPARE_STRING_TOO_LONG =>
      pure (ReplResult.continues [Output.prompt, Output.stringTooLong] table)
    | PrepareResult.PREPARE_SYNTAX_ERROR =>
      pure (ReplResult.continues [Output.prompt, Output.syntaxError] table)
    | PrepareResult.PREPARE_UNRECOGNIZED_STATEMENT =>
      pure (ReplResult.continues [Output.prompt, Output.unrecognizedKeyword line] table)

/-- The table of a new database whose root leaf has the value
`LEAF_NODE_MAX_CELLS` stored in its `num_cells` field. -/
def sampleFullLeaf : Table :=
  match (sampleTable []).pager.writeU32 0 leafNodeNumCells LEAF_NODE_MAX_CELLS with
  | .ok pager => { root_page_num := 0, pager := pager }
  | .error _ => sampleTable []

/-- The table `sampleTree` with one more page: page 3, a leaf with the keys 3
and 4 whose parent field names page 0. -/
def sampleTreeWithLeaf : Table :=
  match sampleLeafPage 0 [sampleRow 3 [97] [98], sampleRow 4 [97] [98]] with
  | .ok leaf =>
    { root_page_num := 0,
      pager := { sampleTree.pager with
                 num_pages := 4
                 pages := sampleTree.pager.pages.set 3 (some leaf) } }
  | .error _ => sampleTree

/-- Every loaded page of the pager has `PAGE_SIZE` bytes. -/
def PagesSized (pager : Pager) : Prop :=
  ∀ (i : Nat) (page : Page), pager.pages[i]? = some (some page) → page.length = PAGE_SIZE

/-- The line `insert id username email` with single spaces; the id is given
by its text. -/
def insertLine (idString username email : List Nat) : List Nat :=
  insertKeyword ++ [32] ++ idString ++ [32] ++ username ++ [32] ++ email

/-- The decimal digits of a number, most significant first, as text. -/
def decimalString (n : Nat) : List Nat :=
  if n = 0 then [48] else ((Nat.digits 10 n).map (fun d => d + 48)).reverse

/-- The check of `PagesSized` slot by slot. -/
def pagesSizedCheck (pager : Pager) : Bool :=
  pager.pages.all (fun slot =>
    match slot with
    | some page => decide (page.length = PAGE_SIZE)
    | none => true)

/-- The page `node` has the size of a page, its `num_keys` field holds the
length of `keys`, and the key of cell `i` is `keys[i]` for every `i` below
that length. -/
def InternalKeys (node : Page) (keys : List Nat) : Prop :=
  node.length = PAGE_SIZE ∧ loadU32 node internalNodeNumKeys = .ok keys.length ∧
    ∀ i (h : i < keys.length), loadU32 node (internalNodeKey i) = .ok keys[i]

instance (node : Page) (keys : List Nat) : Decidable (InternalKeys node keys) := by
  unfold InternalKeys; infer_instance

/-- The loop of a scan: `incrementCursor` until `end_of_table` is set;
`visited` collects the cell numbers the cursor stood at. -/
def scanLoop (fresh : Nat → Page) :
    Nat → Table → Cursor → List Nat → Except Fault (List Nat × Table)
  | 0, _, _, _ => .error .outOfFuel
  | fuel + 1, table, cursor, visited =>
    match cursor.end_of_table with
    | none => .error .undefinedBehavior
    | some true => .ok (visited, table)
    | some false => do
      let (next, table) ← incrementCursor fresh table cursor
      scanLoop fresh fuel table next (visited ++ [cursor.cell_num])

/-- The scan formed by `tableStart` followed by `incrementCursor` until
`end_of_table`. -/
def scanCells (fresh : Nat → Page) (table : Table) : Except Fault (List Nat × Table) := do
  let (cursor, table) ← tableStart fresh table
  scanLoop fresh U32 table cursor []

/-- The fields of a node page that the accessors address: the common header,
the header and the cells of a leaf, and the header and the cells of an
internal node. -/
inductive NodeField where
  | nodeType
  | isRoot
  | parent
  | leafNumCells
  | leafNextLeaf
  | leafKey (cellNum : Nat)
  | leafValue (cellNum : Nat)
  | internalNumKeys
  | internalRightChild
  | internalChild (cellNum : Nat)
  | internalKey (cellNum : Nat)
deriving DecidableEq, Repr

/-- The fields of a leaf page. -/
def NodeField.ofLeaf : NodeField → Bool
  | .nodeType | .isRoot | .parent | .leafNumCells | .leafNextLeaf | .leafKey _ | .leafValue _ => true
  | _ => false

/-- The fields of an internal page. -/
def NodeField.ofInternal : NodeField → Bool
  | .nodeType | .isRoot | .parent | .internalNumKeys | .internalRightChild | .internalChild _
  | .internalKey _ => true
  | _ => false

/-- The byte offset the accessor of a field returns. -/
def NodeField.offset : NodeField → Nat
  | .nodeType => 4 * NODE_TYPE_OFFSET
  | .isRoot => 4 * IS_ROOT_OFFSET
  | .parent => nodeParent
  | .leafNumCells => leafNodeNumCells
  | .leafNextLeaf => leafNodeNextLeaf
  | .leafKey cellNum => leafNodeKey cellNum
  | .leafValue cellNum => leafNodeValue cellNum
  | .internalNumKeys => internalNodeNumKeys
  | .internalRightChild => internalNodeRightChild
  | .internalChild cellNum => internalNodeCell cellNum
  | .internalKey cellNum => internalNodeKey cellNum

/-- The number of bytes addressed through the accessor of a field: one for
the two `uint8_t` fields, four for a `uint32_t`, and for a value the bytes
from its start to the end of the email as `serializeRow` places it. -/
def NodeField.size : NodeField → Nat
  | .nodeType => NODE_TYPE_SIZE
  | .isRoot => IS_ROOT_SIZE
  | .leafValue _ => 4 * EMAIL_OFFSET + EMAIL_SIZE
  | _ => 4

/-- What a field holds: a number or a row. -/
inductive FieldValue where
  | scalar (value : Nat)
  | row (value : Row)
deriving DecidableEq, Repr

/-- The write of a field through its accessor: `value` for a scalar field,
`row` for the value of a leaf cell. -/
def NodeField.write (field : NodeField) (node : Page) (value : Nat) (row : Row) :
    Except Fault Page :=
  match field with
  | .nodeType => setNodeType node value
  | .isRoot => setNodeRoot node (decide (value ≠ 0))
  | .leafValue cellNum => serializeRow row node (leafNodeValue cellNum)
  | other => storeU32 node other.offset value

/-- The read of a field through its accessor. -/
def NodeField.read (field : NodeField) (node : Page) : Except Fault FieldValue :=
  match field with
  | .nodeType => do
    let type ← getNodeType node
    pure (FieldValue.scalar type)
  | .isRoot => do
    let isRoot ← isRootNode node
    pure (FieldValue.scalar (if isRoot then 1 else 0))
  | .leafValue cellNum => do
    let row ← deserializeRow node (leafNodeValue cellNum)
    pure (FieldValue.row row)
  | other => do
    let value ← loadU32 node other.offset
    pure (FieldValue.scalar value)

/-- What an internal node holds: the pairs of child and key of its `num_keys`
cells, and its right child. -/
def internalNodeCells (node : Page) : Except Fault (List (Nat × Nat) × Nat) := do
  let numKeys ← loadU32 node internalNodeNumKeys
  let cells ← (List.range numKeys).mapM (fun i => do
    let child ← loadU32 node (internalNodeCell i)
    let key ← loadU32 node (internalNodeKey i)
    pure (child, key))
  let rightChild ← loadU32 node internalNodeRightChild
  pure (cells, rightChild)

/-- A table of four pages: page 0 is an internal root with the key 5, page 1
its left child (a leaf with the keys 4 and 5), page 2 its right child (a leaf
with the keys 8 and 9), and page 3 a leaf with the keys 1 and 2 that is not
yet a child of the root. -/
def sampleSplitTree : Table :=
  match sampleRootPage 1 5 2,
        sampleLeafPage 0 [sampleRow 4 [97] [98], sampleRow 5 [97] [98]],
        sampleLeafPage 0 [sampleRow 8 [97] [98], sampleRow 9 [97] [98]],
        sampleLeafPage 0 [sampleRow 1 [97] [98], sampleRow 2 [97] [98]] with
  | .ok root, .ok left, .ok right, .ok low =>
    { root_page_num := 0,
      pager := { file_descriptor := [], file_length := 0, num_pages := 4,
                 pages := [some root, some left, some right, some low] ++
                   List.replicate (TABLE_MAX_PAGES - 4) none } }
  | _, _, _, _ => { root_page_num := 0,
                    pager := { file_descriptor := [], file_length := 0, num_pages := 0,
                               pages := [] } }

/-- A table of two pages, both leaves: page 0, the root, with the keys 1 and
2, and page 1 with the keys 5 and 7. -/
def sampleTwoLeaves : Table :=
  match sampleLeafPage 0 [sampleRow 1 [97] [98], sampleRow 2 [97] [98]],
        sampleLeafPage 0 [sampleRow 5 [97] [98], sampleRow 7 [97] [98]] with
  | .ok left, .ok right =>
    { root_page_num := 0,
      pager := { file_descriptor := [], file_length := 0, num_pages := 2,
                 pages := [some left, some right] ++ List.replicate (TABLE_MAX_PAGES - 2) none } }
  | _, _ => { root_page_num := 0,
              pager := { file_descriptor := [], file_length := 0, num_pages := 0, pages := [] } }

/-- The check that no loaded page other than page 0 has `is_root` set. -/
def otherPagesNotRoot (pager : Pager) : Bool :=
  (pager.pages.drop 1).all (fun slot =>
    match slot with
    | some page => decide (isRootNode page = .ok false)
    | none => true)

/-- The pager `pagerOpen` returns for a new file: no slot is loaded. -/
def emptyPager : Pager :=
  { file_descriptor := [], file_length := 0, num_pages := 0,
    pages := List.replicate TABLE_MAX_PAGES none }

/-- The table of a new database whose root leaf has 100 stored in its
`num_cells` field. -/
def sampleCountedLeaf : Table :=
  match (sampleTable []).pager.writeU32 0 leafNodeNumCells 100 with
  | .ok pager => { root_page_num := 0, pager := pager }
  | .error _ => sampleTable []

/-! ## The chain of leaves -/

/-- The keys of the cells `i`, `i + 1`, ... of a leaf, `count` of them, read
as `print_tree` reads them. -/
def leafNodeKeys (node : Page) : Nat → Nat → Except Fault (List Nat)
  | 0, _ => .ok []
  | count + 1, i => do
    let key ← loadU32 node (leafNodeKey i)
    let rest ← leafNodeKeys node count (i + 1)
    pure (key :: rest)

/-- Follow `next_leaf` from the leaf in slot `pageNum` until it is 0: the
page numbers visited, each with the keys of its `num_cells` cells.  `fuel`
bounds the number of leaves visited. -/
def leafChain (pager : Pager) : Nat → Nat → Except Fault (List (Nat × List Nat))
  | 0, _ => .error .outOfFuel
  | fuel + 1, pageNum => do
    let node ← pager.buffer pageNum
    let numCells ← loadU32 node leafNodeNumCells
    let keys ← leafNodeKeys node numCells 0
    let nextLeaf ← loadU32 node leafNodeNextLeaf
    if nextLeaf = 0 then pure [(pageNum, keys)]
    else do
      let rest ← leafChain pager fuel nextLeaf
      pure ((pageNum, keys) :: rest)

/-- The statements of `splitLeafNodeAndInsert` before its copy loop: the old
page, its greatest key, the new page and its initialisation, and the three
assignments to `parent` and `next_leaf`.  The result is the pager and the
values of `oldMax` and `newPageNum`. -/
def splitLeafNodeLinks (fresh : Nat → Page) (table : Table) (cursor : Cursor) :
    Except Fault (Pager × Nat × Nat) := do
  let oldPageNum := cursor.page_num
  let pager ← getPage fresh table.pager oldPageNum
  let oldNode ← pager.buffer oldPageNum
  let oldMax ← getNodeMaxKey oldNode
  let newPageNum := getUnusedPageNum pager
  let pager ← getPage fresh pager newPageNum
  let pager ← pager.update newPageNum initializeLeafNode
  let oldParent ← pager.readU32 oldPageNum nodeParent
  let pager ← pager.writeU32 newPageNum nodeParent oldParent
  let oldNextLeaf ← pager.readU32 oldPageNum leafNodeNextLeaf
  let pager ← pager.writeU32 newPageNum leafNodeNextLeaf oldNextLeaf
  let pager ← pager.writeU32 oldPageNum leafNodeNextLeaf newPageNum
  pure (pager, oldMax, newPageNum)

/-- The statements of `splitLeafNodeAndInsert` from its copy loop on, given
the pager and the values of `oldMax` and `newPageNum` the statements before
the loop leave. -/
def splitLeafNodeMove (fresh : Nat → Page) (table : Table) (cursor : Cursor) (key : Nat)
    (value : Row) (pager : Pager) (oldMax newPageNum : Nat) : Except Fault Table := do
  let oldPageNum := cursor.page_num
  let pager ← splitLeafNodeLoop oldPageNum newPageNum cursor key value (LEAF_NODE_MAX_CELLS + 1) pager
  let pager ← pager.writeU32 oldPageNum leafNodeNumCells LEAF_NODE_LEFT_SPLIT_COUNT
  let pager ← pager.writeU32 newPageNum leafNodeNumCells LEAF_NODE_RIGHT_SPLIT_COUNT
  let oldNode ← pager.buffer oldPageNum
  let isRoot ← isRootNode oldNode
  if isRoot then createNewRoot fresh { table with pager := pager } newPageNum
  else do
    let parentPageNum ← pager.readU32 oldPageNum nodeParent
    let oldNode ← pager.buffer oldPageNum
    let newMax ← getNodeMaxKey oldNode
    let pager ← getPage fresh pager parentPageNum
    let pager ← pager.update parentPageNum
      (fun parent => updateInternalNodeKey parent oldMax newMax)
    insertInternalNode fresh { table with pager := pager } parentPageNum newPageNum

/-- The table holds one page, the root in slot 0: a leaf whose keys are
`keys`, in strictly ascending order, whose `next_leaf` is 0 and whose parent
field holds a `uint32_t`; the pager is as `pagerOpen` and one `getPage` leave
it. -/
def SingleLeaf (table : Table) (keys : List Nat) : Prop :=
  table.root_page_num = 0 ∧ table.pager.pages.length = TABLE_MAX_PAGES ∧
    table.pager.file_length = 0 ∧ table.pager.num_pages = 1 ∧
    (∀ i, i ≠ 0 → i < TABLE_MAX_PAGES → table.pager.pages[i]? = some none) ∧
    keys.Pairwise (fun a b => a < b) ∧
    ∃ node, table.pager.pages[0]? = some (some node) ∧ getNodeType node = .ok NODE_LEAF ∧
      isRootNode node = .ok true ∧ loadU32 node leafNodeNextLeaf = .ok 0 ∧
      (∃ parent, loadU32 node nodeParent = .ok parent ∧ parent < U32) ∧ LeafKeys node keys

/-! # Theorems

## Loads and stores -/

theorem getElem?_store (buf : Page) (off : Nat) (bs : List Nat) (i : Nat)
    (h : off + bs.length ≤ buf.length) :
    (buf.take off ++ bs ++ buf.drop (off + bs.length))[i]? =
      if off ≤ i ∧ i < off + bs.length then bs[i - off]? else buf[i]? := by
  have hl : (buf.take off).length = off := by rw [List.length_take]; omega
  by_cases h1 : i < off
  · rw [List.append_assoc, List.getElem?_append_left (by omega), if_neg (by omega),
      List.getElem?_take, if_pos h1]
  · by_cases h2 : i < off + bs.length
    · rw [List.getElem?_append_left (by rw [List.length_append]; omega),
        List.getElem?_append_right (by omega), if_pos (by omega), hl]
    · rw [List.getElem?_append_right (by rw [List.length_append]; omega), if_neg (by omega),
        List.getElem?_drop, List.length_append, hl]
      congr 1
      omega

theorem getElem?_window (l : List Nat) (o n j : Nat) :
    ((l.drop o).take n)[j]? = if j < n then l[o + j]? else none := by
  simp [List.getElem?_take, List.getElem?_drop]

theorem loadBytes_ok_iff (buf : Page) (off len : Nat) (bs : List Nat) :
    loadBytes buf off len = .ok bs ↔ off + len ≤ buf.length ∧ bs = (buf.drop off).take len := by
  unfold loadBytes
  split
  · simp_all [eq_comm]
  · simp_all

theorem loadBytes_length {buf : Page} {off len : Nat} {bs : List Nat}
    (h : loadBytes buf off len = .ok bs) : bs.length = len := by
  obtain ⟨hb, rfl⟩ := (loadBytes_ok_iff _ _ _ _).1 h
  simp; omega

theorem storeBytes_ok_iff (buf : Page) (off : Nat) (bs : List Nat) (buf' : Page) :
    storeBytes buf off bs = .ok buf' ↔
      off + bs.length ≤ buf.length ∧ buf' = buf.take off ++ bs ++ buf.drop (off + bs.length) := by
  unfold storeBytes
  split
  · simp_all [eq_comm]
  · simp_all

theorem storeBytes_length {buf : Page} {off : Nat} {bs : List Nat} {buf' : Page}
    (h : storeBytes buf off bs = .ok buf') : buf'.length = buf.length := by
  obtain ⟨hb, rfl⟩ := (storeBytes_ok_iff _ _ _ _).1 h
  simp; omega

theorem storeBytes_isOk (buf : Page) (off : Nat) (bs : List Nat)
    (h : off + bs.length ≤ buf.length) : ∃ buf', storeBytes buf off bs = .ok buf' := by
  unfold storeBytes
  rw [if_pos h]
  exact ⟨_, rfl⟩

/-- A load from inside a region just stored returns the bytes stored there. -/
theorem loadBytes_storeBytes_inside {buf : Page} {off : Nat} {bs : List Nat} {buf' : Page}
    (h : storeBytes buf off bs = .ok buf') (k n : Nat) (hk : k + n ≤ bs.length) :
    loadBytes buf' (off + k) n = .ok ((bs.drop k).take n) := by
  have hlen := storeBytes_length h
  obtain ⟨hb, rfl⟩ := (storeBytes_ok_iff _ _ _ _).1 h
  rw [loadBytes_ok_iff]
  refine ⟨by omega, ?_⟩
  apply List.ext_getElem?
  intro j
  rw [getElem?_window, getElem?_window, getElem?_store _ _ _ _ hb]
  by_cases hj : j < n
  · rw [if_pos hj, if_pos hj, if_pos (by omega)]
    congr 1
    omega
  · rw [if_neg hj, if_neg hj]

/-- A load from a region disjoint from the one just stored is unchanged. -/
theorem loadBytes_storeBytes_disjoint {buf : Page} {off : Nat} {bs : List Nat} {buf' : Page}
    (h : storeBytes buf off bs = .ok buf') (o n : Nat)
    (hd : o + n ≤ off ∨ off + bs.length ≤ o) :
    loadBytes buf' o n = loadBytes buf o n := by
  have hlen := storeBytes_length h
  obtain ⟨hb, rfl⟩ := (storeBytes_ok_iff _ _ _ _).1 h
  unfold loadBytes
  rw [hlen]
  split
  · congr 1
    apply List.ext_getElem?
    intro j
    rw [getElem?_window, getElem?_window, getElem?_store _ _ _ _ hb]
    by_cases hj : j < n
    · rw [if_pos hj, if_pos hj, if_neg (by omega)]
    · rw [if_neg hj, if_neg hj]
  · rfl

/-- A load from inside a region that was loaded returns the matching part. -/
theorem loadBytes_sub {buf : Page} {off len : Nat} {bs : List Nat}
    (h : loadBytes buf off len = .ok bs) (k n : Nat) (hk : k + n ≤ len) :
    loadBytes buf (off + k) n = .ok ((bs.drop k).take n) := by
  obtain ⟨hb, rfl⟩ := (loadBytes_ok_iff _ _ _ _).1 h
  rw [loadBytes_ok_iff]
  refine ⟨by omega, ?_⟩
  apply List.ext_getElem?
  intro j
  rw [getElem?_window, getElem?_window, getElem?_window]
  by_cases hj : j < n
  · rw [if_pos hj, if_pos hj, if_pos (by omega)]
    congr 1
    omega
  · rw [if_neg hj, if_neg hj]

theorem loadBytes_storeBytes_same {buf : Page} {off : Nat} {bs : List Nat} {buf' : Page}
    (h : storeBytes buf off bs = .ok buf') : loadBytes buf' off bs.length = .ok bs := by
  have := loadBytes_storeBytes_inside h 0 bs.length (by omega)
  simpa using this

theorem decodeU32_encodeU32 (v : Nat) (h : v < U32) : decodeU32 (encodeU32 v) = v := by
  unfold U32 at h
  simp only [encodeU32, decodeU32]
  omega

theorem encodeU32_length (v : Nat) : (encodeU32 v).length = 4 := rfl

theorem loadU32_storeU32_same {buf : Page} {off v : Nat} {buf' : Page}
    (h : storeU32 buf off v = .ok buf') (hv : v < U32) : loadU32 buf' off = .ok v := by
  unfold loadU32
  have := loadBytes_storeBytes_same h
  rw [encodeU32_length] at this
  rw [this]
  simp [bind, Except.bind, pure, Except.pure, decodeU32_encodeU32 v hv]

theorem loadU32_storeBytes_disjoint {buf : Page} {off : Nat} {bs : List Nat} {buf' : Page}
    (h : storeBytes buf off bs = .ok buf') (o : Nat) (hd : o + 4 ≤ off ∨ off + bs.length ≤ o) :
    loadU32 buf' o = loadU32 buf o := by
  unfold loadU32
  rw [loadBytes_storeBytes_disjoint h o 4 hd]

theorem loadU8_storeBytes_disjoint {buf : Page} {off : Nat} {bs : List Nat} {buf' : Page}
    (h : storeBytes buf off bs = .ok buf') (o : Nat) (hd : o + 1 ≤ off ∨ off + bs.length ≤ o) :
    loadU8 buf' o = loadU8 buf o := by
  unfold loadU8
  rw [loadBytes_storeBytes_disjoint h o 1 hd]

/-! ## The row codec -/

theorem serializeRow_ok_iff (r : Row) (buf : Page) (d : Nat) (buf' : Page) :
    serializeRow r buf d = .ok buf' ↔
      ∃ b1 b2, storeBytes buf (d + 4 * ID_OFFSET) (encodeU32 r.id) = .ok b1 ∧
        storeBytes b1 (d + 4 * USERNAME_OFFSET) r.username = .ok b2 ∧
        storeBytes b2 (d + 4 * EMAIL_OFFSET) r.email = .ok buf' := by
  unfold serializeRow
  cases h1 : storeBytes buf (d + 4 * ID_OFFSET) (encodeU32 r.id) with
  | error e => simp [bind, Except.bind]
  | ok b1 =>
    cases h2 : storeBytes b1 (d + 4 * USERNAME_OFFSET) r.username with
    | error e => simp [bind, Except.bind, h2]
    | ok b2 => simp [bind, Except.bind, h2]

theorem serializeRow_isOk (r : Row) (hr : r.WF) (buf : Page) (d : Nat)
    (hfit : d + 4 * EMAIL_OFFSET + EMAIL_SIZE ≤ buf.length) :
    ∃ buf', serializeRow r buf d = .ok buf' := by
  obtain ⟨_, hu, he⟩ := hr
  have hc : 4 * ID_OFFSET = 0 ∧ 4 * USERNAME_OFFSET = 16 ∧ 4 * EMAIL_OFFSET = 148 ∧
      USERNAME_SIZE = 33 ∧ EMAIL_SIZE = 256 := by decide
  obtain ⟨c1, c2, c3, c4, c5⟩ := hc
  rw [c3, c5] at hfit
  obtain ⟨b1, h1⟩ := storeBytes_isOk buf (d + 4 * ID_OFFSET)
    (encodeU32 r.id) (by rw [encodeU32_length, c1]; omega)
  obtain ⟨b2, h2⟩ := storeBytes_isOk b1 (d + 4 * USERNAME_OFFSET)
    r.username (by rw [storeBytes_length h1, hu, c2, c4]; omega)
  obtain ⟨b3, h3⟩ := storeBytes_isOk b2 (d + 4 * EMAIL_OFFSET)
    r.email (by rw [storeBytes_length h2, storeBytes_length h1, he, c3, c5]; omega)
  exact ⟨b3, (serializeRow_ok_iff _ _ _ _).2 ⟨b1, b2, h1, h2, h3⟩⟩

theorem serializeRow_length {r : Row} {buf : Page} {d : Nat} {buf' : Page}
    (h : serializeRow r buf d = .ok buf') : buf'.length = buf.length := by
  obtain ⟨b1, b2, h1, h2, h3⟩ := (serializeRow_ok_iff _ _ _ _).1 h
  rw [storeBytes_length h3, storeBytes_length h2, storeBytes_length h1]

/-- The three loads of `deserializeRow` after `serializeRow` at the same place. -/
theorem serializeRow_loads {r : Row} (hr : r.WF) {buf : Page} {d : Nat} {buf' : Page}
    (h : serializeRow r buf d = .ok buf') :
    loadBytes buf' (d + 4 * ID_OFFSET) ID_SIZE = .ok (encodeU32 r.id) ∧
    loadBytes buf' (d + 4 * USERNAME_OFFSET) USERNAME_SIZE = .ok r.username ∧
    loadBytes buf' (d + 4 * EMAIL_OFFSET) EMAIL_SIZE = .ok r.email := by
  obtain ⟨_, hu, he⟩ := hr
  obtain ⟨b1, b2, h1, h2, h3⟩ := (serializeRow_ok_iff _ _ _ _).1 h
  have hc : 4 * ID_OFFSET = 0 ∧ 4 * USERNAME_OFFSET = 16 ∧ 4 * EMAIL_OFFSET = 148 ∧
      USERNAME_SIZE = 33 ∧ EMAIL_SIZE = 256 ∧ ID_SIZE = 4 := by decide
  obtain ⟨c1, c2, c3, c4, c5, c6⟩ := hc
  rw [c1, c2, c3, c4, c5, c6]
  rw [c1] at h1
  rw [c2] at h2
  rw [c3] at h3
  rw [c4] at hu
  rw [c5] at he
  refine ⟨?_, ?_, ?_⟩
  · rw [loadBytes_storeBytes_disjoint h3 _ _ (by omega),
      loadBytes_storeBytes_disjoint h2 _ _ (by omega)]
    exact loadBytes_storeBytes_same h1
  · rw [loadBytes_storeBytes_disjoint h3 _ _ (by omega), ← hu]
    exact loadBytes_storeBytes_same h2
  · rw [← he]
    exact loadBytes_storeBytes_same h3

/-- C4. Row codec round trip: for every row whose fields have the sizes of the
struct members and every destination with room for the writes of the codec
(the last byte written is byte `4 * EMAIL_OFFSET + EMAIL_SIZE - 1` after the
destination), `serializeRow` succeeds and `deserializeRow` applied to the
bytes it wrote yields the same row. -/
theorem deserializeRow_serializeRow (r : Row) (hr : r.WF) (buf : Page) (destination : Nat)
    (hfit : destination + 4 * EMAIL_OFFSET + EMAIL_SIZE ≤ buf.length) :
    ∃ buf', serializeRow r buf destination = .ok buf' ∧
      deserializeRow buf' destination = .ok r := by
  obtain ⟨buf', h⟩ := serializeRow_isOk r hr buf destination hfit
  refine ⟨buf', h, ?_⟩
  obtain ⟨l1, l2, l3⟩ := serializeRow_loads hr h
  unfold deserializeRow
  rw [l1, l2, l3]
  simp [bind, Except.bind, pure, Except.pure, decodeU32_encodeU32 r.id hr.1]


/-! ## Offsets in closed form -/

theorem leafNodeNumCells_eq : leafNodeNumCells = 24 := by decide

theorem leafNodeNextLeaf_eq : leafNodeNextLeaf = 40 := by decide

theorem leafNodeCell_eq (i : Nat) : leafNodeCell i = 56 + 1188 * i := by
  have h : LEAF_NODE_METADATA_SIZE = 14 ∧ LEAF_NODE_CELL_SIZE = 297 := by decide
  unfold leafNodeCell
  rw [h.1, h.2]
  omega

theorem leafNodeKey_eq (i : Nat) : leafNodeKey i = 56 + 1188 * i := leafNodeCell_eq i

theorem leafNodeValue_eq (i : Nat) : leafNodeValue i = 72 + 1188 * i := by
  have h : 4 * LEAF_NODE_KEY_SIZE = 16 := by decide
  unfold leafNodeValue
  rw [h, leafNodeCell_eq]
  omega

theorem loadU32_ok_bound {buf : Page} {off v : Nat} (h : loadU32 buf off = .ok v) :
    off + 4 ≤ buf.length := by
  unfold loadU32 at h
  cases hb : loadBytes buf off 4 with
  | error e => rw [hb] at h; simp [bind, Except.bind] at h
  | ok bs => exact ((loadBytes_ok_iff _ _ _ _).1 hb).1

/-! ## The pager on a slot that is loaded -/

theorem getPage_loaded (fresh : Nat → Page) (pager : Pager) (pageNum : Nat) (page : Page)
    (hslot : pager.pages[pageNum]? = some (some page)) (hnum : pageNum ≤ TABLE_MAX_PAGES) :
    getPage fresh pager pageNum = .ok pager := by
  unfold getPage
  rw [if_neg (by omega), hslot]

theorem buffer_loaded (pager : Pager) (pageNum : Nat) (page : Page)
    (hslot : pager.pages[pageNum]? = some (some page)) : pager.buffer pageNum = .ok page := by
  unfold Pager.buffer
  rw [hslot]

theorem slot_lt_of_loaded {pager : Pager} {pageNum : Nat} {page : Page}
    (hslot : pager.pages[pageNum]? = some (some page)) : pageNum < pager.pages.length := by
  by_contra h
  rw [List.getElem?_eq_none (by omega)] at hslot
  cases hslot

/-! ## Binary search in a leaf -/

/-- The loop of `findLeafNode` on keys `f 0 < f 1 < ...` that can all be
loaded: it returns, enough fuel given, the least index whose key is not below
`key`. -/
theorem findLeafNodeLoop_spec (node : Page) (key n : Nat) (f : Nat → Nat)
    (hkey : ∀ i, i < n → loadU32 node (leafNodeKey i) = .ok (f i))
    (hmono : ∀ i j, i < j → j < n → f i < f j) (hn : n + n < U32) :
    ∀ fuel lo hi, lo ≤ hi → hi ≤ n → hi - lo < fuel →
      (∀ i, i < lo → f i < key) → (∀ i, hi ≤ i → i < n → key < f i) →
      ∃ r, findLeafNodeLoop node key fuel lo hi = .ok r ∧ lo ≤ r ∧ r ≤ hi ∧
        (∀ i, i < r → f i < key) ∧ (∀ i, r ≤ i → i < n → key ≤ f i) := by
  intro fuel
  induction fuel with
  | zero => intro lo hi _ _ h; omega
  | succ fuel ih =>
    intro lo hi hle hhi hfuel hlow hhigh
    unfold findLeafNodeLoop
    by_cases heq : hi = lo
    · subst heq
      rw [if_neg (by simp)]
      exact ⟨hi, rfl, le_refl _, le_refl _, hlow, fun i h1 h2 => le_of_lt (hhigh i h1 h2)⟩
    · rw [if_pos heq]
      have hwrap : (lo + hi) % U32 = lo + hi := Nat.mod_eq_of_lt (by omega)
      dsimp only
      rw [hwrap]
      have hidx1 : lo ≤ (lo + hi) / 2 := by omega
      have hidx2 : (lo + hi) / 2 < hi := by omega
      rw [hkey ((lo + hi) / 2) (by omega)]
      simp only [bind, Except.bind]
      by_cases hfound : key = f ((lo + hi) / 2)
      · rw [if_pos hfound]
        refine ⟨(lo + hi) / 2, rfl, hidx1, le_of_lt hidx2, ?_, ?_⟩
        · intro i hi1
          rw [hfound]
          exact hmono i _ hi1 (by omega)
        · intro i hi1 hi2
          rw [hfound]
          rcases Nat.eq_or_lt_of_le hi1 with h | h
          · rw [h]
          · exact le_of_lt (hmono _ i h hi2)
      · rw [if_neg hfound]
        by_cases hlt : key < f ((lo + hi) / 2)
        · rw [if_pos hlt]
          obtain ⟨r, hr, h1, h2, h3, h4⟩ := ih lo ((lo + hi) / 2) hidx1 (by omega) (by omega) hlow
            (by
              intro i hi1 hi2
              rcases Nat.eq_or_lt_of_le hi1 with h | h
              · rw [← h]; exact hlt
              · exact lt_trans hlt (hmono _ i h hi2))
          exact ⟨r, hr, h1, by omega, h3, h4⟩
        · rw [if_neg hlt]
          have hwrap2 : ((lo + hi) / 2 + 1) % U32 = (lo + hi) / 2 + 1 :=
            Nat.mod_eq_of_lt (by omega)
          rw [hwrap2]
          obtain ⟨r, hr, h1, h2, h3, h4⟩ := ih ((lo + hi) / 2 + 1) hi (by omega) hhi (by omega)
            (by
              intro i hi1
              have hgt : f ((lo + hi) / 2) < key := by omega
              rcases Nat.eq_or_lt_of_le (Nat.le_of_lt_succ hi1) with h | h
              · rw [h]; exact hgt
              · exact lt_trans (hmono i _ h (by omega)) hgt)
            hhigh
          exact ⟨r, hr, by omega, h2, h3, h4⟩

/-- In a strictly ascending list the number of entries below `key` is the
index that splits the entries below `key` from the others. -/
theorem countP_lt_eq_of_split (keys : List Nat) (key r : Nat) (hr : r ≤ keys.length)
    (hlow : ∀ i (h : i < keys.length), i < r → keys[i] < key)
    (hhigh : ∀ i (h : i < keys.length), r ≤ i → key ≤ keys[i]) :
    keys.countP (fun x => decide (x < key)) = r := by
  induction keys generalizing r with
  | nil =>
    have : r = 0 := by simpa using hr
    rw [this]
    rfl
  | cons a l ih =>
    cases r with
    | zero =>
      rw [List.countP_eq_zero]
      intro x hx
      obtain ⟨i, hi, rfl⟩ := List.getElem_of_mem hx
      have := hhigh i hi (Nat.zero_le _)
      simp only [decide_eq_true_eq]
      omega
    | succ r =>
      have ha : a < key := hlow 0 (by simp) (by omega)
      rw [List.countP_cons_of_pos _ _ (by simpa using ha)]
      congr 1
      apply ih r (by simpa using hr)
      · intro i h hir
        have := hlow (i + 1) (by simpa using h) (by omega)
        simpa using this
      · intro i h hir
        have := hhigh (i + 1) (by simpa using h) (by omega)
        simpa using this

theorem LeafKeys.length_le {node : Page} {keys : List Nat} (h : LeafKeys node keys) :
    keys.length ≤ 4 := by
  obtain ⟨hlen, _, hk⟩ := h
  by_contra hc
  have h4 := loadU32_ok_bound (hk 4 (by omega))
  rw [leafNodeKey_eq, hlen] at h4
  unfold PAGE_SIZE at h4
  omega

/-- The search of `findLeafNode` in a leaf with strictly ascending keys. -/
theorem findLeafNode_of_sorted (fresh : Nat → Page) (table : Table) (pageNum : Nat) (node : Page)
    (keys : List Nat) (key : Nat)
    (hpages : table.pager.pages.length = TABLE_MAX_PAGES)
    (hslot : table.pager.pages[pageNum]? = some (some node))
    (hleaf : LeafKeys node keys) (hsorted : keys.Pairwise (fun a b => a < b)) :
    findLeafNode fresh table pageNum key =
        .ok ({ page_num := pageNum, cell_num := keys.countP (fun x => decide (x < key)),
               end_of_table := none }, table) ∧
      (key ∈ keys → keys[keys.countP (fun x => decide (x < key))]? = some key) := by
  have hn4 := hleaf.length_le
  obtain ⟨hlen, hcount, hk⟩ := hleaf
  have hnum : pageNum ≤ TABLE_MAX_PAGES := by
    have := slot_lt_of_loaded hslot
    omega
  have hmono : ∀ i j, i < j → j < keys.length → keys.getD i 0 < keys.getD j 0 := by
    intro i j hij hj
    rw [List.getD_eq_getElem _ _ (by omega), List.getD_eq_getElem _ _ hj]
    exact List.pairwise_iff_getElem.1 hsorted i j (by omega) hj hij
  have hkey : ∀ i, i < keys.length → loadU32 node (leafNodeKey i) = .ok (keys.getD i 0) := by
    intro i hi
    rw [List.getD_eq_getElem _ _ hi]
    exact hk i hi
  obtain ⟨r, hr, _, hrn, hlow, hhigh⟩ :=
    findLeafNodeLoop_spec node key keys.length (fun i => keys.getD i 0) hkey hmono
      (by unfold U32; omega) (keys.length + 1) 0 keys.length (Nat.zero_le _) (le_refl _)
      (by omega) (fun i h => absurd h (Nat.not_lt_zero i)) (fun i h1 h2 => absurd h2 (by omega))
  have hcnt : keys.countP (fun x => decide (x < key)) = r := by
    apply countP_lt_eq_of_split keys key r hrn
    · intro i h hir
      have := hlow i hir
      rwa [List.getD_eq_getElem _ _ h] at this
    · intro i h hir
      have := hhigh i hir h
      rwa [List.getD_eq_getElem _ _ h] at this
  rw [hcnt]
  constructor
  · unfold findLeafNode
    rw [getPage_loaded fresh _ _ _ hslot hnum]
    simp only [bind, Except.bind]
    rw [buffer_loaded _ _ _ hslot]
    simp only [hcount, hr]
    rfl
  · intro hmem
    obtain ⟨j, hj, hjk⟩ := List.getElem_of_mem hmem
    have hjr : r ≤ j := by
      by_contra hc
      have := hlow j (by omega)
      rw [List.getD_eq_getElem _ _ hj, hjk] at this
      omega
    have hrlt : r < keys.length := by omega
    have h1 := hhigh r (le_refl _) hrlt
    rw [List.getD_eq_getElem _ _ hrlt] at h1
    rw [List.getElem?_eq_getElem hrlt]
    congr 1
    rcases Nat.eq_or_lt_of_le hjr with h | h
    · subst h; exact hjk
    · have := List.pairwise_iff_getElem.1 hsorted r j hrlt hj h
      omega


/-! ## Inserting a key that is present -/

theorem tableFind_leaf (fresh : Nat → Page) (table : Table) (node : Page) (key : Nat)
    (hpages : table.pager.pages.length = TABLE_MAX_PAGES)
    (hslot : table.pager.pages[table.root_page_num]? = some (some node))
    (htype : getNodeType node = .ok NODE_LEAF) :
    tableFind fresh table key = findLeafNode fresh table table.root_page_num key := by
  have hnum : table.root_page_num ≤ TABLE_MAX_PAGES := by
    have := slot_lt_of_loaded hslot
    omega
  unfold tableFind
  dsimp only
  rw [getPage_loaded fresh _ _ _ hslot hnum]
  simp only [bind, Except.bind]
  rw [buffer_loaded _ _ _ hslot]
  simp only [htype, if_true]


/-! ## `tableFind` on an internal root -/

/-- C6, as the claim states it, fails.  In the table `sampleTree` the root is
internal, `internalNodeFind` descends from it to the right child and finds
the key 7 at cell 1 of page 2, and `tableFind` for the same key exits. -/
theorem tableFind_internal_root_counterexample :
    sampleTree.pager.pages.length = TABLE_MAX_PAGES ∧
      getNodeType (sampleTree.page 0) = .ok NODE_INTERNAL ∧
      internalNodeFind zeroHeap 1 sampleTree 0 7 =
        .ok ({ page_num := 2, cell_num := 1, end_of_table := none }, sampleTree) ∧
      tableFind zeroHeap sampleTree 7 = .error Fault.fatalExit := by
  decide!

/-- C6, amended. For every table whose root page is loaded and is not a leaf
(an internal node in particular) and every key, `tableFind` does not descend:
it ends the program through `exit(EXIT_FAILURE)`. -/
theorem tableFind_internal_root (fresh : Nat → Page) (table : Table) (node : Page) (key : Nat)
    (hpages : table.pager.pages.length = TABLE_MAX_PAGES)
    (hslot : table.pager.pages[table.root_page_num]? = some (some node))
    (type : Nat) (htype : getNodeType node = .ok type) (hinternal : type ≠ NODE_LEAF) :
    tableFind fresh table key = .error Fault.fatalExit := by
  have hnum : table.root_page_num ≤ TABLE_MAX_PAGES := by
    have := slot_lt_of_loaded hslot
    omega
  unfold tableFind
  dsimp only
  rw [getPage_loaded fresh _ _ _ hslot hnum]
  simp only [bind, Except.bind]
  rw [buffer_loaded _ _ _ hslot]
  simp only [htype, if_neg hinternal]

theorem tableFind_internal_root_witness :
    sampleTree.pager.pages.length = TABLE_MAX_PAGES ∧
      getNodeType (sampleTree.page 0) = .ok NODE_INTERNAL ∧
      tableFind zeroHeap sampleTree 7 = .error Fault.fatalExit :=
  have h : sampleTree.pager.pages.length = TABLE_MAX_PAGES ∧
      getNodeType (sampleTree.page 0) = .ok NODE_INTERNAL ∧
      sampleTree.pager.pages[sampleTree.root_page_num]? = some (some (sampleTree.page 0)) := by decide!
  ⟨h.1, h.2.1,
   tableFind_internal_root zeroHeap sampleTree (sampleTree.page 0) 7 h.1 h.2.2
     NODE_INTERNAL h.2.1 (by decide)⟩

/-! ## `getPage` -/

theorem storeBytes_ne_fatalExit (buf : Page) (off : Nat) (bs : List Nat) :
    storeBytes buf off bs ≠ .error Fault.fatalExit := by
  unfold storeBytes
  split <;> simp

theorem getPage_fatalExit_iff (fresh : Nat → Page) (pager : Pager) (pageNum : Nat) :
    getPage fresh pager pageNum = .error Fault.fatalExit ↔ pageNum > TABLE_MAX_PAGES := by
  unfold getPage
  by_cases h : pageNum > TABLE_MAX_PAGES
  · simp [h]
  · simp only [h, if_false, iff_false]
    cases hs : pager.pages[pageNum]? with
    | none => simp
    | some slot =>
      cases slot with
      | some page => simp
      | none =>
        dsimp only
        generalize (if pager.file_length % PAGE_SIZE ≠ 0 then (pager.file_length / PAGE_SIZE + 1) % U32
          else pager.file_length / PAGE_SIZE) = numPages
        by_cases hn : pageNum ≤ numPages
        · rw [if_pos hn]
          cases hf : fread (fresh pageNum) PAGE_SIZE (pageNum * PAGE_SIZE % U32)
              pager.file_descriptor (pageNum * PAGE_SIZE % U32) with
          | ok page => simp [bind, Except.bind, pure, Except.pure]
          | error e =>
            simp only [bind, Except.bind]
            intro hc
            have he : e = Fault.fatalExit := by simpa using hc
            rw [he] at hf
            exact storeBytes_ne_fatalExit _ _ _ hf
        · rw [if_neg hn]
          simp [bind, Except.bind, pure, Except.pure]

/-- C9 (the code departs from the claim). `getPage` exits exactly for page
numbers above `TABLE_MAX_PAGES`; for the page number `TABLE_MAX_PAGES` itself
it does not exit and reads `pages[TABLE_MAX_PAGES]`, one slot past the array. -/
theorem getPage_at_table_max_pages (fresh : Nat → Page) (pager : Pager)
    (hlen : pager.pages.length = TABLE_MAX_PAGES) :
    (∀ pageNum, getPage fresh pager pageNum = .error Fault.fatalExit ↔
        pageNum > TABLE_MAX_PAGES) ∧
      getPage fresh pager TABLE_MAX_PAGES = .error Fault.undefinedBehavior := by
  constructor
  · exact fun pageNum => getPage_fatalExit_iff fresh pager pageNum
  · unfold getPage
    rw [if_neg (by omega), List.getElem?_eq_none (by omega)]

theorem getPage_at_table_max_pages_witness :
    samplePager.pages.length = TABLE_MAX_PAGES ∧
      getPage zeroHeap samplePager TABLE_MAX_PAGES = .error Fault.undefinedBehavior :=
  ⟨by decide, (getPage_at_table_max_pages zeroHeap samplePager (by decide)).2⟩

/-- C10. On a pager as `pagerOpen` makes it (`file_length` is 0) whose loaded
slots all have an index below `num_pages`, and for every `n` below
`TABLE_MAX_PAGES`: `getPage` returns, slot `n` is then loaded, `num_pages` is
the greater of its old value and `n + 1`, every other slot is as before, the
file is as before; a slot that was loaded keeps its buffer and the pager is
unchanged, and a slot that was empty holds the new buffer. -/
theorem getPage_frame (fresh : Nat → Page) (pager : Pager) (n : Nat)
    (hpages : pager.pages.length = TABLE_MAX_PAGES)
    (hfile : pager.file_length = 0)
    (hslots : ∀ i page, pager.pages[i]? = some (some page) → i < pager.num_pages)
    (hn : n < TABLE_MAX_PAGES) :
    ∃ pager' page, getPage fresh pager n = .ok pager' ∧
      pager'.pages[n]? = some (some page) ∧
      pager'.num_pages = max pager.num_pages (n + 1) ∧
      (∀ i, i ≠ n → pager'.pages[i]? = pager.pages[i]?) ∧
      pager'.pages.length = pager.pages.length ∧
      pager'.file_descriptor = pager.file_descriptor ∧
      pager'.file_length = pager.file_length ∧
      (∀ old, pager.pages[n]? = some (some old) → page = old ∧ pager' = pager) ∧
      (pager.pages[n]? = some none → page = fresh n) := by
  have hT : TABLE_MAX_PAGES = 100 := rfl
  have hU : U32 = 4294967296 := rfl
  have hlt : n < pager.pages.length := by omega
  cases hslot : pager.pages[n]? with
  | none =>
    rw [List.getElem?_eq_none_iff] at hslot
    omega
  | some slot =>
    cases slot with
    | some old =>
      have hnum := hslots n old hslot
      refine ⟨pager, old, getPage_loaded fresh pager n old hslot (by omega), hslot, ?_,
        fun _ _ => rfl, rfl, rfl, rfl, ?_, ?_⟩
      · rw [max_eq_left (by omega)]
      · intro old' h
        exact ⟨(Option.some.inj (Option.some.inj h)), rfl⟩
      · intro h
        cases h
    | none =>
      have hread : fread (fresh 0) PAGE_SIZE (0 * PAGE_SIZE % U32) pager.file_descriptor
          (0 * PAGE_SIZE % U32) = Except.ok (fresh 0) := by
        unfold fread storeBytes
        simp
      have hmod : (n + 1) % U32 = n + 1 := Nat.mod_eq_of_lt (by omega)
      have hget : getPage fresh pager n =
          .ok { pager with
                pages := pager.pages.set n (some (fresh n))
                num_pages := if n ≥ pager.num_pages then (n + 1) % U32 else pager.num_pages } := by
        unfold getPage
        rw [if_neg (by omega), hslot]
        dsimp only
        rw [hfile]
        have h0 : ¬ (0 % PAGE_SIZE ≠ 0) := by decide
        have h1 : 0 / PAGE_SIZE = 0 := by decide
        rw [if_neg h0, h1]
        by_cases hz : n ≤ 0
        · have hn0 : n = 0 := by omega
          subst hn0
          rw [if_pos hz, hread]
          rfl
        · rw [if_neg hz]
          rfl
      refine ⟨_, fresh n, hget, List.getElem?_set_self hlt, ?_, ?_, List.length_set _ _ _,
        rfl, rfl, ?_, fun _ => rfl⟩
      · show (if n ≥ pager.num_pages then (n + 1) % U32 else pager.num_pages) = _
        rw [hmod]
        by_cases h : n ≥ pager.num_pages
        · rw [if_pos h, max_eq_right (by omega)]
        · rw [if_neg h, max_eq_left (by omega)]
      · intro i hi
        exact List.getElem?_set_ne (fun h => hi h.symm)
      · intro old h
        cases h

theorem getPage_frame_witness :
    emptyPager.pages.length = TABLE_MAX_PAGES ∧ emptyPager.file_length = 0 ∧
      ∃ pager' page, getPage zeroHeap emptyPager 2 = .ok pager' ∧
        pager'.pages[2]? = some (some page) ∧ pager'.num_pages = max emptyPager.num_pages (2 + 1) :=
  ⟨by decide, rfl,
   (getPage_frame zeroHeap emptyPager 2 (by decide) rfl
      (fun i page h => by
        unfold emptyPager at h
        rw [List.getElem?_replicate] at h
        split at h <;> simp at h)
      (by decide)).imp (fun _ h => h.imp (fun _ h => ⟨h.1, h.2.1, h.2.2.1⟩))⟩

/-! ## Persistence -/

/-- C3 (the code departs from the claim). Three rows are inserted into a new
database and `select` prints them; `dbClose` leaves the file empty; after
`dbOpen` on that file `select` prints nothing. -/
theorem sessionThenReopen_loses_rows :
    sessionThenReopen zeroHeap none
        [sampleRow 1 [97] [120], sampleRow 2 [98] [121], sampleRow 3 [99] [122]] =
      .ok ([{ id := 1, username := [97], email := [120] },
            { id := 2, username := [98], email := [121] },
            { id := 3, username := [99], email := [122] }], [], []) := by
  decide!

/-! ## `insertLeafNode` -/

/-- C7 (the code departs from the claim). A leaf holds one cell, with key 2
and an email of 200 bytes; a row with key 1 is inserted at cell 0.  Cell 1
then holds key 2 but only the first 133 bytes of the email slot that cell 0
held.  And on a leaf of four cells, fewer than `LEAF_NODE_MAX_CELLS`, the
insertion at cell 4 leaves the page buffer. -/
theorem insertLeafNode_shift_truncates :
    deserializeRow ((sampleTable [sampleRow 2 [97] (List.replicate 200 101)]).page 0)
        (leafNodeValue 0) = .ok (sampleRow 2 [97] (List.replicate 200 101)) ∧
      (insertLeafNode zeroHeap (sampleTable [sampleRow 2 [97] (List.replicate 200 101)])
          { page_num := 0, cell_num := 0, end_of_table := none } 1 (sampleRow 1 [98] [99])
        >>= fun table => do
          let key ← loadU32 (table.page 0) (leafNodeKey 1)
          let row ← deserializeRow (table.page 0) (leafNodeValue 1)
          pure (key, row)) =
        .ok (2, sampleRow 2 [97] (List.replicate 133 101)) ∧
      4 < LEAF_NODE_MAX_CELLS ∧
      loadU32 ((sampleTable ((ascendingInserts 4).map Statement.row_to_insert)).page 0)
        leafNodeNumCells = .ok 4 ∧
      insertLeafNode zeroHeap (sampleTable ((ascendingInserts 4).map Statement.row_to_insert))
          { page_num := 0, cell_num := 4, end_of_table := none } 5 (sampleRow 5 [117] [101]) =
        .error Fault.undefinedBehavior := by
  decide!

/-! ## Filling a leaf -/

theorem executeInserts_append_error (fresh : Nat → Page) (xs ys : List Statement) (fault : Fault) :
    ∀ table, executeInserts fresh xs table = .error fault →
      executeInserts fresh (xs ++ ys) table = .error fault := by
  induction xs with
  | nil => intro table h; simp [executeInserts] at h
  | cons x xs ih =>
    intro table h
    rw [List.cons_append]
    unfold executeInserts at h ⊢
    cases hx : executeInsert fresh x table with
    | error e => rw [hx] at h; exact h
    | ok r =>
      obtain ⟨result, table'⟩ := r
      rw [hx] at h
      simp only [bind, Except.bind] at h ⊢
      cases hr : executeInserts fresh xs table' with
      | error e =>
        rw [hr] at h
        have he : e = fault := by simpa using h
        rw [he] at hr
        rw [ih table' hr]
      | ok q => rw [hr] at h; simp [pure, Except.pure] at h

theorem bind_executeInserts_append_error (fresh : Nat → Page) (xs ys : List Statement)
    (fault : Fault) (start : Except Fault Table)
    (h : (start >>= executeInserts fresh xs) = .error fault) :
    (start >>= executeInserts fresh (xs ++ ys)) = .error fault := by
  cases start with
  | error e => exact h
  | ok table => exact executeInserts_append_error fresh xs ys fault table h

/-- C8 (the code departs from the claim). `LEAF_NODE_MAX_CELLS + 1` is 4105.
Of the inserts of the ids 1, 2, ... into a new database the first four
succeed and leave page 0 a leaf of four cells, the only page; the fifth
stores outside the page buffer, so the run of `LEAF_NODE_MAX_CELLS + 1`
inserts does not reach a split. -/
theorem ascendingInserts_overrun :
    LEAF_NODE_MAX_CELLS + 1 = 4105 ∧
      (dbOpen zeroHeap none >>= executeInserts zeroHeap (ascendingInserts 4) >>= fun r => do
          let type ← getNodeType (r.2.page 0)
          let numCells ← loadU32 (r.2.page 0) leafNodeNumCells
          pure (r.1, type, numCells, r.2.pager.num_pages)) =
        .ok ([ExecuteResult.EXECUTE_SUCCESS, ExecuteResult.EXECUTE_SUCCESS,
              ExecuteResult.EXECUTE_SUCCESS, ExecuteResult.EXECUTE_SUCCESS], NODE_LEAF, 4, 1) ∧
      (dbOpen zeroHeap none >>= executeInserts zeroHeap (ascendingInserts 5)) =
        .error Fault.undefinedBehavior ∧
      (dbOpen zeroHeap none >>= executeInserts zeroHeap (ascendingInserts (LEAF_NODE_MAX_CELLS + 1)))
        = .error Fault.undefinedBehavior := by
  have h5 : (dbOpen zeroHeap none >>= executeInserts zeroHeap (ascendingInserts 5)) =
      .error Fault.undefinedBehavior := by decide!
  refine ⟨by decide, by decide!, h5, ?_⟩
  have hsplit : ascendingInserts (LEAF_NODE_MAX_CELLS + 1) =
      ascendingInserts 5 ++ (List.range' 5 4100).map
        (fun i => insertStatement (sampleRow (i + 1) [117] [101])) := by
    have : LEAF_NODE_MAX_CELLS + 1 = 5 + 4100 := by decide
    unfold ascendingInserts
    rw [this, List.range_eq_range', List.range_eq_range', ← List.map_append,
      List.range'_append]
  rw [hsplit]
  exact bind_executeInserts_append_error zeroHeap _ _ _ _ h5

/-! ## Strings in arrays -/

theorem COPIED_EMAIL_LENGTH_eq : COPIED_EMAIL_LENGTH = 132 := by decide

theorem take_takeWhile_succ (l : List Nat) (h : 0 ∈ l) :
    l.take ((l.takeWhile (fun b => b ≠ 0)).length + 1) = l.takeWhile (fun b => b ≠ 0) ++ [0] := by
  induction l with
  | nil => cases h
  | cons a l ih =>
    by_cases ha : a = 0
    · subst ha
      simp [List.takeWhile]
    · have hl : 0 ∈ l := by
        rcases List.mem_cons.1 h with h | h
        · exact absurd h.symm ha
        · exact h
      have : (a :: l).takeWhile (fun b => b ≠ 0) = a :: l.takeWhile (fun b => b ≠ 0) := by
        simp [List.takeWhile, ha]
      rw [this]
      simp only [List.length_cons, List.take_succ_cons, List.cons_append]
      rw [ih hl]

theorem takeWhile_length_lt (l : List Nat) (n : Nat) (h : 0 ∈ l.take n) :
    (l.takeWhile (fun b => b ≠ 0)).length < n := by
  induction l generalizing n with
  | nil => simp at h
  | cons a l ih =>
    cases n with
    | zero => simp at h
    | succ n =>
      by_cases ha : a = 0
      · subst ha
        simp [List.takeWhile]
      · have hl : 0 ∈ l.take n := by
          rw [List.take_succ_cons] at h
          rcases List.mem_cons.1 h with h | h
          · exact absurd h.symm ha
          · exact h
        have : (a :: l).takeWhile (fun b => b ≠ 0) = a :: l.takeWhile (fun b => b ≠ 0) := by
          simp [List.takeWhile, ha]
        rw [this, List.length_cons]
        have := ih n hl
        omega

theorem takeWhile_not_mem (l : List Nat) : 0 ∉ l.takeWhile (fun b => b ≠ 0) := by
  intro h
  have := List.mem_takeWhile_imp h
  simp at this

/-- The string read from bytes that begin with `s` followed by NUL. -/
theorem cstring_of_initial (l s : List Nat) (hs : 0 ∉ s)
    (h : l.take (s.length + 1) = s ++ [0]) : cstring l = .ok s := by
  have hl : l = (s ++ [0]) ++ l.drop (s.length + 1) := by
    rw [← h, List.take_append_drop]
  have hmem : 0 ∈ l := by
    rw [hl]
    simp
  unfold cstring
  rw [if_pos hmem]
  congr 1
  rw [hl, List.append_assoc, List.takeWhile_append_of_pos]
  · simp [List.takeWhile]
  · intro b hb
    have : b ≠ 0 := fun hc => hs (hc ▸ hb)
    simpa using this

theorem cstring_append_of_initial (l t s : List Nat) (hs : 0 ∉ s)
    (h : l.take (s.length + 1) = s ++ [0]) : cstring (l ++ t) = .ok s := by
  apply cstring_of_initial _ _ hs
  have hlen : s.length + 1 ≤ l.length := by
    have := congrArg List.length h
    rw [List.length_take, List.length_append] at this
    simp at this
    omega
  rw [List.take_append_of_le_length hlen, h]

/-! ## Reading a cell -/

theorem loadBytes_inj {buf : Page} {off len : Nat} {a b : List Nat}
    (ha : loadBytes buf off len = .ok a) (hb : loadBytes buf off len = .ok b) : a = b := by
  rw [ha] at hb
  exact Except.ok.inj hb

theorem image_bound {node : Page} {i : Nat} {img : List Nat} (hlen : node.length = PAGE_SIZE)
    (himg : loadBytes node (leafNodeCell i) LEAF_NODE_CELL_SIZE = .ok img) : i ≤ 3 := by
  have hb := ((loadBytes_ok_iff _ _ _ _).1 himg).1
  have hc : LEAF_NODE_CELL_SIZE = 297 := by decide
  rw [leafNodeCell_eq, hlen, hc] at hb
  unfold PAGE_SIZE at hb
  omega

/-- What `deserializeRow` and `printRow` make of a cell whose first
`LEAF_NODE_CELL_SIZE` bytes hold a row. -/
theorem deserializeRow_of_image {node : Page} {i : Nat} {img : List Nat} {r : Row}
    (hlen : node.length = PAGE_SIZE)
    (himg : loadBytes node (leafNodeCell i) LEAF_NODE_CELL_SIZE = .ok img)
    (hold : ImageHolds img r) (hr : r.Short) :
    ∃ row, deserializeRow node (leafNodeValue i) = .ok row ∧ printRow row = .ok r.printed := by
  have hi := image_bound hlen himg
  obtain ⟨hwf, hid, hu, he⟩ := hr
  obtain ⟨_, h2, h3, h4⟩ := hold
  have hc : LEAF_NODE_CELL_SIZE = 297 ∧ 4 * ID_OFFSET = 0 ∧ 4 * USERNAME_OFFSET = 16 ∧
      4 * EMAIL_OFFSET = 148 ∧ USERNAME_SIZE = 33 ∧ EMAIL_SIZE = 256 ∧ ID_SIZE = 4 := by decide
  obtain ⟨c0, c1, c2, c3, c4, c5, c6⟩ := hc
  rw [c0] at himg
  have hulen : r.usernameString.length < 33 := by
    have := takeWhile_length_lt r.username 33 (by
      rw [List.take_of_length_le (by rw [hwf.2.1, c4])]; exact hu)
    exact this
  have helen : r.emailString.length < 133 := by
    have := takeWhile_length_lt r.email 133 (by rw [COPIED_EMAIL_LENGTH_eq] at he; exact he)
    exact this
  have lid : loadBytes node (leafNodeValue i + 4 * ID_OFFSET) ID_SIZE = .ok (encodeU32 r.id) := by
    have := loadBytes_sub himg 16 4 (by omega)
    rw [h2] at this
    rw [c1, c6, leafNodeValue_eq, ← this, leafNodeCell_eq]
    congr 1
    omega
  have lun : loadBytes node (leafNodeValue i + 4 * USERNAME_OFFSET) USERNAME_SIZE =
      .ok ((img.drop 32).take 33) := by
    have := loadBytes_sub himg 32 33 (by omega)
    rw [c2, c4, leafNodeValue_eq, ← this, leafNodeCell_eq]
    congr 1
    omega
  obtain ⟨em, lem⟩ : ∃ em, loadBytes node (leafNodeValue i + 4 * EMAIL_OFFSET) EMAIL_SIZE =
      .ok em := by
    unfold loadBytes
    rw [if_pos (by rw [c3, c5, leafNodeValue_eq, hlen]; unfold PAGE_SIZE; omega)]
    exact ⟨_, rfl⟩
  have hem : em.take (r.emailString.length + 1) = r.emailString ++ [0] := by
    have s1 := loadBytes_sub lem 0 (r.emailString.length + 1) (by rw [c5]; omega)
    have s2 := loadBytes_sub himg 164 (r.emailString.length + 1) (by omega)
    rw [h4] at s2
    have e : leafNodeValue i + 4 * EMAIL_OFFSET + 0 = leafNodeCell i + 164 := by
      rw [c3, leafNodeValue_eq, leafNodeCell_eq]
      omega
    rw [e] at s1
    have := loadBytes_inj s1 s2
    simpa using this
  have hun : ((img.drop 32).take 33).take (r.usernameString.length + 1) =
      r.usernameString ++ [0] := by
    rw [List.take_take, min_eq_left (by omega)]
    exact h3
  refine ⟨{ id := decodeU32 (encodeU32 r.id), username := (img.drop 32).take 33, email := em },
    ?_, ?_⟩
  · unfold deserializeRow
    rw [lid, lun, lem]
    rfl
  · unfold printRow
    have hidU : r.id < U32 := by unfold U32 at hid ⊢; omega
    simp only [decodeU32_encodeU32 r.id hidU]
    rw [cstring_append_of_initial _ _ _ (takeWhile_not_mem r.username) hun,
      cstring_of_initial _ _ (takeWhile_not_mem r.email) hem]
    simp only [bind, Except.bind, pure, Except.pure, Nat.mod_eq_of_lt hidU, if_pos hid]
    rfl

/-! ## Selecting from a leaf -/

theorem LeafRep.leafKeys {node : Page} {rows : List Row} (h : LeafRep node rows)
    (hs : ∀ r, r ∈ rows → r.Short) : LeafKeys node (rows.map Row.id) := by
  obtain ⟨hlen, _, hcount, hcells⟩ := h
  refine ⟨hlen, by rw [List.length_map]; exact hcount, ?_⟩
  intro i hi
  rw [List.length_map] at hi
  obtain ⟨img, himg, hold⟩ := hcells i rows[i] (List.getElem?_eq_getElem hi)
  have hc : LEAF_NODE_CELL_SIZE = 297 := by decide
  rw [hc] at himg
  have hsub := loadBytes_sub himg 0 4 (by omega)
  have hid : rows[i].id < U32 := by
    have := (hs rows[i] (List.getElem_mem _)).2.1
    unfold U32 at this ⊢
    omega
  unfold loadU32 leafNodeKey
  rw [Nat.add_zero] at hsub
  rw [hsub, List.drop_zero, hold.1]
  simp only [bind, Except.bind, pure, Except.pure, decodeU32_encodeU32 _ hid, List.getElem_map]

theorem LeafRep.rows_length_le {node : Page} {rows : List Row} (h : LeafRep node rows) :
    rows.length ≤ 4 := by
  by_contra hc
  obtain ⟨img, himg, _⟩ := h.2.2.2 4 rows[4] (List.getElem?_eq_getElem (by omega))
  have := image_bound h.1 himg
  omega

theorem readU32_loaded (pager : Pager) (pageNum : Nat) (page : Page) (off : Nat)
    (hslot : pager.pages[pageNum]? = some (some page)) :
    pager.readU32 pageNum off = loadU32 page off := by
  unfold Pager.readU32
  rw [buffer_loaded _ _ _ hslot]
  rfl

theorem cursorValue_loaded (fresh : Nat → Page) (table : Table) (cursor : Cursor) (page : Page)
    (hslot : table.pager.pages[cursor.page_num]? = some (some page))
    (hnum : cursor.page_num ≤ TABLE_MAX_PAGES) :
    cursorValue fresh table cursor = .ok (leafNodeValue cursor.cell_num, table) := by
  unfold cursorValue
  dsimp only
  rw [getPage_loaded fresh _ _ _ hslot hnum]
  rfl

/-- The loop of `executeSelect` from cell `k` of a leaf on: it prints the rows
of the cells `k`, `k + 1`, ... and leaves the table as it is. -/
theorem executeSelectLoop_of_leafRep (fresh : Nat → Page) (table : Table) (node : Page)
    (rows : List Row)
    (hpages : table.pager.pages.length = TABLE_MAX_PAGES)
    (hslot : table.pager.pages[table.root_page_num]? = some (some node))
    (hrep : LeafRep node rows) (hshort : ∀ r, r ∈ rows → r.Short) :
    ∀ fuel k out, k ≤ rows.length → rows.length - k < fuel →
      executeSelectLoop fresh fuel table
          { page_num := table.root_page_num, cell_num := k,
            end_of_table := some (decide (rows.length ≤ k)) } out =
        .ok (out ++ (rows.drop k).map Row.printed, table) := by
  have hnum : table.root_page_num ≤ TABLE_MAX_PAGES := by
    have := slot_lt_of_loaded hslot
    omega
  have hn4 := hrep.rows_length_le
  intro fuel
  induction fuel with
  | zero => intro k out _ h; omega
  | succ fuel ih =>
    intro k out hk hfuel
    unfold executeSelectLoop
    by_cases hend : rows.length ≤ k
    · have hkn : k = rows.length := by omega
      simp only [hend, decide_True]
      rw [hkn, List.drop_length]
      simp
    · simp only [hend, decide_False]
      have hklt : k < rows.length := by omega
      obtain ⟨img, himg, hold⟩ := hrep.2.2.2 k rows[k] (List.getElem?_eq_getElem hklt)
      obtain ⟨row, hde, hpr⟩ := deserializeRow_of_image hrep.1 himg hold
        (hshort _ (List.getElem_mem _))
      have hwrap : (k + 1) % U32 = k + 1 := Nat.mod_eq_of_lt (by unfold U32; omega)
      have hinc : incrementCursor fresh table
          { page_num := table.root_page_num, cell_num := k, end_of_table := some false } =
          .ok ({ page_num := table.root_page_num, cell_num := k + 1,
                 end_of_table := some (decide (rows.length ≤ k + 1)) }, table) := by
        unfold incrementCursor
        dsimp only
        rw [getPage_loaded fresh _ _ _ hslot hnum]
        simp only [bind, Except.bind]
        rw [readU32_loaded _ _ _ _ hslot, hrep.2.2.1, hwrap]
        by_cases h1 : rows.length ≤ k + 1
        · simp [pure, Except.pure, h1]
        · simp [pure, Except.pure, h1]
      rw [cursorValue_loaded fresh table _ node hslot hnum]
      simp only [bind, Except.bind]
      rw [buffer_loaded _ _ _ hslot]
      simp only [hde, hpr, hinc]
      rw [ih (k + 1) _ (by omega) (by omega), List.append_assoc]
      congr 2
      rw [List.drop_eq_getElem_cons hklt]
      rfl

/-- On a table whose root is a leaf holding `rows` in ascending order of id,
`executeSelect` prints the rows in that order. -/
theorem executeSelect_of_leafRep (fresh : Nat → Page) (table : Table) (node : Page)
    (rows : List Row)
    (hpages : table.pager.pages.length = TABLE_MAX_PAGES)
    (hslot : table.pager.pages[table.root_page_num]? = some (some node))
    (hrep : LeafRep node rows) (hshort : ∀ r, r ∈ rows → r.Short)
    (hsorted : (rows.map Row.id).Pairwise (fun a b => a < b)) :
    executeSelect fresh table =
      .ok (ExecuteResult.EXECUTE_SUCCESS, rows.map Row.printed, table) := by
  have hnum : table.root_page_num ≤ TABLE_MAX_PAGES := by
    have := slot_lt_of_loaded hslot
    omega
  have hn4 := hrep.rows_length_le
  have hfind := (findLeafNode_of_sorted fresh table table.root_page_num node (rows.map Row.id) 0
    hpages hslot (hrep.leafKeys hshort) hsorted).1
  have hzero : (rows.map Row.id).countP (fun x => decide (x < 0)) = 0 := by
    rw [List.countP_eq_zero]
    intro x _
    simp
  rw [hzero] at hfind
  have hstart : tableStart fresh table =
      .ok ({ page_num := table.root_page_num, cell_num := 0,
             end_of_table := some (decide (rows.length ≤ 0)) }, table) := by
    unfold tableStart
    rw [tableFind_leaf fresh table node 0 hpages hslot hrep.2.1, hfind]
    simp only [bind, Except.bind]
    rw [getPage_loaded fresh _ _ _ hslot hnum]
    simp only []
    rw [readU32_loaded _ _ _ _ hslot, hrep.2.2.1]
    cases hr : rows with
    | nil => rfl
    | cons a l => rfl
  unfold executeSelect
  rw [hstart]
  simp only [bind, Except.bind]
  rw [executeSelectLoop_of_leafRep fresh table node rows hpages hslot hrep hshort U32 0 []
    (Nat.zero_le _) (by unfold U32; omega)]
  rfl

/-! ## The shift loop of `insertLeafNode` -/

theorem loadBytes_isOk (buf : Page) (off len : Nat) (h : off + len ≤ buf.length) :
    ∃ bs, loadBytes buf off len = .ok bs := by
  unfold loadBytes
  rw [if_pos h]
  exact ⟨_, rfl⟩

/-- On a page with room for the cells `0 .. n`, the loop moves the first
`LEAF_NODE_CELL_SIZE` bytes of each of the cells `c .. n - 1` one cell up and
leaves the bytes before cell `c + 1` and those after the copy in cell `n` as
they are. -/
theorem insertLeafNodeShift_spec (c : Nat) :
    ∀ n (node : Page), node.length = PAGE_SIZE → n ≤ 3 →
      ∃ node', insertLeafNodeShift c n node = .ok node' ∧ node'.length = node.length ∧
        (∀ o m, o + m ≤ leafNodeCell (c + 1) → loadBytes node' o m = loadBytes node o m) ∧
        (∀ o m, leafNodeCell n + LEAF_NODE_CELL_SIZE ≤ o →
          loadBytes node' o m = loadBytes node o m) ∧
        (∀ j, c < j → j ≤ n → loadBytes node' (leafNodeCell j) LEAF_NODE_CELL_SIZE =
          loadBytes node (leafNodeCell (j - 1)) LEAF_NODE_CELL_SIZE) := by
  have hc : LEAF_NODE_CELL_SIZE = 297 := by decide
  intro n
  induction n with
  | zero =>
    intro node _ _
    exact ⟨node, rfl, rfl, fun _ _ _ => rfl, fun _ _ _ => rfl, fun j h1 h2 => by omega⟩
  | succ i ih =>
    intro node hlen hn
    unfold insertLeafNodeShift
    by_cases hgt : i + 1 > c
    · rw [if_pos hgt]
      have hP : PAGE_SIZE = 4096 := rfl
      obtain ⟨bs, hbs⟩ := loadBytes_isOk node (leafNodeCell i) LEAF_NODE_CELL_SIZE
        (by rw [hc, leafNodeCell_eq, hlen, hP]; omega)
      have hbl := loadBytes_length hbs
      obtain ⟨node1, h1⟩ := storeBytes_isOk node (leafNodeCell (i + 1)) bs
        (by rw [hbl, hc, leafNodeCell_eq, hlen, hP]; omega)
      have hlen1 := storeBytes_length h1
      obtain ⟨node', hsh, hl', ha, hb, hcp⟩ := ih node1 (by rw [hlen1, hlen]) (by omega)
      refine ⟨node', ?_, by rw [hl', hlen1], ?_, ?_, ?_⟩
      · unfold memcpyWithin
        simp only [hbs, bind, Except.bind, h1, hsh]
      · intro o m hom
        rw [ha o m hom]
        apply loadBytes_storeBytes_disjoint h1
        left
        rw [leafNodeCell_eq] at hom ⊢
        omega
      · intro o m hom
        rw [hb o m (by rw [leafNodeCell_eq, hc] at hom ⊢; omega)]
        apply loadBytes_storeBytes_disjoint h1
        right
        rw [hbl]
        exact hom
      · intro j hj1 hj2
        by_cases hj : j = i + 1
        · subst hj
          rw [hb _ _ (by rw [leafNodeCell_eq, leafNodeCell_eq, hc]; omega)]
          have := loadBytes_storeBytes_same h1
          rw [hbl] at this
          rw [this, Nat.add_sub_cancel, hbs]
        · rw [hcp j hj1 (by omega)]
          apply loadBytes_storeBytes_disjoint h1
          left
          rw [leafNodeCell_eq, leafNodeCell_eq, hc]
          omega
    · rw [if_neg hgt]
      exact ⟨node, rfl, rfl, fun _ _ _ => rfl, fun _ _ _ => rfl, fun j h1 h2 => by omega⟩

/-! ## Inserting into a leaf page -/

theorem getElem?_insert_lt (rows : List Row) (r : Row) (c i : Nat) (hc : c ≤ rows.length)
    (hi : i < c) : (rows.take c ++ r :: rows.drop c)[i]? = rows[i]? := by
  rw [List.getElem?_append_left (by rw [List.length_take]; omega), List.getElem?_take, if_pos hi]

theorem getElem?_insert_eq (rows : List Row) (r : Row) (c : Nat) (hc : c ≤ rows.length) :
    (rows.take c ++ r :: rows.drop c)[c]? = some r := by
  rw [List.getElem?_append_right (by rw [List.length_take]; omega), List.length_take,
    min_eq_left hc, Nat.sub_self, List.getElem?_cons_zero]

theorem getElem?_insert_gt (rows : List Row) (r : Row) (c i : Nat) (hc : c ≤ rows.length)
    (hi : c < i) : (rows.take c ++ r :: rows.drop c)[i]? = rows[i - 1]? := by
  rw [List.getElem?_append_right (by rw [List.length_take]; omega), List.length_take,
    min_eq_left hc]
  obtain ⟨k, hk⟩ : ∃ k, i - c = k + 1 := ⟨i - c - 1, by omega⟩
  rw [hk, List.getElem?_cons_succ, List.getElem?_drop]
  congr 1
  omega

theorem length_insert (rows : List Row) (r : Row) (c : Nat) (hc : c ≤ rows.length) :
    (rows.take c ++ r :: rows.drop c).length = rows.length + 1 := by
  rw [List.length_append, List.length_cons, List.length_take, List.length_drop, min_eq_left hc]
  omega

/-- The stores of `insertLeafNode` after its shift loop, on a leaf of at most
three cells: the page then holds the new row at cell `c`, the rows before it
where they were and the rows after it one cell up. -/
theorem insertLeafNode_pages (node : Page) (rows : List Row) (r : Row) (c : Nat)
    (hrep : LeafRep node rows) (hn : rows.length ≤ 3) (hc : c ≤ rows.length) (hr : r.Short) :
    ∃ node' node1 node2 node3,
      (if c < rows.length then insertLeafNodeShift c rows.length node else pure node)
        = .ok node' ∧
      loadU32 node' leafNodeNumCells = .ok rows.length ∧
      storeU32 node' leafNodeNumCells ((rows.length + 1) % U32) = .ok node1 ∧
      storeU32 node1 (leafNodeKey c) r.id = .ok node2 ∧
      serializeRow r node2 (leafNodeValue c) = .ok node3 ∧
      LeafRep node3 (rows.take c ++ r :: rows.drop c) := by
  obtain ⟨hlen, htype, hcount, hcells⟩ := hrep
  have hP : PAGE_SIZE = 4096 := rfl
  have hk : LEAF_NODE_CELL_SIZE = 297 ∧ 4 * ID_OFFSET = 0 ∧ 4 * USERNAME_OFFSET = 16 ∧
      4 * EMAIL_OFFSET = 148 ∧ USERNAME_SIZE = 33 ∧ EMAIL_SIZE = 256 ∧ ID_SIZE = 4 ∧
      4 * NODE_TYPE_OFFSET = 0 := by decide
  obtain ⟨k0, k1, k2, k3, k4, k5, k6, k7⟩ := hk
  -- the shift
  obtain ⟨node', hsh, hl', ha, hcp⟩ : ∃ node',
      (if c < rows.length then insertLeafNodeShift c rows.length node else pure node)
        = .ok node' ∧ node'.length = node.length ∧
      (∀ o m, o + m ≤ leafNodeCell (c + 1) → loadBytes node' o m = loadBytes node o m) ∧
      (∀ j, c < j → j ≤ rows.length → loadBytes node' (leafNodeCell j) LEAF_NODE_CELL_SIZE =
          loadBytes node (leafNodeCell (j - 1)) LEAF_NODE_CELL_SIZE) := by
    by_cases hlt : c < rows.length
    · rw [if_pos hlt]
      obtain ⟨node', h1, h2, h3, _, h5⟩ := insertLeafNodeShift_spec c rows.length node hlen hn
      exact ⟨node', h1, h2, h3, h5⟩
    · rw [if_neg hlt]
      exact ⟨node, rfl, rfl, fun _ _ _ => rfl, fun j h1 h2 => by omega⟩
  have hlen' : node'.length = 4096 := by rw [hl', hlen, hP]
  have hcount' : loadU32 node' leafNodeNumCells = .ok rows.length := by
    rw [← hcount]
    unfold loadU32
    rw [ha _ _ (by rw [leafNodeNumCells_eq, leafNodeCell_eq]; omega)]
  -- the stores
  obtain ⟨node1, s1⟩ := storeBytes_isOk node' leafNodeNumCells
    (encodeU32 ((rows.length + 1) % U32))
    (by rw [encodeU32_length, leafNodeNumCells_eq, hlen']; omega)
  have hlen1 : node1.length = 4096 := by rw [storeBytes_length s1, hlen']
  obtain ⟨node2, s2⟩ := storeBytes_isOk node1 (leafNodeKey c) (encodeU32 r.id)
    (by rw [encodeU32_length, leafNodeKey_eq, hlen1]; omega)
  have hlen2 : node2.length = 4096 := by rw [storeBytes_length s2, hlen1]
  obtain ⟨node3, s345⟩ := serializeRow_isOk r hr.1 node2 (leafNodeValue c)
    (by rw [k3, k5, leafNodeValue_eq, hlen2]; omega)
  have hlen3 : node3.length = 4096 := by rw [serializeRow_length s345, hlen2]
  obtain ⟨b1, b2, s3, s4, s5⟩ := (serializeRow_ok_iff _ _ _ _).1 s345
  obtain ⟨hwf1, hwf2, hwf3⟩ := hr.1
  rw [k4] at hwf2
  rw [k5] at hwf3
  rw [k1] at s3
  rw [k2] at s4
  rw [k3] at s5
  -- loads away from the stores
  have frame : ∀ o m, (o + m ≤ 24 ∨ 28 ≤ o) →
      (o + m ≤ leafNodeCell c ∨ leafNodeCell c + 420 ≤ o) →
      loadBytes node3 o m = loadBytes node' o m := by
    intro o m h1 h2
    rw [leafNodeCell_eq] at h2
    rw [loadBytes_storeBytes_disjoint s5 o m (by rw [hwf3, leafNodeValue_eq]; omega),
      loadBytes_storeBytes_disjoint s4 o m (by rw [hwf2, leafNodeValue_eq]; omega),
      loadBytes_storeBytes_disjoint s3 o m (by rw [encodeU32_length, leafNodeValue_eq]; omega),
      loadBytes_storeBytes_disjoint s2 o m (by rw [encodeU32_length, leafNodeKey_eq]; omega),
      loadBytes_storeBytes_disjoint s1 o m (by rw [encodeU32_length, leafNodeNumCells_eq]; omega)]
  refine ⟨node', node1, node2, node3, hsh, hcount', s1, s2, s345, ?_⟩
  refine ⟨by rw [hlen3, hP], ?_, ?_, ?_⟩
  · -- the node type
    rw [← htype]
    unfold getNodeType loadU8
    rw [k7, frame 0 1 (by omega) (by rw [leafNodeCell_eq]; omega),
      ha 0 1 (by rw [leafNodeCell_eq]; omega)]
  · -- the count
    rw [length_insert rows r c hc]
    have hw : (rows.length + 1) % U32 = rows.length + 1 :=
      Nat.mod_eq_of_lt (by unfold U32; omega)
    rw [hw] at s1
    unfold loadU32
    rw [loadBytes_storeBytes_disjoint s5 _ _
        (by rw [hwf3, leafNodeValue_eq, leafNodeNumCells_eq]; omega),
      loadBytes_storeBytes_disjoint s4 _ _
        (by rw [hwf2, leafNodeValue_eq, leafNodeNumCells_eq]; omega),
      loadBytes_storeBytes_disjoint s3 _ _
        (by rw [encodeU32_length, leafNodeValue_eq, leafNodeNumCells_eq]; omega),
      loadBytes_storeBytes_disjoint s2 _ _
        (by rw [encodeU32_length, leafNodeKey_eq, leafNodeNumCells_eq]; omega)]
    have := loadBytes_storeBytes_same s1
    rw [encodeU32_length] at this
    rw [this]
    simp only [bind, Except.bind, pure, Except.pure,
      decodeU32_encodeU32 _ (show rows.length + 1 < U32 by unfold U32; omega)]
  · -- the cells
    intro i row hi
    have hilt : i < rows.length + 1 := by
      have := (List.getElem?_eq_some_iff.1 hi).1
      rwa [length_insert rows r c hc] at this
    rcases Nat.lt_trichotomy i c with hlt | heq | hgt
    · rw [getElem?_insert_lt rows r c i hc hlt] at hi
      obtain ⟨img, himg, hold⟩ := hcells i row hi
      refine ⟨img, ?_, hold⟩
      rw [frame _ _ (by rw [leafNodeCell_eq]; omega)
          (by rw [leafNodeCell_eq, leafNodeCell_eq, k0]; omega),
        ha _ _ (by rw [leafNodeCell_eq, leafNodeCell_eq, k0]; omega)]
      exact himg
    · subst heq
      rw [getElem?_insert_eq rows r i hc] at hi
      have hrow : r = row := Option.some.inj hi
      subst hrow
      obtain ⟨img, himg⟩ := loadBytes_isOk node3 (leafNodeCell i) LEAF_NODE_CELL_SIZE
        (by rw [k0, leafNodeCell_eq, hlen3]; omega)
      refine ⟨img, himg, ?_⟩
      rw [k0] at himg
      have hulen : r.usernameString.length < 33 :=
        takeWhile_length_lt r.username 33 (by
          rw [List.take_of_length_le (by rw [hwf2])]; exact hr.2.2.1)
      have helen : r.emailString.length < 133 :=
        takeWhile_length_lt r.email 133 (by
          have := hr.2.2.2
          rwa [COPIED_EMAIL_LENGTH_eq] at this)
      obtain ⟨l1, l2, l3⟩ := serializeRow_loads hr.1 s345
      rw [k1, k6] at l1
      rw [k2, k4] at l2
      rw [k3, k5] at l3
      have e1 : leafNodeValue i + 0 = leafNodeCell i + 16 := by
        rw [leafNodeValue_eq, leafNodeCell_eq]; omega
      have e2 : leafNodeValue i + 16 = leafNodeCell i + 32 := by
        rw [leafNodeValue_eq, leafNodeCell_eq]; omega
      have e3 : leafNodeValue i + 148 = leafNodeCell i + 164 := by
        rw [leafNodeValue_eq, leafNodeCell_eq]; omega
      rw [e1] at l1
      rw [e2] at l2
      rw [e3] at l3
      refine ⟨?_, ?_, ?_, ?_⟩
      · have a := loadBytes_sub himg 0 4 (by omega)
        have b : loadBytes node3 (leafNodeCell i + 0) 4 = .ok (encodeU32 r.id) := by
          rw [Nat.add_zero,
            loadBytes_storeBytes_disjoint s5 _ _ (by rw [hwf3, leafNodeValue_eq, leafNodeCell_eq]; omega),
            loadBytes_storeBytes_disjoint s4 _ _ (by rw [hwf2, leafNodeValue_eq, leafNodeCell_eq]; omega),
            loadBytes_storeBytes_disjoint s3 _ _
              (by rw [encodeU32_length, leafNodeValue_eq, leafNodeCell_eq]; omega)]
          have := loadBytes_storeBytes_same s2
          rwa [encodeU32_length] at this
        have := loadBytes_inj a b
        simpa using this
      · have a := loadBytes_sub himg 16 4 (by omega)
        exact loadBytes_inj a l1
      · have a := loadBytes_sub himg 32 (r.usernameString.length + 1) (by omega)
        have b := loadBytes_sub l2 0 (r.usernameString.length + 1) (by omega)
        rw [Nat.add_zero, List.drop_zero] at b
        have := loadBytes_inj a b
        rw [this]
        exact take_takeWhile_succ r.username hr.2.2.1
      · have a := loadBytes_sub himg 164 (r.emailString.length + 1) (by omega)
        have b := loadBytes_sub l3 0 (r.emailString.length + 1) (by omega)
        rw [Nat.add_zero, List.drop_zero] at b
        have := loadBytes_inj a b
        rw [this]
        exact take_takeWhile_succ r.email (List.mem_of_mem_take hr.2.2.2)
    · rw [getElem?_insert_gt rows r c i hc hgt] at hi
      obtain ⟨img, himg, hold⟩ := hcells (i - 1) row hi
      refine ⟨img, ?_, hold⟩
      rw [frame _ _ (by rw [leafNodeCell_eq]; omega)
          (by rw [leafNodeCell_eq, leafNodeCell_eq]; omega),
        hcp i hgt (by omega)]
      exact himg

/-! ## One insert into a leaf that has room -/

/-- In a strictly ascending list the entries below `key` are the first
`countP` entries, and the others are not below `key`. -/
theorem sorted_countP_split (keys : List Nat) (key : Nat)
    (hsorted : keys.Pairwise (fun a b => a < b)) :
    (∀ a, a ∈ keys.take (keys.countP (fun x => decide (x < key))) → a < key) ∧
      (∀ b, b ∈ keys.drop (keys.countP (fun x => decide (x < key))) → key ≤ b) := by
  induction keys with
  | nil => simp
  | cons a l ih =>
    obtain ⟨hal, hl⟩ := List.pairwise_cons.1 hsorted
    by_cases ha : a < key
    · rw [List.countP_cons_of_pos _ _ (by simpa using ha)]
      obtain ⟨h1, h2⟩ := ih hl
      constructor
      · intro x hx
        rw [List.take_succ_cons] at hx
        rcases List.mem_cons.1 hx with h | h
        · rw [h]; exact ha
        · exact h1 x h
      · intro x hx
        rw [List.drop_succ_cons] at hx
        exact h2 x hx
    · have hz : l.countP (fun x => decide (x < key)) = 0 := by
        rw [List.countP_eq_zero]
        intro x hx
        have := hal x hx
        simp only [decide_eq_true_eq]
        omega
      rw [List.countP_cons_of_neg _ _ (by simpa using ha), hz]
      constructor
      · intro x hx
        simp at hx
      · intro x hx
        rw [List.drop_zero] at hx
        rcases List.mem_cons.1 hx with h | h
        · rw [h]; omega
        · have := hal x h
          omega

theorem countP_le_length' (keys : List Nat) (key : Nat) :
    keys.countP (fun x => decide (x < key)) ≤ keys.length := List.countP_le_length _

/-- The ids stay strictly ascending when a new id is put at its lower-bound
index. -/
theorem sorted_insert (keys : List Nat) (key : Nat)
    (hsorted : keys.Pairwise (fun a b => a < b)) (hnew : key ∉ keys) :
    (keys.take (keys.countP (fun x => decide (x < key))) ++
      key :: keys.drop (keys.countP (fun x => decide (x < key)))).Pairwise
        (fun a b => a < b) := by
  obtain ⟨h1, h2⟩ := sorted_countP_split keys key hsorted
  have h2' : ∀ b, b ∈ keys.drop (keys.countP (fun x => decide (x < key))) → key < b := by
    intro b hb
    have hle := h2 b hb
    have hne : b ≠ key := fun h => hnew (h ▸ List.mem_of_mem_drop hb)
    omega
  rw [List.pairwise_append]
  refine ⟨hsorted.sublist (List.take_sublist _ _), ?_, ?_⟩
  · rw [List.pairwise_cons]
    exact ⟨h2', hsorted.sublist (List.drop_sublist _ _)⟩
  · intro a ha b hb
    rcases List.mem_cons.1 hb with h | h
    · rw [h]; exact h1 a ha
    · exact lt_trans (h1 a ha) (h2' b h)

theorem buffer_setBuffer (pager : Pager) (pageNum : Nat) (page : Page)
    (h : pageNum < pager.pages.length) :
    (pager.setBuffer pageNum page).pages[pageNum]? = some (some page) := by
  unfold Pager.setBuffer
  exact List.getElem?_set_self h

/-- `insertLeafNode` at cell `c` of a root leaf that holds at most three rows. -/
theorem insertLeafNode_of_leafRep (fresh : Nat → Page) (table : Table) (node : Page)
    (rows : List Row) (r : Row) (c : Nat)
    (hslot : table.pager.pages[table.root_page_num]? = some (some node))
    (hnum : table.root_page_num ≤ TABLE_MAX_PAGES)
    (hrep : LeafRep node rows) (hn : rows.length ≤ 3) (hc : c ≤ rows.length) (hr : r.Short) :
    ∃ node3, insertLeafNode fresh table
        { page_num := table.root_page_num, cell_num := c, end_of_table := none } r.id r =
        .ok { table with pager := table.pager.setBuffer table.root_page_num node3 } ∧
      LeafRep node3 (rows.take c ++ r :: rows.drop c) := by
  obtain ⟨node', node1, node2, node3, h1, h2, h3, h4, h5, h6⟩ :=
    insertLeafNode_pages node rows r c hrep hn hc hr
  refine ⟨node3, ?_, h6⟩
  have hmax : ¬ rows.length ≥ LEAF_NODE_MAX_CELLS := by
    have : LEAF_NODE_MAX_CELLS = 4104 := by decide
    rw [this]
    omega
  unfold insertLeafNode
  rw [getPage_loaded fresh _ _ _ hslot hnum]
  simp only [bind, Except.bind]
  rw [buffer_loaded _ _ _ hslot]
  simp only [hrep.2.2.1, if_neg hmax]
  by_cases hlt : c < rows.length
  · rw [if_pos hlt] at h1
    simp only [if_pos hlt, h1, h2, h3, h4, h5]
    rfl
  · rw [if_neg hlt] at h1
    have hnode : node = node' := Except.ok.inj h1
    subst hnode
    simp only [if_neg hlt, pure, Except.pure, h2, h3, h4, h5]

/-- `executeInsert` of a row with a new id into a root leaf of at most three
rows: the row goes to its lower-bound index. -/
theorem executeInsert_of_leafRep (fresh : Nat → Page) (table : Table) (rows : List Row) (r : Row)
    (hold : TableHolds table rows) (hshort : ∀ x, x ∈ rows → x.Short)
    (hsorted : (rows.map Row.id).Pairwise (fun a b => a < b))
    (hr : r.Short) (hnew : r.id ∉ rows.map Row.id) (hn : rows.length ≤ 3) :
    ∃ table', executeInsert fresh (insertStatement r) table =
        .ok (ExecuteResult.EXECUTE_SUCCESS, table') ∧
      TableHolds table'
        (rows.take ((rows.map Row.id).countP (fun x => decide (x < r.id))) ++
          r :: rows.drop ((rows.map Row.id).countP (fun x => decide (x < r.id)))) := by
  obtain ⟨hpages, node, hslot, hrep⟩ := hold
  have hlt := slot_lt_of_loaded hslot
  have hnum : table.root_page_num ≤ TABLE_MAX_PAGES := by omega
  have hkeys := hrep.leafKeys hshort
  have hfind := (findLeafNode_of_sorted fresh table table.root_page_num node (rows.map Row.id)
    r.id hpages hslot hkeys hsorted).1
  generalize hcdef : (rows.map Row.id).countP (fun x => decide (x < r.id)) = c at hfind ⊢
  have hc : c ≤ rows.length := by
    rw [← hcdef, ← List.length_map rows Row.id]
    exact List.countP_le_length _
  obtain ⟨node3, hins, hrep3⟩ :=
    insertLeafNode_of_leafRep fresh table node rows r c hslot hnum hrep hn hc hr
  refine ⟨{ table with pager := table.pager.setBuffer table.root_page_num node3 }, ?_, ?_⟩
  · unfold executeInsert insertStatement
    dsimp only
    rw [tableFind_leaf fresh table node _ hpages hslot hrep.2.1, hfind]
    simp only [bind, Except.bind]
    rw [getPage_loaded fresh _ _ _ hslot hnum]
    simp only []
    rw [buffer_loaded _ _ _ hslot]
    simp only [hrep.2.2.1]
    by_cases hcl : c < rows.length
    · have hcl' : c < (rows.map Row.id).length := by rw [List.length_map]; exact hcl
      have hk := hkeys.2.2 c hcl'
      have hne : ¬ (rows.map Row.id)[c] = r.id := fun h => hnew (h ▸ List.getElem_mem _)
      simp only [if_pos hcl, hk, pure, Except.pure, hne, decide_False, hins]
      rfl
    · simp only [if_neg hcl, pure, Except.pure, hins]
      rfl
  · refine ⟨?_, node3, ?_, hrep3⟩
    · show (table.pager.setBuffer table.root_page_num node3).pages.length = TABLE_MAX_PAGES
      unfold Pager.setBuffer
      rw [List.length_set]
      exact hpages
    · exact buffer_setBuffer _ _ _ hlt

/-- A run of inserts of rows with new, pairwise distinct ids into a root leaf,
four rows in the end at most: every insert succeeds and the leaf then holds
all the rows in ascending order of id. -/
theorem executeInserts_of_leafRep (fresh : Nat → Page) :
    ∀ (rest : List Row) (table : Table) (cur : List Row), TableHolds table cur →
      (∀ x, x ∈ cur → x.Short) → (cur.map Row.id).Pairwise (fun a b => a < b) →
      (∀ x, x ∈ rest → x.Short) → (rest.map Row.id).Nodup →
      (∀ x, x ∈ rest → x.id ∉ cur.map Row.id) → cur.length + rest.length ≤ 4 →
      ∃ table' final, executeInserts fresh (rest.map insertStatement) table =
          .ok (List.replicate rest.length ExecuteResult.EXECUTE_SUCCESS, table') ∧
        TableHolds table' final ∧ (∀ x, x ∈ final → x.Short) ∧
        (final.map Row.id).Pairwise (fun a b => a < b) ∧ final.Perm (rest ++ cur) := by
  intro rest
  induction rest with
  | nil =>
    intro table cur hold hshort hsorted _ _ _ _
    exact ⟨table, cur, rfl, hold, hshort, hsorted, List.Perm.refl _⟩
  | cons r rest ih =>
    intro table cur hold hshort hsorted hrs hnodup hnew hlen
    rw [List.length_cons] at hlen
    rw [List.map_cons, List.nodup_cons] at hnodup
    obtain ⟨table1, hstep, hold1⟩ := executeInsert_of_leafRep fresh table cur r hold hshort hsorted
      (hrs r (List.mem_cons_self _ _)) (hnew r (List.mem_cons_self _ _)) (by omega)
    generalize hcdef : (cur.map Row.id).countP (fun x => decide (x < r.id)) = c at hold1
    have hc : c ≤ cur.length := by
      rw [← hcdef, ← List.length_map cur Row.id]
      exact List.countP_le_length _
    have hperm1 : (cur.take c ++ r :: cur.drop c).Perm (r :: cur) := by
      have := @List.perm_middle Row r (cur.take c) (cur.drop c)
      rwa [List.take_append_drop] at this
    have hshort1 : ∀ x, x ∈ cur.take c ++ r :: cur.drop c → x.Short := by
      intro x hx
      rcases List.mem_cons.1 (hperm1.mem_iff.1 hx) with h | h
      · rw [h]; exact hrs r (List.mem_cons_self _ _)
      · exact hshort x h
    have hsorted1 : ((cur.take c ++ r :: cur.drop c).map Row.id).Pairwise (fun a b => a < b) := by
      rw [List.map_append, List.map_cons, List.map_take, List.map_drop, ← hcdef]
      exact sorted_insert _ _ hsorted (hnew r (List.mem_cons_self _ _))
    have hnew1 : ∀ x, x ∈ rest → x.id ∉ (cur.take c ++ r :: cur.drop c).map Row.id := by
      intro x hx hmem
      have hmem' : x.id ∈ (r :: cur).map Row.id := (hperm1.map Row.id).mem_iff.1 hmem
      rw [List.map_cons] at hmem'
      rcases List.mem_cons.1 hmem' with h | h
      · exact hnodup.1 (h ▸ List.mem_map_of_mem Row.id hx)
      · exact hnew x (List.mem_cons_of_mem _ hx) h
    obtain ⟨table', final, hrun, hold', hshort', hsorted', hperm'⟩ :=
      ih table1 (cur.take c ++ r :: cur.drop c) hold1 hshort1 hsorted1
        (fun x hx => hrs x (List.mem_cons_of_mem _ hx)) hnodup.2 hnew1
        (by rw [length_insert cur r c hc]; omega)
    refine ⟨table', final, ?_, hold', hshort', hsorted', ?_⟩
    · rw [List.map_cons]
      unfold executeInserts
      simp only [bind, Except.bind, hstep, hrun, pure, Except.pure]
      rfl
    · refine hperm'.trans ?_
      refine (List.Perm.append_left rest hperm1).trans ?_
      exact List.perm_middle

/-! ## Opening a database -/

theorem pagerOpen_eq (file : Option (List Nat)) :
    pagerOpen file = .ok { file_descriptor := file.getD [], file_length := 0, num_pages := 0,
                           pages := List.replicate TABLE_MAX_PAGES none } := by
  unfold pagerOpen fseek
  simp

theorem update_loaded (pager : Pager) (pageNum : Nat) (page page' : Page)
    (f : Page → Except Fault Page)
    (hslot : pager.pages[pageNum]? = some (some page)) (hf : f page = .ok page') :
    pager.update pageNum f = .ok (pager.setBuffer pageNum page') := by
  unfold Pager.update
  rw [buffer_loaded _ _ _ hslot]
  simp only [bind, Except.bind, hf]
  rfl

/-- The stores of `initializeLeafNode` followed by `setNodeRoot(node, true)` on
a page, and what the accessors then read. -/
theorem initializeLeafNode_root (page : Page) (hlen : page.length = PAGE_SIZE) :
    ∃ node node', initializeLeafNode page = .ok node ∧ setNodeRoot node true = .ok node' ∧
      node'.length = PAGE_SIZE ∧ getNodeType node' = .ok NODE_LEAF ∧
      isRootNode node' = .ok true ∧ loadU32 node' leafNodeNumCells = .ok 0 ∧
      loadU32 node' leafNodeNextLeaf = .ok 0 := by
  have hP : PAGE_SIZE = 4096 := rfl
  have hk : 4 * NODE_TYPE_OFFSET = 0 ∧ 4 * IS_ROOT_OFFSET = 4 ∧ NODE_LEAF % 256 = 1 := by decide
  obtain ⟨k1, k2, k3⟩ := hk
  rw [hP] at hlen
  obtain ⟨n1, s1⟩ := storeBytes_isOk page 0 [1] (by rw [hlen]; simp)
  have l1 : n1.length = 4096 := by rw [storeBytes_length s1, hlen]
  obtain ⟨n2, s2⟩ := storeBytes_isOk n1 4 [0] (by rw [l1]; simp)
  have l2 : n2.length = 4096 := by rw [storeBytes_length s2, l1]
  obtain ⟨n3, s3⟩ := storeBytes_isOk n2 24 (encodeU32 0) (by rw [l2, encodeU32_length]; omega)
  have l3 : n3.length = 4096 := by rw [storeBytes_length s3, l2]
  obtain ⟨n4, s4⟩ := storeBytes_isOk n3 40 (encodeU32 0) (by rw [l3, encodeU32_length]; omega)
  have l4 : n4.length = 4096 := by rw [storeBytes_length s4, l3]
  obtain ⟨n5, s5⟩ := storeBytes_isOk n4 4 [1] (by rw [l4]; simp)
  have l5 : n5.length = 4096 := by rw [storeBytes_length s5, l4]
  have hinit : initializeLeafNode page = .ok n4 := by
    unfold initializeLeafNode setNodeType setNodeRoot storeU8 storeU32
    rw [k1, k2, k3, leafNodeNumCells_eq, leafNodeNextLeaf_eq]
    simp only [bind, Except.bind, s1, s2, s3, s4, Bool.false_eq_true, if_false, Nat.zero_mod]
  have hroot : setNodeRoot n4 true = .ok n5 := by
    unfold setNodeRoot storeU8
    rw [k2]
    simp only [if_true, Nat.one_mod, s5]
  refine ⟨n4, n5, hinit, hroot, by rw [l5, hP], ?_, ?_, ?_, ?_⟩
  · unfold getNodeType loadU8
    rw [k1, loadBytes_storeBytes_disjoint s5 _ _ (by simp),
      loadBytes_storeBytes_disjoint s4 _ _ (by simp),
      loadBytes_storeBytes_disjoint s3 _ _ (by simp),
      loadBytes_storeBytes_disjoint s2 _ _ (by simp)]
    have := loadBytes_storeBytes_same s1
    simp only [List.length_singleton] at this
    rw [this]
    rfl
  · unfold isRootNode loadU8
    rw [k2]
    have := loadBytes_storeBytes_same s5
    simp only [List.length_singleton] at this
    rw [this]
    rfl
  · unfold loadU32
    rw [leafNodeNumCells_eq, loadBytes_storeBytes_disjoint s5 _ _ (by simp),
      loadBytes_storeBytes_disjoint s4 _ _ (by simp [encodeU32_length])]
    have := loadBytes_storeBytes_same s3
    rw [encodeU32_length] at this
    rw [this]
    rfl
  · unfold loadU32
    rw [leafNodeNextLeaf_eq, loadBytes_storeBytes_disjoint s5 _ _ (by simp)]
    have := loadBytes_storeBytes_same s4
    rw [encodeU32_length] at this
    rw [this]
    rfl

/-- The table `dbOpen` returns: one page, slot 0, initialised as an empty
root leaf, whatever the file holds. -/
theorem dbOpen_eq (fresh : Nat → Page) (file : Option (List Nat))
    (hfresh : (fresh 0).length = PAGE_SIZE) :
    ∃ node, dbOpen fresh file =
        .ok { root_page_num := 0,
              pager := { file_descriptor := file.getD [], file_length := 0, num_pages := 1,
                         pages := (List.replicate TABLE_MAX_PAGES none).set 0 (some node) } } ∧
      node.length = PAGE_SIZE ∧ getNodeType node = .ok NODE_LEAF ∧
      isRootNode node = .ok true ∧ loadU32 node leafNodeNumCells = .ok 0 ∧
      loadU32 node leafNodeNextLeaf = .ok 0 := by
  obtain ⟨n4, n5, hinit, hroot, hprops⟩ := initializeLeafNode_root (fresh 0) hfresh
  refine ⟨n5, ?_, hprops⟩
  have hget : getPage fresh
      { file_descriptor := file.getD [], file_length := 0, num_pages := 0,
        pages := List.replicate TABLE_MAX_PAGES none } 0 =
      .ok { file_descriptor := file.getD [], file_length := 0, num_pages := 1,
            pages := (List.replicate TABLE_MAX_PAGES none).set 0 (some (fresh 0)) } := by
    unfold getPage fread storeBytes
    simp [TABLE_MAX_PAGES, PAGE_SIZE, U32, bind, Except.bind, pure, Except.pure]
  have hT : 0 < (List.replicate TABLE_MAX_PAGES (none : Option Page)).length := by
    rw [List.length_replicate]; decide
  unfold dbOpen
  rw [pagerOpen_eq]
  simp only [bind, Except.bind, if_true]
  rw [hget]
  simp only []
  rw [update_loaded _ 0 (fresh 0) n4 _ (List.getElem?_set_self hT) hinit]
  simp only []
  rw [update_loaded _ 0 n4 n5 _ (by
    unfold Pager.setBuffer
    exact List.getElem?_set_self (by rw [List.length_set]; exact hT)) hroot]
  unfold Pager.setBuffer
  simp only [pure, Except.pure, List.set_set]

/-! ## Tokens and numbers -/

theorem strtok_token (tok rest : List Nat) (hne : tok ≠ [])
    (hns : ∀ c, c ∈ tok → c ≠ 32) : strtok (tok ++ 32 :: rest) = some (tok, rest) := by
  obtain ⟨a, t, rfl⟩ := List.exists_cons_of_ne_nil hne
  have ha : a ≠ 32 := hns a (List.mem_cons_self _ _)
  have hp : ∀ c, c ∈ a :: t → (decide (c ≠ 32)) = true := by
    intro c hc
    simpa using hns c hc
  unfold strtok
  have hd : ((a :: t) ++ 32 :: rest).dropWhile (fun c => decide (c = 32)) =
      (a :: t) ++ 32 :: rest := by
    rw [List.cons_append, List.dropWhile_cons_of_neg (by simpa using ha)]
  simp only [hd]
  rw [if_neg (by simp), List.takeWhile_append_of_pos hp, List.dropWhile_append_of_pos hp]
  simp

theorem strtok_last (tok : List Nat) (hne : tok ≠ []) (hns : ∀ c, c ∈ tok → c ≠ 32) :
    strtok tok = some (tok, []) := by
  obtain ⟨a, t, rfl⟩ := List.exists_cons_of_ne_nil hne
  have ha : a ≠ 32 := hns a (List.mem_cons_self _ _)
  have hp : ∀ c, c ∈ a :: t → (decide (c ≠ 32)) = true := by
    intro c hc
    simpa using hns c hc
  unfold strtok
  have hd : (a :: t).dropWhile (fun c => decide (c = 32)) = a :: t := by
    rw [List.dropWhile_cons_of_neg (by simpa using ha)]
  simp only [hd]
  rw [if_neg (by simp), List.takeWhile_eq_self_iff.2 hp, List.dropWhile_eq_nil_iff.2 hp]
  rfl

theorem foldl_decimal (l : List Nat) :
    ((l.map (fun d => d + 48)).reverse).foldl (fun acc d => 10 * acc + (d - 48)) 0 =
      Nat.ofDigits 10 l := by
  induction l with
  | nil => rfl
  | cons a l ih =>
    rw [List.map_cons, List.reverse_cons, List.foldl_append, ih, Nat.ofDigits_cons]
    simp only [List.foldl_cons, List.foldl_nil, Nat.add_sub_cancel]
    omega

theorem decimalString_digits (n : Nat) : ∀ c, c ∈ decimalString n → 48 ≤ c ∧ c ≤ 57 := by
  intro c hc
  unfold decimalString at hc
  split at hc
  · simp at hc
    omega
  · rw [List.mem_reverse, List.mem_map] at hc
    obtain ⟨d, hd, rfl⟩ := hc
    have := Nat.digits_lt_base (by norm_num : 1 < 10) hd
    omega

theorem decimalString_ne_nil (n : Nat) : decimalString n ≠ [] := by
  unfold decimalString
  split
  · simp
  · rename_i h
    have : Nat.digits 10 n ≠ [] := Nat.digits_ne_nil_iff_ne_zero.2 h
    simpa using this

theorem decimalString_foldl (n : Nat) :
    (decimalString n).foldl (fun acc d => 10 * acc + (d - 48)) 0 = n := by
  unfold decimalString
  split
  · rename_i h
    rw [h]
    rfl
  · rw [foldl_decimal, Nat.ofDigits_digits]

/-- `atoi` reads back the decimal text of a number that is an `int`. -/
theorem atoi_decimalString (n : Nat) (hn : n < 2147483648) :
    atoi (decimalString n) = (n : Int) := by
  have hdig := decimalString_digits n
  obtain ⟨a, t, hat⟩ := List.exists_cons_of_ne_nil (decimalString_ne_nil n)
  have ha := hdig a (by rw [hat]; exact List.mem_cons_self _ _)
  have hsp : (decimalString n).dropWhile isspace = decimalString n := by
    rw [hat, List.dropWhile_cons_of_neg]
    unfold isspace
    simp
    omega
  have hhead : (decimalString n).head? = some a := by rw [hat]; rfl
  have htake : (decimalString n).takeWhile isdigit = decimalString n := by
    rw [List.takeWhile_eq_self_iff]
    intro c hc
    have := hdig c hc
    unfold isdigit
    simp
    omega
  unfold atoi
  simp only [hsp, hhead, Option.some.injEq]
  have h45 : ¬ a = 45 := by omega
  have h43 : ¬ a = 43 := by omega
  simp only [h45, h43, or_self, if_false, htake, decimalString_foldl]
  omega

/-! ## `splitLeafNodeAndInsert` does not return -/

theorem bind_eq_ok {α β : Type} {x : Except Fault α} {f : α → Except Fault β} {r : β}
    (h : (x >>= f) = .ok r) : ∃ a, x = .ok a ∧ f a = .ok r := by
  cases x with
  | error e => cases h
  | ok a => exact ⟨a, rfl, h⟩

theorem sized_set (pager : Pager) (pageNum : Nat) (page : Page) (numPages : Nat)
    (hs : PagesSized pager) (hlen : page.length = PAGE_SIZE) :
    PagesSized { pager with pages := pager.pages.set pageNum (some page), num_pages := numPages } := by
  intro i p hp
  simp only [] at hp
  rw [List.getElem?_set] at hp
  split at hp
  · split at hp
    · have : page = p := Option.some.inj (Option.some.inj hp)
      rw [← this]
      exact hlen
    · cases hp
  · exact hs i p hp

theorem getPage_sized (fresh : Nat → Page) (pager pager' : Pager) (pageNum : Nat)
    (hs : PagesSized pager) (hfresh : ∀ i, (fresh i).length = PAGE_SIZE)
    (h : getPage fresh pager pageNum = .ok pager') : PagesSized pager' := by
  unfold getPage at h
  split at h
  · cases h
  · split at h
    · cases h
    · rw [← Except.ok.inj h]
      exact hs
    · dsimp only at h
      split at h <;> split at h <;>
        (obtain ⟨page, hpage, h⟩ := bind_eq_ok h
         have hlen : page.length = PAGE_SIZE := by
           first
             | (unfold fread at hpage
                rw [storeBytes_length hpage]
                exact hfresh _)
             | (rw [← Except.ok.inj hpage]
                exact hfresh _)
         rw [← Except.ok.inj h]
         exact sized_set pager pageNum page _ hs hlen)

theorem update_sized (pager pager' : Pager) (pageNum : Nat) (f : Page → Except Fault Page)
    (hs : PagesSized pager) (hf : ∀ p p', f p = .ok p' → p'.length = p.length)
    (h : pager.update pageNum f = .ok pager') : PagesSized pager' := by
  unfold Pager.update at h
  obtain ⟨page, hb, h⟩ := bind_eq_ok h
  obtain ⟨page', hfp, h⟩ := bind_eq_ok h
  rw [← Except.ok.inj h]
  have hlen : page.length = PAGE_SIZE := by
    unfold Pager.buffer at hb
    split at hb
    · rename_i p hp
      rw [← Except.ok.inj hb]
      exact hs _ _ hp
    · cases hb
  intro i p hp
  unfold Pager.setBuffer at hp
  simp only [] at hp
  rw [List.getElem?_set] at hp
  split at hp
  · split at hp
    · have : page' = p := Option.some.inj (Option.some.inj hp)
      rw [← this, hf page page' hfp]
      exact hlen
    · cases hp
  · exact hs i p hp

theorem writeU32_sized (pager pager' : Pager) (pageNum off v : Nat) (hs : PagesSized pager)
    (h : pager.writeU32 pageNum off v = .ok pager') : PagesSized pager' :=
  update_sized pager pager' pageNum _ hs (fun _ _ hp => storeBytes_length hp) h

theorem initializeLeafNode_length (node node' : Page) (h : initializeLeafNode node = .ok node') :
    node'.length = node.length := by
  unfold initializeLeafNode setNodeType setNodeRoot storeU8 storeU32 at h
  obtain ⟨n1, h1, h⟩ := bind_eq_ok h
  obtain ⟨n2, h2, h⟩ := bind_eq_ok h
  obtain ⟨n3, h3, h⟩ := bind_eq_ok h
  rw [storeBytes_length h, storeBytes_length h3, storeBytes_length h2, storeBytes_length h1]

theorem buffer_sized (pager : Pager) (pageNum : Nat) (page : Page) (hs : PagesSized pager)
    (h : pager.buffer pageNum = .ok page) : page.length = PAGE_SIZE := by
  unfold Pager.buffer at h
  split at h
  · rename_i p hp
    rw [← Except.ok.inj h]
    exact hs _ _ hp
  · cases h

/-- The copy loop of `splitLeafNodeAndInsert` stops in its first iteration:
the cell it addresses there lies outside every page. -/
theorem splitLeafNodeLoop_faults (oldPageNum newPageNum : Nat) (cursor : Cursor) (key : Nat)
    (value : Row) (pager : Pager) (hs : PagesSized pager) (result : Pager) :
    splitLeafNodeLoop oldPageNum newPageNum cursor key value (LEAF_NODE_MAX_CELLS + 1) pager ≠
      .ok result := by
  intro h
  have hP : PAGE_SIZE = 4096 := rfl
  have hM : LEAF_NODE_MAX_CELLS + 1 = 4104 + 1 := by decide
  have hidx : splitIndexWithinNode 4104 = 2052 := by decide
  have hk : LEAF_NODE_CELL_SIZE = 297 := by decide
  rw [hM] at h
  unfold splitLeafNodeLoop at h
  dsimp only at h
  rw [hidx] at h
  split at h
  · obtain ⟨pager2, h2, _⟩ := bind_eq_ok h
    unfold Pager.update at h2
    obtain ⟨page, hb, h2⟩ := bind_eq_ok h2
    obtain ⟨page', hser, _⟩ := bind_eq_ok h2
    have hlen := buffer_sized _ _ _ hs hb
    obtain ⟨b1, _, hst, _⟩ := (serializeRow_ok_iff _ _ _ _).1 hser
    have := ((storeBytes_ok_iff _ _ _ _).1 hst).1
    rw [leafNodeValue_eq, hlen, hP] at this
    omega
  · split at h
    · obtain ⟨pager2, h2, _⟩ := bind_eq_ok h
      unfold Pager.memcpy at h2
      obtain ⟨src, hb, h2⟩ := bind_eq_ok h2
      obtain ⟨bs, hl, _⟩ := bind_eq_ok h2
      have hlen := buffer_sized _ _ _ hs hb
      have := ((loadBytes_ok_iff _ _ _ _).1 hl).1
      rw [leafNodeCell_eq, hlen, hP, hk] at this
      omega
    · obtain ⟨pager2, h2, _⟩ := bind_eq_ok h
      unfold Pager.memcpy at h2
      obtain ⟨src, hb, h2⟩ := bind_eq_ok h2
      obtain ⟨bs, hl, _⟩ := bind_eq_ok h2
      have hlen := buffer_sized _ _ _ hs hb
      have := ((loadBytes_ok_iff _ _ _ _).1 hl).1
      rw [leafNodeCell_eq, hlen, hP, hk] at this
      omega

/-- Whatever the table, the cursor, the key and the row:
`splitLeafNodeAndInsert` does not return. -/
theorem splitLeafNodeAndInsert_not_ok (fresh : Nat → Page) (table : Table) (cursor : Cursor)
    (key : Nat) (value : Row) (hs : PagesSized table.pager)
    (hfresh : ∀ i, (fresh i).length = PAGE_SIZE) (result : Table) :
    splitLeafNodeAndInsert fresh table cursor key value ≠ .ok result := by
  intro h
  unfold splitLeafNodeAndInsert at h
  dsimp only at h
  obtain ⟨pager1, h1, h⟩ := bind_eq_ok h
  have s1 := getPage_sized fresh _ _ _ hs hfresh h1
  obtain ⟨oldNode, _, h⟩ := bind_eq_ok h
  obtain ⟨oldMax, _, h⟩ := bind_eq_ok h
  obtain ⟨pager2, h2, h⟩ := bind_eq_ok h
  have s2 := getPage_sized fresh _ _ _ s1 hfresh h2
  obtain ⟨pager3, h3, h⟩ := bind_eq_ok h
  have s3 := update_sized _ _ _ _ s2 initializeLeafNode_length h3
  obtain ⟨oldParent, _, h⟩ := bind_eq_ok h
  obtain ⟨pager4, h4, h⟩ := bind_eq_ok h
  have s4 := writeU32_sized _ _ _ _ _ s3 h4
  obtain ⟨oldNext, _, h⟩ := bind_eq_ok h
  obtain ⟨pager5, h5, h⟩ := bind_eq_ok h
  have s5 := writeU32_sized _ _ _ _ _ s4 h5
  obtain ⟨pager6, h6, h⟩ := bind_eq_ok h
  have s6 := writeU32_sized _ _ _ _ _ s5 h6
  obtain ⟨pager7, h7, _⟩ := bind_eq_ok h
  exact splitLeafNodeLoop_faults _ _ _ _ _ _ s6 pager7 h7

theorem pagesSized_of_check (pager : Pager) (h : pagesSizedCheck pager = true) :
    PagesSized pager := by
  intro i page hp
  unfold pagesSizedCheck at h
  rw [List.all_eq_true] at h
  have := h (some page) (List.getElem?_mem hp)
  simpa using this

/-! ## Internal nodes -/

theorem internalNodeNumKeys_eq : internalNodeNumKeys = 24 := rfl

theorem internalNodeRightChild_eq : internalNodeRightChild = 48 := rfl

theorem internalNodeCell_eq (i : Nat) : internalNodeCell i = 56 + 32 * i := by
  unfold internalNodeCell INTERNAL_NODE_HEADER_SIZE INTERNAL_NODE_CELL_SIZE
    COMMON_NODE_METADATA_SIZE NODE_TYPE_SIZE IS_ROOT_SIZE PARENT_POINTER_SIZE
    INTERNAL_NODE_NUM_KEYS_SIZE INTERNAL_NODE_RIGHT_CHILD_SIZE INTERNAL_NODE_CHILD_SIZE
    INTERNAL_NODE_KEY_SIZE
  omega

theorem internalNodeKey_eq (i : Nat) : internalNodeKey i = 72 + 32 * i := by
  unfold internalNodeKey INTERNAL_NODE_CHILD_SIZE
  rw [internalNodeCell_eq]
  omega

theorem loadU32_isOk (buf : Page) (off : Nat) (h : off + 4 ≤ buf.length) :
    ∃ v, loadU32 buf off = .ok v := by
  obtain ⟨bs, hbs⟩ := loadBytes_isOk buf off 4 h
  unfold loadU32
  rw [hbs]
  exact ⟨_, rfl⟩

theorem storeU32_length {buf : Page} {off v : Nat} {buf' : Page}
    (h : storeU32 buf off v = .ok buf') : buf'.length = buf.length :=
  storeBytes_length h

theorem storeU32_isOk (buf : Page) (off v : Nat) (h : off + 4 ≤ buf.length) :
    ∃ buf', storeU32 buf off v = .ok buf' := by
  unfold storeU32
  exact storeBytes_isOk buf off (encodeU32 v) (by rw [encodeU32_length]; exact h)

theorem loadU32_storeU32_disjoint {buf : Page} {off v : Nat} {buf' : Page}
    (h : storeU32 buf off v = .ok buf') (o : Nat) (hd : o + 4 ≤ off ∨ off + 4 ≤ o) :
    loadU32 buf' o = loadU32 buf o := by
  unfold storeU32 at h
  exact loadU32_storeBytes_disjoint h o (by rw [encodeU32_length]; exact hd)

/-- The search loop of `internalNodeFindChild` returns an index between its
bounds when the keys below `n` lie within the page. -/
theorem internalNodeFindChildLoop_isOk (node : Page) (key n : Nat)
    (hcells : internalNodeCell n ≤ node.length) (hlen : node.length = PAGE_SIZE) :
    ∀ fuel lo hi, lo ≤ hi → hi ≤ n → hi - lo < fuel →
      ∃ index, internalNodeFindChildLoop node key fuel lo hi = .ok index ∧
        lo ≤ index ∧ index ≤ hi := by
  have hP : PAGE_SIZE = 4096 := rfl
  have hU : U32 = 4294967296 := rfl
  rw [internalNodeCell_eq, hlen, hP] at hcells
  intro fuel
  induction fuel with
  | zero => intro lo hi _ _ h; omega
  | succ fuel ih =>
    intro lo hi hle hhi hfuel
    unfold internalNodeFindChildLoop
    by_cases heq : lo = hi
    · rw [if_neg (by simpa using heq)]
      exact ⟨lo, rfl, le_refl _, hle⟩
    · rw [if_pos heq]
      dsimp only
      have hmod : (lo + hi) % U32 = lo + hi := Nat.mod_eq_of_lt (by rw [hU]; omega)
      rw [hmod]
      have hmid1 : lo ≤ (lo + hi) / 2 := by omega
      have hmid2 : (lo + hi) / 2 < hi := by omega
      obtain ⟨v, hv⟩ := loadU32_isOk node (internalNodeKey ((lo + hi) / 2))
        (by rw [internalNodeKey_eq, hlen, hP]; omega)
      rw [hv]
      simp only [bind, Except.bind]
      by_cases hge : v ≥ key
      · rw [if_pos hge]
        obtain ⟨index, h1, h2, h3⟩ := ih lo ((lo + hi) / 2) hmid1 (by omega) (by omega)
        exact ⟨index, h1, h2, by omega⟩
      · rw [if_neg hge]
        have hmod2 : ((lo + hi) / 2 + 1) % U32 = (lo + hi) / 2 + 1 :=
          Nat.mod_eq_of_lt (by rw [hU]; omega)
        rw [hmod2]
        obtain ⟨index, h1, h2, h3⟩ := ih ((lo + hi) / 2 + 1) hi (by omega) hhi (by omega)
        exact ⟨index, h1, by omega, h3⟩

theorem internalNodeFindChild_isOk (node : Page) (key n : Nat)
    (hn : loadU32 node internalNodeNumKeys = .ok n)
    (hcells : internalNodeCell n ≤ node.length) (hlen : node.length = PAGE_SIZE) :
    ∃ index, internalNodeFindChild node key = .ok index ∧ index ≤ n := by
  obtain ⟨index, h1, _, h3⟩ :=
    internalNodeFindChildLoop_isOk node key n hcells hlen (n + 1) 0 n (Nat.zero_le _)
      (le_refl _) (by omega)
  refine ⟨index, ?_, h3⟩
  unfold internalNodeFindChild
  rw [hn]
  exact h1

/-- The shift loop of `insertInternalNode` stays within a page that has room
for the cell `i`; it keeps the length and the bytes before the first cell. -/
theorem insertInternalNodeShift_isOk (index : Nat) :
    ∀ (i : Nat) (parent : Page),
      internalNodeCell i + INTERNAL_NODE_CELL_SIZE ≤ parent.length →
      ∃ parent', insertInternalNodeShift index i parent = .ok parent' ∧
        parent'.length = parent.length ∧
        ∀ o, o + 4 ≤ internalNodeCell 0 → loadU32 parent' o = loadU32 parent o := by
  have hk : INTERNAL_NODE_CELL_SIZE = 8 := rfl
  intro i
  induction i with
  | zero => intro parent _; exact ⟨parent, rfl, rfl, fun _ _ => rfl⟩
  | succ i ih =>
    intro parent hroom
    rw [internalNodeCell_eq, hk] at hroom
    unfold insertInternalNodeShift
    by_cases hgt : i + 1 > index
    · rw [if_pos hgt]
      unfold memcpyWithin
      obtain ⟨bs, hbs⟩ := loadBytes_isOk parent (internalNodeCell i) INTERNAL_NODE_CELL_SIZE
        (by rw [internalNodeCell_eq, hk]; omega)
      have hbl := loadBytes_length hbs
      obtain ⟨p1, hp1⟩ := storeBytes_isOk parent (internalNodeCell (i + 1)) bs
        (by rw [internalNodeCell_eq, hbl, hk]; omega)
      have hl1 := storeBytes_length hp1
      simp only [bind, Except.bind, hbs, hp1]
      obtain ⟨p2, hp2, hl2, hkeep⟩ := ih p1 (by rw [internalNodeCell_eq, hk, hl1]; omega)
      refine ⟨p2, hp2, by rw [hl2, hl1], ?_⟩
      intro o ho
      rw [hkeep o ho]
      rw [internalNodeCell_eq] at ho
      exact loadU32_storeBytes_disjoint hp1 o (by rw [internalNodeCell_eq]; omega)
    · rw [if_neg hgt]
      exact ⟨parent, rfl, rfl, fun _ _ => rfl⟩

theorem writeU32_loaded (pager : Pager) (pageNum off v : Nat) (page : Page)
    (hslot : pager.pages[pageNum]? = some (some page)) (hoff : off + 4 ≤ page.length) :
    ∃ page', storeU32 page off v = .ok page' ∧
      pager.writeU32 pageNum off v = .ok (pager.setBuffer pageNum page') := by
  obtain ⟨page', hp⟩ := storeU32_isOk page off v hoff
  exact ⟨page', hp, update_loaded pager pageNum page page' _ hslot hp⟩

theorem setBuffer_other (pager : Pager) (pageNum other : Nat) (page : Page)
    (h : other ≠ pageNum) : (pager.setBuffer pageNum page).pages[other]? = pager.pages[other]? := by
  unfold Pager.setBuffer
  exact List.getElem?_set_ne (fun e => h e.symm)

theorem setBuffer_same (pager : Pager) (pageNum : Nat) (page page' : Page)
    (hslot : pager.pages[pageNum]? = some (some page)) :
    (pager.setBuffer pageNum page').pages[pageNum]? = some (some page') :=
  buffer_setBuffer pager pageNum page' (slot_lt_of_loaded hslot)

theorem internalNodeChild_lt (node : Page) (childNum m : Nat)
    (hnum : loadU32 node internalNodeNumKeys = .ok m) (h : childNum < m) :
    internalNodeChild node childNum = .ok (internalNodeCell childNum) := by
  unfold internalNodeChild
  rw [hnum]
  simp only [bind, Except.bind]
  rw [if_neg (by omega), if_neg (by omega)]
  rfl

/-- A store into the body of an internal node, behind its `num_keys` field,
keeps the field, the length of the page and the other slots of the pager. -/
theorem writeU32_keeps (pager : Pager) (pageNum other off v m : Nat) (page right : Page)
    (hslot : pager.pages[pageNum]? = some (some page))
    (hright : pager.pages[other]? = some (some right)) (hne : other ≠ pageNum)
    (hlen : page.length = PAGE_SIZE) (hnum : loadU32 page internalNodeNumKeys = .ok m)
    (hoff : internalNodeNumKeys + 4 ≤ off) (hend : off + 4 ≤ PAGE_SIZE) :
    ∃ pager' page', pager.writeU32 pageNum off v = .ok pager' ∧
      pager'.pages[pageNum]? = some (some page') ∧
      pager'.pages[other]? = some (some right) ∧
      page'.length = PAGE_SIZE ∧ loadU32 page' internalNodeNumKeys = .ok m := by
  obtain ⟨page', hst, hw⟩ := writeU32_loaded pager pageNum off v page hslot (by rw [hlen]; exact hend)
  refine ⟨_, page', hw, setBuffer_same pager pageNum page page' hslot, ?_, ?_, ?_⟩
  · rw [setBuffer_other _ _ _ _ hne]
    exact hright
  · rw [storeU32_length hst, hlen]
  · rw [loadU32_storeU32_disjoint hst _ (Or.inl hoff)]
    exact hnum

/-- The shift loop of `insertInternalNode` applied to the buffer of a slot. -/
theorem shift_keeps (pager : Pager) (pageNum other index i m : Nat) (page right : Page)
    (hslot : pager.pages[pageNum]? = some (some page))
    (hright : pager.pages[other]? = some (some right)) (hne : other ≠ pageNum)
    (hlen : page.length = PAGE_SIZE) (hnum : loadU32 page internalNodeNumKeys = .ok m)
    (hroom : internalNodeCell i + INTERNAL_NODE_CELL_SIZE ≤ PAGE_SIZE) :
    ∃ pager' page', pager.update pageNum (insertInternalNodeShift index i) = .ok pager' ∧
      pager'.pages[pageNum]? = some (some page') ∧
      pager'.pages[other]? = some (some right) ∧
      page'.length = PAGE_SIZE ∧ loadU32 page' internalNodeNumKeys = .ok m := by
  obtain ⟨page', hsh, hl, hkeep⟩ := insertInternalNodeShift_isOk index i page (by rw [hlen]; exact hroom)
  refine ⟨_, page', update_loaded pager pageNum page page' _ hslot hsh,
    setBuffer_same pager pageNum page page' hslot, ?_, ?_, ?_⟩
  · rw [setBuffer_other _ _ _ _ hne]
    exact hright
  · rw [hl, hlen]
  · rw [hkeep _ (by rw [internalNodeNumKeys_eq, internalNodeCell_eq]; omega)]
    exact hnum

/-- The two outcomes of `insertInternalNode` on a parent page whose `n` cells
lie within it, with the child and the right child loaded: the exit for
`n ≥ INTERNAL_NODE_MAX_CELLS`, and otherwise the return with `num_keys` one
greater. -/
theorem insertInternalNode_spec (fresh : Nat → Page) (table : Table)
    (parentPageNum childPageNum : Nat) (parent child right : Page) (n k R kr : Nat)
    (hpages : table.pager.pages.length = TABLE_MAX_PAGES)
    (hparent : table.pager.pages[parentPageNum]? = some (some parent))
    (hlen : parent.length = PAGE_SIZE)
    (hchild : table.pager.pages[childPageNum]? = some (some child))
    (hk : getNodeMaxKey child = .ok k)
    (hn : loadU32 parent internalNodeNumKeys = .ok n)
    (hcells : internalNodeCell n ≤ PAGE_SIZE)
    (hR : loadU32 parent internalNodeRightChild = .ok R)
    (hright : table.pager.pages[R]? = some (some right))
    (hne : R ≠ parentPageNum)
    (hkr : getNodeMaxKey right = .ok kr) :
    (n ≥ INTERNAL_NODE_MAX_CELLS →
        insertInternalNode fresh table parentPageNum childPageNum = .error Fault.fatalExit) ∧
      (n < INTERNAL_NODE_MAX_CELLS →
        ∃ table', insertInternalNode fresh table parentPageNum childPageNum = .ok table' ∧
          table'.pager.readU32 parentPageNum internalNodeNumKeys = .ok (n + 1)) := by
  have hP : PAGE_SIZE = 4096 := rfl
  have hU : U32 = 4294967296 := rfl
  have hM : INTERNAL_NODE_MAX_CELLS = 3 := rfl
  have hT : TABLE_MAX_PAGES = 100 := rfl
  have hc := hcells
  rw [internalNodeCell_eq, hP] at hc
  have hpn : parentPageNum ≤ TABLE_MAX_PAGES := by
    have := slot_lt_of_loaded hparent
    omega
  have hcn : childPageNum ≤ TABLE_MAX_PAGES := by
    have := slot_lt_of_loaded hchild
    omega
  have hRn : R ≤ TABLE_MAX_PAGES := by
    have := slot_lt_of_loaded hright
    omega
  obtain ⟨index, hfind, hidx⟩ :=
    internalNodeFindChild_isOk parent k n hn (by rw [hlen]; exact hcells) hlen
  have hmod : (n + 1) % U32 = n + 1 := Nat.mod_eq_of_lt (by rw [hU]; omega)
  obtain ⟨parent2, hst2, hw2⟩ := writeU32_loaded table.pager parentPageNum internalNodeNumKeys
    (n + 1) parent hparent (by rw [internalNodeNumKeys_eq, hlen, hP]; omega)
  have hl2 : parent2.length = PAGE_SIZE := by rw [storeU32_length hst2, hlen]
  have hn2 : loadU32 parent2 internalNodeNumKeys = .ok (n + 1) :=
    loadU32_storeU32_same hst2 (by rw [hU]; omega)
  have hslot2 := setBuffer_same table.pager parentPageNum parent parent2 hparent
  have hright2 : (table.pager.setBuffer parentPageNum parent2).pages[R]? = some (some right) := by
    rw [setBuffer_other _ _ _ _ hne]
    exact hright
  generalize hres : insertInternalNode fresh table parentPageNum childPageNum = res
  unfold insertInternalNode at hres
  rw [getPage_loaded fresh _ _ _ hparent hpn] at hres
  simp only [bind, Except.bind] at hres
  rw [getPage_loaded fresh _ _ _ hchild hcn] at hres
  simp only [bind, Except.bind] at hres
  rw [buffer_loaded _ _ _ hchild] at hres
  simp only [bind, Except.bind, hk] at hres
  rw [buffer_loaded _ _ _ hparent] at hres
  simp only [bind, Except.bind, hfind, hn, hmod, hw2] at hres
  refine ⟨fun hge => ?_, fun hlt => ?_⟩
  · rw [if_pos hge] at hres
    exact hres.symm
  · rw [if_neg (by omega)] at hres
    have hR2 : loadU32 parent2 internalNodeRightChild = .ok R := by
      rw [loadU32_storeU32_disjoint hst2 _
        (by rw [internalNodeRightChild_eq, internalNodeNumKeys_eq]; omega)]
      exact hR
    rw [readU32_loaded _ _ _ _ hslot2, hR2] at hres
    simp only [] at hres
    rw [getPage_loaded fresh _ _ _ hright2 hRn] at hres
    simp only [] at hres
    rw [buffer_loaded _ _ _ hright2] at hres
    simp only [hkr] at hres
    rw [buffer_loaded _ _ _ hslot2] at hres
    simp only [] at hres
    have hch : ∀ i, i ≤ n → internalNodeChild parent2 i = .ok (internalNodeCell i) :=
      fun i hi => internalNodeChild_lt parent2 i (n + 1) hn2 (by omega)
    have hNK : internalNodeNumKeys = 24 := rfl
    have hRC : internalNodeRightChild = 48 := rfl
    by_cases hgt : k > kr
    · rw [if_pos hgt, hch n (le_refl _)] at hres
      simp only [] at hres
      obtain ⟨pager3, parent3, hw3, hslot3, hright3, hl3, hn3⟩ :=
        writeU32_keeps _ parentPageNum R (internalNodeCell n) R (n + 1) parent2 right hslot2
          hright2 hne hl2 hn2 (by rw [internalNodeCell_eq, hNK]; omega)
          (by rw [internalNodeCell_eq, hP]; omega)
      rw [hw3] at hres
      simp only [] at hres
      rw [buffer_loaded _ _ _ hright3] at hres
      simp only [hkr] at hres
      obtain ⟨pager4, parent4, hw4, hslot4, hright4, hl4, hn4⟩ :=
        writeU32_keeps pager3 parentPageNum R (internalNodeKey n) kr (n + 1) parent3 right hslot3
          hright3 hne hl3 hn3 (by rw [internalNodeKey_eq, hNK]; omega)
          (by rw [internalNodeKey_eq, hP]; omega)
      rw [hw4] at hres
      simp only [] at hres
      obtain ⟨pager5, parent5, hw5, hslot5, hright5, hl5, hn5⟩ :=
        writeU32_keeps pager4 parentPageNum R internalNodeRightChild childPageNum (n + 1) parent4
          right hslot4 hright4 hne hl4 hn4 (by rw [hRC, hNK]; omega)
          (by rw [hRC, hP]; omega)
      rw [hw5] at hres
      simp only [] at hres
      refine ⟨_, hres.symm, ?_⟩
      rw [readU32_loaded _ _ _ _ hslot5]
      exact hn5
    · rw [if_neg hgt] at hres
      obtain ⟨pager3, parent3, hw3, hslot3, hright3, hl3, hn3⟩ :=
        shift_keeps _ parentPageNum R index n (n + 1) parent2 right hslot2 hright2 hne hl2 hn2
          (by rw [internalNodeCell_eq, hP]; unfold INTERNAL_NODE_CELL_SIZE INTERNAL_NODE_CHILD_SIZE INTERNAL_NODE_KEY_SIZE; omega)
      rw [hw3] at hres
      simp only [] at hres
      rw [buffer_loaded _ _ _ hslot3] at hres
      simp only [] at hres
      rw [internalNodeChild_lt parent3 index (n + 1) hn3 (by omega)] at hres
      simp only [] at hres
      obtain ⟨pager4, parent4, hw4, hslot4, hright4, hl4, hn4⟩ :=
        writeU32_keeps pager3 parentPageNum R (internalNodeCell index) childPageNum (n + 1)
          parent3 right hslot3 hright3 hne hl3 hn3 (by rw [internalNodeCell_eq, hNK]; omega)
          (by rw [internalNodeCell_eq, hP]; omega)
      rw [hw4] at hres
      simp only [] at hres
      obtain ⟨pager5, parent5, hw5, hslot5, hright5, hl5, hn5⟩ :=
        writeU32_keeps pager4 parentPageNum R (internalNodeKey index) k (n + 1) parent4 right
          hslot4 hright4 hne hl4 hn4 (by rw [internalNodeKey_eq, hNK]; omega)
          (by rw [internalNodeKey_eq, hP]; omega)
      rw [hw5] at hres
      simp only [] at hres
      refine ⟨_, hres.symm, ?_⟩
      rw [readU32_loaded _ _ _ _ hslot5]
      exact hn5

/-! ## Binary search in an internal node -/

/-- The loop of `internalNodeFindChild` on keys `f 0 ≤ f 1 ≤ ...` that can
all be loaded: it returns, enough fuel given, the least index whose key is not
below `key`. -/
theorem internalNodeFindChildLoop_spec (node : Page) (key n : Nat) (f : Nat → Nat)
    (hkey : ∀ i, i < n → loadU32 node (internalNodeKey i) = .ok (f i))
    (hmono : ∀ i j, i < j → j < n → f i ≤ f j) (hn : n + n < U32) :
    ∀ fuel lo hi, lo ≤ hi → hi ≤ n → hi - lo < fuel →
      (∀ i, i < lo → f i < key) → (∀ i, hi ≤ i → i < n → key ≤ f i) →
      ∃ r, internalNodeFindChildLoop node key fuel lo hi = .ok r ∧ lo ≤ r ∧ r ≤ hi ∧
        (∀ i, i < r → f i < key) ∧ (∀ i, r ≤ i → i < n → key ≤ f i) := by
  intro fuel
  induction fuel with
  | zero => intro lo hi _ _ h; omega
  | succ fuel ih =>
    intro lo hi hle hhi hfuel hlow hhigh
    unfold internalNodeFindChildLoop
    by_cases heq : lo = hi
    · subst heq
      rw [if_neg (by simp)]
      exact ⟨lo, rfl, le_refl _, le_refl _, hlow, hhigh⟩
    · rw [if_pos heq]
      have hwrap : (lo + hi) % U32 = lo + hi := Nat.mod_eq_of_lt (by omega)
      dsimp only
      rw [hwrap]
      have hidx1 : lo ≤ (lo + hi) / 2 := by omega
      have hidx2 : (lo + hi) / 2 < hi := by omega
      rw [hkey ((lo + hi) / 2) (by omega)]
      simp only [bind, Except.bind]
      by_cases hge : f ((lo + hi) / 2) ≥ key
      · rw [if_pos hge]
        obtain ⟨r, hr, h1, h2, h3, h4⟩ := ih lo ((lo + hi) / 2) hidx1 (by omega) (by omega) hlow
          (by
            intro i hi1 hi2
            rcases Nat.eq_or_lt_of_le hi1 with h | h
            · rw [← h]; exact hge
            · exact le_trans hge (hmono _ i h hi2))
        exact ⟨r, hr, h1, by omega, h3, h4⟩
      · rw [if_neg hge]
        have hwrap2 : ((lo + hi) / 2 + 1) % U32 = (lo + hi) / 2 + 1 :=
          Nat.mod_eq_of_lt (by omega)
        rw [hwrap2]
        obtain ⟨r, hr, h1, h2, h3, h4⟩ := ih ((lo + hi) / 2 + 1) hi (by omega) hhi (by omega)
          (by
            intro i hi1
            have hgt : f ((lo + hi) / 2) < key := by omega
            rcases Nat.eq_or_lt_of_le (Nat.le_of_lt_succ hi1) with h | h
            · rw [h]; exact hgt
            · exact lt_of_le_of_lt (hmono i _ h (by omega)) hgt)
          hhigh
        exact ⟨r, hr, by omega, h2, h3, h4⟩

theorem InternalKeys.keys_length_le {node : Page} {keys : List Nat} (h : InternalKeys node keys) :
    keys.length ≤ 126 := by
  obtain ⟨hlen, _, hk⟩ := h
  by_contra hc
  have h4 := loadU32_ok_bound (hk 126 (by omega))
  rw [internalNodeKey_eq, hlen] at h4
  unfold PAGE_SIZE at h4
  omega

/-- The search of `internalNodeFindChild` among ascending keys. -/
theorem internalNodeFindChild_of_sorted (node : Page) (keys : List Nat) (key : Nat)
    (hnode : InternalKeys node keys) (hsorted : keys.Pairwise (fun a b => a ≤ b)) :
    ∃ index, internalNodeFindChild node key = .ok index ∧ index ≤ keys.length ∧
      (∀ i (h : i < keys.length), i < index → keys[i] < key) ∧
      (∀ i (h : i < keys.length), index ≤ i → key ≤ keys[i]) := by
  have hn := hnode.keys_length_le
  obtain ⟨hlen, hcount, hk⟩ := hnode
  have hmono : ∀ i j, i < j → j < keys.length → keys.getD i 0 ≤ keys.getD j 0 := by
    intro i j hij hj
    rw [List.getD_eq_getElem _ _ (by omega), List.getD_eq_getElem _ _ hj]
    exact List.pairwise_iff_getElem.1 hsorted i j (by omega) hj hij
  have hkey : ∀ i, i < keys.length →
      loadU32 node (internalNodeKey i) = .ok (keys.getD i 0) := by
    intro i hi
    rw [List.getD_eq_getElem _ _ hi]
    exact hk i hi
  obtain ⟨r, hr, _, hrn, hlow, hhigh⟩ :=
    internalNodeFindChildLoop_spec node key keys.length (fun i => keys.getD i 0) hkey hmono
      (by unfold U32; omega) (keys.length + 1) 0 keys.length (Nat.zero_le _) (le_refl _)
      (by omega) (fun i h => absurd h (Nat.not_lt_zero i)) (fun i h1 h2 => absurd h2 (by omega))
  refine ⟨r, ?_, hrn, ?_, ?_⟩
  · unfold internalNodeFindChild
    rw [hcount]
    exact hr
  · intro i h hir
    have := hlow i hir
    rwa [List.getD_eq_getElem _ _ h] at this
  · intro i h hir
    have := hhigh i hir h
    rwa [List.getD_eq_getElem _ _ h] at this

/-! ## Scanning a leaf -/

theorem tableStart_of_sorted (fresh : Nat → Page) (table : Table) (node : Page)
    (keys : List Nat)
    (hpages : table.pager.pages.length = TABLE_MAX_PAGES)
    (hslot : table.pager.pages[table.root_page_num]? = some (some node))
    (htype : getNodeType node = .ok NODE_LEAF)
    (hleaf : LeafKeys node keys) (hsorted : keys.Pairwise (fun a b => a < b)) :
    tableStart fresh table =
      .ok ({ page_num := table.root_page_num, cell_num := 0,
             end_of_table := some (decide (keys.length = 0)) }, table) := by
  have hnum : table.root_page_num ≤ TABLE_MAX_PAGES := by
    have := slot_lt_of_loaded hslot
    omega
  have h0 : keys.countP (fun x => decide (x < 0)) = 0 := by simp
  unfold tableStart
  rw [tableFind_leaf fresh table node 0 hpages hslot htype,
    (findLeafNode_of_sorted fresh table _ node keys 0 hpages hslot hleaf hsorted).1, h0]
  simp only [bind, Except.bind]
  rw [getPage_loaded fresh _ _ _ hslot hnum]
  simp only []
  rw [readU32_loaded _ _ _ _ hslot, hleaf.2.1]
  rfl

theorem incrementCursor_loaded (fresh : Nat → Page) (table : Table) (cursor : Cursor)
    (node : Page) (n : Nat)
    (hpages : table.pager.pages.length = TABLE_MAX_PAGES)
    (hslot : table.pager.pages[cursor.page_num]? = some (some node))
    (hcount : loadU32 node leafNodeNumCells = .ok n) :
    incrementCursor fresh table cursor =
      .ok ({ cursor with
               cell_num := (cursor.cell_num + 1) % U32
               end_of_table :=
                 if (cursor.cell_num + 1) % U32 ≥ n then some true else cursor.end_of_table },
           table) := by
  have hnum : cursor.page_num ≤ TABLE_MAX_PAGES := by
    have := slot_lt_of_loaded hslot
    omega
  unfold incrementCursor
  dsimp only
  rw [getPage_loaded fresh _ _ _ hslot hnum]
  simp only [bind, Except.bind]
  rw [readU32_loaded _ _ _ _ hslot, hcount]
  rfl

/-- The scan loop from cell `k` of a leaf with `n` cells on: the cursor stands
at the cells `k`, `k + 1`, ..., `n - 1`. -/
theorem scanLoop_of_leaf (fresh : Nat → Page) (table : Table) (node : Page) (n : Nat)
    (hpages : table.pager.pages.length = TABLE_MAX_PAGES)
    (hslot : table.pager.pages[table.root_page_num]? = some (some node))
    (hcount : loadU32 node leafNodeNumCells = .ok n) (hn : n < U32) :
    ∀ fuel k visited, k ≤ n → n - k < fuel →
      scanLoop fresh fuel table
          { page_num := table.root_page_num, cell_num := k,
            end_of_table := some (decide (n ≤ k)) } visited =
        .ok (visited ++ List.range' k (n - k), table) := by
  intro fuel
  induction fuel with
  | zero => intro k visited _ h; omega
  | succ fuel ih =>
    intro k visited hk hfuel
    unfold scanLoop
    by_cases hend : n ≤ k
    · have hkn : n - k = 0 := by omega
      simp only [hend, decide_True, hkn, List.range'_zero, List.append_nil]
    · have hd : decide (n ≤ k) = false := by simp [hend]
      simp only [hd]
      rw [incrementCursor_loaded fresh table _ node n hpages hslot hcount]
      simp only [bind, Except.bind]
      have hmod : (k + 1) % U32 = k + 1 := Nat.mod_eq_of_lt (by omega)
      rw [hmod]
      have hcur : (if k + 1 ≥ n then some true else some false) = some (decide (n ≤ k + 1)) := by
        by_cases h : n ≤ k + 1 <;> simp [h]
      rw [hcur, ih (k + 1) (visited ++ [k]) (by omega) (by omega)]
      have hr : n - k = (n - (k + 1)) + 1 := by omega
      rw [hr, List.range'_succ, List.append_assoc]
      rfl

/-! ## The byte ranges of the fields of a node -/

theorem NodeField.ranges_disjoint (f g : NodeField) (hne : f ≠ g)
    (hkind : (f.ofLeaf = true ∧ g.ofLeaf = true) ∨ (f.ofInternal = true ∧ g.ofInternal = true)) :
    f.offset + f.size ≤ g.offset ∨ g.offset + g.size ≤ f.offset := by
  have c : 4 * NODE_TYPE_OFFSET = 0 ∧ 4 * IS_ROOT_OFFSET = 4 ∧ nodeParent = 8 ∧
      leafNodeNumCells = 24 ∧ leafNodeNextLeaf = 40 ∧ internalNodeNumKeys = 24 ∧
      internalNodeRightChild = 48 ∧ NODE_TYPE_SIZE = 1 ∧ IS_ROOT_SIZE = 1 ∧
      4 * EMAIL_OFFSET + EMAIL_SIZE = 404 := by decide
  obtain ⟨c1, c2, c3, c4, c5, c6, c7, c8, c9, c10⟩ := c
  cases f <;> cases g <;> simp [NodeField.ofLeaf, NodeField.ofInternal] at hne hkind <;>
    (simp only [NodeField.offset, NodeField.size, c1, c2, c3, c4, c5, c6, c7, c8, c9, c10,
      leafNodeKey_eq, leafNodeValue_eq, internalNodeCell_eq, internalNodeKey_eq]
     omega)

/-- A write of a field changes no byte outside the range of the field. -/
theorem NodeField.write_frame (f : NodeField) (node node' : Page) (v : Nat) (row : Row)
    (hrow : row.WF) (hw : f.write node v row = .ok node') (o n : Nat)
    (hout : o + n ≤ f.offset ∨ f.offset + f.size ≤ o) :
    loadBytes node' o n = loadBytes node o n := by
  have c : NODE_TYPE_SIZE = 1 ∧ IS_ROOT_SIZE = 1 ∧ 4 * ID_OFFSET = 0 ∧ 4 * USERNAME_OFFSET = 16 ∧
      4 * EMAIL_OFFSET = 148 ∧ USERNAME_SIZE = 33 ∧ EMAIL_SIZE = 256 := by decide
  obtain ⟨c1, c2, c3, c4, c5, c6, c7⟩ := c
  have hscalar : ∀ off, storeU32 node off v = .ok node' → (o + n ≤ off ∨ off + 4 ≤ o) →
      loadBytes node' o n = loadBytes node o n := by
    intro off hst hd
    unfold storeU32 at hst
    exact loadBytes_storeBytes_disjoint hst o n (by rw [encodeU32_length]; exact hd)
  cases f with
  | nodeType =>
    unfold NodeField.write setNodeType storeU8 at hw
    exact loadBytes_storeBytes_disjoint hw o n
      (by simp only [NodeField.offset, NodeField.size, c1] at hout; simpa using hout)
  | isRoot =>
    unfold NodeField.write setNodeRoot storeU8 at hw
    exact loadBytes_storeBytes_disjoint hw o n
      (by simp only [NodeField.offset, NodeField.size, c2] at hout; simpa using hout)
  | leafValue i =>
    unfold NodeField.write at hw
    simp only [NodeField.offset, NodeField.size, c5, c7] at hout
    obtain ⟨b1, b2, h1, h2, h3⟩ := (serializeRow_ok_iff _ _ _ _).1 hw
    rw [loadBytes_storeBytes_disjoint h3 o n (by rw [hrow.2.2, c5, c7]; omega),
      loadBytes_storeBytes_disjoint h2 o n (by rw [hrow.2.1, c4, c6]; omega),
      loadBytes_storeBytes_disjoint h1 o n (by rw [encodeU32_length, c3]; omega)]
  | parent => exact hscalar _ hw hout
  | leafNumCells => exact hscalar _ hw hout
  | leafNextLeaf => exact hscalar _ hw hout
  | leafKey i => exact hscalar _ hw hout
  | internalNumKeys => exact hscalar _ hw hout
  | internalRightChild => exact hscalar _ hw hout
  | internalChild i => exact hscalar _ hw hout
  | internalKey i => exact hscalar _ hw hout

/-- The read of a field depends on the bytes of its range only. -/
theorem NodeField.read_congr (g : NodeField) (node node' : Page)
    (h : ∀ o n, g.offset ≤ o → o + n ≤ g.offset + g.size →
      loadBytes node' o n = loadBytes node o n) :
    g.read node' = g.read node := by
  have c : NODE_TYPE_SIZE = 1 ∧ IS_ROOT_SIZE = 1 ∧ 4 * ID_OFFSET = 0 ∧ 4 * USERNAME_OFFSET = 16 ∧
      4 * EMAIL_OFFSET = 148 ∧ USERNAME_SIZE = 33 ∧ EMAIL_SIZE = 256 ∧ ID_SIZE = 4 := by decide
  obtain ⟨c1, c2, c3, c4, c5, c6, c7, c8⟩ := c
  have hscalar : ∀ off, (∀ o n, off ≤ o → o + n ≤ off + 4 →
      loadBytes node' o n = loadBytes node o n) → loadU32 node' off = loadU32 node off := by
    intro off hh
    unfold loadU32
    rw [hh off 4 (le_refl _) (le_refl _)]
  cases g with
  | nodeType =>
    simp only [NodeField.offset, NodeField.size, c1] at h
    simp only [NodeField.read, getNodeType, loadU8]
    rw [h _ 1 (le_refl _) (le_refl _)]
  | isRoot =>
    simp only [NodeField.offset, NodeField.size, c2] at h
    simp only [NodeField.read, isRootNode, loadU8]
    rw [h _ 1 (le_refl _) (le_refl _)]
  | leafValue i =>
    simp only [NodeField.offset, NodeField.size, c5, c7] at h
    simp only [NodeField.read, deserializeRow]
    rw [h _ ID_SIZE (by omega) (by rw [c3, c8]; omega),
      h _ USERNAME_SIZE (by omega) (by rw [c4, c6]; omega),
      h _ EMAIL_SIZE (by omega) (by rw [c5, c7])]
  | parent => simp only [NodeField.read]; rw [hscalar _ h]
  | leafNumCells => simp only [NodeField.read]; rw [hscalar _ h]
  | leafNextLeaf => simp only [NodeField.read]; rw [hscalar _ h]
  | leafKey i => simp only [NodeField.read]; rw [hscalar _ h]
  | internalNumKeys => simp only [NodeField.read]; rw [hscalar _ h]
  | internalRightChild => simp only [NodeField.read]; rw [hscalar _ h]
  | internalChild i => simp only [NodeField.read]; rw [hscalar _ h]
  | internalKey i => simp only [NodeField.read]; rw [hscalar _ h]

/-! ## The cell indices `findLeafNode` and `insertLeafNode` touch -/

/-- The loop of `findLeafNode` returns an index between its bounds when the
keys of the cells below `n` can be loaded, whatever their order. -/
theorem findLeafNodeLoop_isOk (node : Page) (key n : Nat)
    (hcells : ∀ i, i < n → leafNodeKey i + 4 ≤ node.length) (hn : n + n < U32) :
    ∀ fuel lo hi, lo ≤ hi → hi ≤ n → hi - lo < fuel →
      ∃ index, findLeafNodeLoop node key fuel lo hi = .ok index ∧ lo ≤ index ∧ index ≤ hi := by
  intro fuel
  induction fuel with
  | zero => intro lo hi _ _ h; omega
  | succ fuel ih =>
    intro lo hi hle hhi hfuel
    unfold findLeafNodeLoop
    by_cases heq : hi = lo
    · subst heq
      rw [if_neg (by simp)]
      exact ⟨hi, rfl, le_refl _, le_refl _⟩
    · rw [if_pos heq]
      dsimp only
      have hmod : (lo + hi) % U32 = lo + hi := Nat.mod_eq_of_lt (by omega)
      rw [hmod]
      have hmid1 : lo ≤ (lo + hi) / 2 := by omega
      have hmid2 : (lo + hi) / 2 < hi := by omega
      obtain ⟨v, hv⟩ := loadU32_isOk node (leafNodeKey ((lo + hi) / 2)) (hcells _ (by omega))
      rw [hv]
      simp only [bind, Except.bind]
      by_cases hfound : key = v
      · rw [if_pos hfound]
        exact ⟨(lo + hi) / 2, rfl, hmid1, le_of_lt hmid2⟩
      · rw [if_neg hfound]
        by_cases hlt : key < v
        · rw [if_pos hlt]
          obtain ⟨index, h1, h2, h3⟩ := ih lo ((lo + hi) / 2) hmid1 (by omega) (by omega)
          exact ⟨index, h1, h2, by omega⟩
        · rw [if_neg hlt]
          have hmod2 : ((lo + hi) / 2 + 1) % U32 = (lo + hi) / 2 + 1 :=
            Nat.mod_eq_of_lt (by omega)
          rw [hmod2]
          obtain ⟨index, h1, h2, h3⟩ := ih ((lo + hi) / 2 + 1) hi (by omega) hhi (by omega)
          exact ⟨index, h1, by omega, h3⟩

/-- The loop of `findLeafNode` depends on the keys of the cells below `n`
only. -/
theorem findLeafNodeLoop_congr (node other : Page) (key n : Nat)
    (hsame : ∀ i, i < n → loadU32 other (leafNodeKey i) = loadU32 node (leafNodeKey i))
    (hn : n + n < U32) :
    ∀ fuel lo hi, lo ≤ hi → hi ≤ n →
      findLeafNodeLoop other key fuel lo hi = findLeafNodeLoop node key fuel lo hi := by
  intro fuel
  induction fuel with
  | zero => intro lo hi _ _; rfl
  | succ fuel ih =>
    intro lo hi hle hhi
    unfold findLeafNodeLoop
    by_cases heq : hi = lo
    · rw [if_neg (by simpa using heq), if_neg (by simpa using heq)]
    · rw [if_pos heq, if_pos heq]
      dsimp only
      have hmod : (lo + hi) % U32 = lo + hi := Nat.mod_eq_of_lt (by omega)
      rw [hmod]
      have hmid1 : lo ≤ (lo + hi) / 2 := by omega
      have hmid2 : (lo + hi) / 2 < hi := by omega
      have hmod2 : ((lo + hi) / 2 + 1) % U32 = (lo + hi) / 2 + 1 :=
        Nat.mod_eq_of_lt (by omega)
      rw [hsame _ (by omega), hmod2, ih lo ((lo + hi) / 2) hmid1 (by omega),
        ih ((lo + hi) / 2 + 1) hi (by omega) hhi]

/-- The shift loop of `insertLeafNode` on a buffer with room for the copy into
cell `n`: it changes no byte before cell `c + 1` and none behind the copy in
cell `n`. -/
theorem insertLeafNodeShift_frame (c : Nat) :
    ∀ n (node : Page), leafNodeCell n + LEAF_NODE_CELL_SIZE ≤ node.length →
      ∃ node', insertLeafNodeShift c n node = .ok node' ∧ node'.length = node.length ∧
        (∀ o m, o + m ≤ leafNodeCell (c + 1) → loadBytes node' o m = loadBytes node o m) ∧
        (∀ o m, leafNodeCell n + LEAF_NODE_CELL_SIZE ≤ o →
          loadBytes node' o m = loadBytes node o m) := by
  have hc : LEAF_NODE_CELL_SIZE = 297 := by decide
  intro n
  induction n with
  | zero =>
    intro node _
    exact ⟨node, rfl, rfl, fun _ _ _ => rfl, fun _ _ _ => rfl⟩
  | succ i ih =>
    intro node hroom
    rw [hc, leafNodeCell_eq] at hroom
    unfold insertLeafNodeShift
    by_cases hgt : i + 1 > c
    · rw [if_pos hgt]
      obtain ⟨bs, hbs⟩ := loadBytes_isOk node (leafNodeCell i) LEAF_NODE_CELL_SIZE
        (by rw [hc, leafNodeCell_eq]; omega)
      have hbl := loadBytes_length hbs
      obtain ⟨node1, h1⟩ := storeBytes_isOk node (leafNodeCell (i + 1)) bs
        (by rw [hbl, hc, leafNodeCell_eq]; omega)
      have hlen1 := storeBytes_length h1
      obtain ⟨node', hsh, hl', ha, hb⟩ := ih node1 (by rw [hlen1, hc, leafNodeCell_eq]; omega)
      refine ⟨node', ?_, by rw [hl', hlen1], ?_, ?_⟩
      · unfold memcpyWithin
        simp only [hbs, bind, Except.bind, h1, hsh]
      · intro o m hom
        rw [ha o m hom]
        apply loadBytes_storeBytes_disjoint h1
        left
        rw [leafNodeCell_eq] at hom ⊢
        omega
      · intro o m hom
        rw [hb o m (by rw [leafNodeCell_eq, hc] at hom ⊢; omega)]
        apply loadBytes_storeBytes_disjoint h1
        right
        rw [hbl]
        exact hom
    · rw [if_neg hgt]
      exact ⟨node, rfl, rfl, fun _ _ _ => rfl, fun _ _ _ => rfl⟩

/-- The stores of `insertLeafNode` at cell `c` of a leaf with `n` cells, on a
buffer in which cell `n` lies: only `num_cells` and bytes of the cells `c` to
`n` change. -/
theorem insertLeafNode_frame (fresh : Nat → Page) (table : Table) (cursor : Cursor)
    (node : Page) (n key : Nat) (value : Row)
    (hpages : table.pager.pages.length = TABLE_MAX_PAGES)
    (hslot : table.pager.pages[cursor.page_num]? = some (some node))
    (hcount : loadU32 node leafNodeNumCells = .ok n)
    (hmax : n < LEAF_NODE_MAX_CELLS) (hc : cursor.cell_num ≤ n) (hvalue : value.WF)
    (hroom : leafNodeValue n + (4 * EMAIL_OFFSET + EMAIL_SIZE) ≤ node.length) :
    ∃ node', insertLeafNode fresh table cursor key value =
        .ok { table with pager := table.pager.setBuffer cursor.page_num node' } ∧
      node'.length = node.length ∧
      loadU32 node' leafNodeNumCells = .ok (n + 1) ∧
      (∀ o m, o + m ≤ leafNodeCell cursor.cell_num →
        o + m ≤ leafNodeNumCells ∨ leafNodeNumCells + 4 ≤ o →
        loadBytes node' o m = loadBytes node o m) ∧
      (∀ o m, leafNodeCell (n + 1) ≤ o → loadBytes node' o m = loadBytes node o m) := by
  have hk : LEAF_NODE_CELL_SIZE = 297 ∧ 4 * ID_OFFSET = 0 ∧ 4 * USERNAME_OFFSET = 16 ∧
      4 * EMAIL_OFFSET = 148 ∧ USERNAME_SIZE = 33 ∧ EMAIL_SIZE = 256 ∧
      LEAF_NODE_MAX_CELLS = 4104 ∧ U32 = 4294967296 := by decide
  obtain ⟨k0, k1, k2, k3, k4, k5, k6, k7⟩ := hk
  have hnum : cursor.page_num ≤ TABLE_MAX_PAGES := by
    have := slot_lt_of_loaded hslot
    omega
  rw [leafNodeValue_eq, k3, k5] at hroom
  -- the shift
  obtain ⟨node0, hsh, hl0, ha0, hb0⟩ : ∃ node0,
      (if cursor.cell_num < n then insertLeafNodeShift cursor.cell_num n node else pure node)
        = .ok node0 ∧ node0.length = node.length ∧
      (∀ o m, o + m ≤ leafNodeCell (cursor.cell_num + 1) →
        loadBytes node0 o m = loadBytes node o m) ∧
      (∀ o m, leafNodeCell n + LEAF_NODE_CELL_SIZE ≤ o →
        loadBytes node0 o m = loadBytes node o m) := by
    by_cases hlt : cursor.cell_num < n
    · rw [if_pos hlt]
      exact insertLeafNodeShift_frame cursor.cell_num n node
        (by rw [leafNodeCell_eq, k0]; omega)
    · rw [if_neg hlt]
      exact ⟨node, rfl, rfl, fun _ _ _ => rfl, fun _ _ _ => rfl⟩
  have hcount0 : loadU32 node0 leafNodeNumCells = .ok n := by
    rw [← hcount]
    unfold loadU32
    rw [ha0 _ _ (by rw [leafNodeNumCells_eq, leafNodeCell_eq]; omega)]
  have hmod : (n + 1) % U32 = n + 1 := Nat.mod_eq_of_lt (by omega)
  -- the stores
  obtain ⟨node1, s1⟩ := storeU32_isOk node0 leafNodeNumCells (n + 1)
    (by rw [leafNodeNumCells_eq, hl0]; omega)
  have hl1 : node1.length = node.length := by rw [storeU32_length s1, hl0]
  obtain ⟨node2, s2⟩ := storeU32_isOk node1 (leafNodeKey cursor.cell_num) key
    (by rw [leafNodeKey_eq, hl1]; omega)
  have hl2 : node2.length = node.length := by rw [storeU32_length s2, hl1]
  obtain ⟨node3, s3⟩ := serializeRow_isOk value hvalue node2 (leafNodeValue cursor.cell_num)
    (by rw [leafNodeValue_eq, k3, k5, hl2]; omega)
  have hl3 : node3.length = node.length := by rw [serializeRow_length s3, hl2]
  obtain ⟨b1, b2, t1, t2, t3⟩ := (serializeRow_ok_iff _ _ _ _).1 s3
  have hframe : ∀ o m, (o + m ≤ leafNodeCell cursor.cell_num ∨
      leafNodeCell cursor.cell_num + 420 ≤ o) →
      (o + m ≤ leafNodeNumCells ∨ leafNodeNumCells + 4 ≤ o) →
      loadBytes node3 o m = loadBytes node0 o m := by
    intro o m h1 h2
    unfold storeU32 at s1 s2
    rw [leafNodeCell_eq] at h1
    rw [loadBytes_storeBytes_disjoint t3 o m
        (by rw [hvalue.2.2, leafNodeValue_eq, k3, k5]; omega),
      loadBytes_storeBytes_disjoint t2 o m
        (by rw [hvalue.2.1, leafNodeValue_eq, k2, k4]; omega),
      loadBytes_storeBytes_disjoint t1 o m
        (by rw [encodeU32_length, leafNodeValue_eq, k1]; omega),
      loadBytes_storeBytes_disjoint s2 o m
        (by rw [encodeU32_length, leafNodeKey_eq]; omega),
      loadBytes_storeBytes_disjoint s1 o m (by rw [encodeU32_length]; exact h2)]
  refine ⟨node3, ?_, hl3, ?_, ?_, ?_⟩
  · unfold insertLeafNode
    rw [getPage_loaded fresh _ _ _ hslot hnum]
    simp only [bind, Except.bind]
    rw [buffer_loaded _ _ _ hslot]
    simp only [hcount, if_neg (not_le.2 hmax)]
    by_cases hlt : cursor.cell_num < n
    · rw [if_pos hlt] at hsh
      simp only [if_pos hlt, hsh, hcount0, hmod, s1, s2, s3]
      rfl
    · rw [if_neg hlt] at hsh
      have hnode : node = node0 := Except.ok.inj hsh
      subst hnode
      simp only [if_neg hlt, pure, Except.pure, hcount, hmod, s1, s2, s3]
  · have e1 : loadU32 node3 leafNodeNumCells = loadU32 node1 leafNodeNumCells := by
      unfold storeU32 at s2
      unfold loadU32
      rw [loadBytes_storeBytes_disjoint t3 _ 4
          (by rw [hvalue.2.2, leafNodeValue_eq, leafNodeNumCells_eq, k3, k5]; omega),
        loadBytes_storeBytes_disjoint t2 _ 4
          (by rw [hvalue.2.1, leafNodeValue_eq, leafNodeNumCells_eq, k2, k4]; omega),
        loadBytes_storeBytes_disjoint t1 _ 4
          (by rw [encodeU32_length, leafNodeValue_eq, leafNodeNumCells_eq, k1]; omega),
        loadBytes_storeBytes_disjoint s2 _ 4
          (by rw [encodeU32_length, leafNodeKey_eq, leafNodeNumCells_eq]; omega)]
    rw [e1]
    exact loadU32_storeU32_same s1 (by omega)
  · intro o m h1 h2
    rw [hframe o m (Or.inl h1) h2]
    exact ha0 o m (by rw [leafNodeCell_eq] at h1 ⊢; omega)
  · intro o m h1
    rw [leafNodeCell_eq] at h1
    rw [hframe o m (Or.inr (by rw [leafNodeCell_eq]; omega))
      (Or.inr (by rw [leafNodeNumCells_eq]; omega))]
    exact hb0 o m (by rw [leafNodeCell_eq, k0]; omega)

/-! ## Inserting into a leaf with four cells -/

/-- `insertLeafNode` on a page that holds four cells leaves the page: the
shift loop copies into cell 4, or the key is stored into cell 4. -/
theorem insertLeafNode_four_cells (fresh : Nat → Page) (table : Table) (cursor : Cursor)
    (node : Page) (key : Nat) (value : Row)
    (hpages : table.pager.pages.length = TABLE_MAX_PAGES)
    (hslot : table.pager.pages[cursor.page_num]? = some (some node))
    (hlen : node.length = PAGE_SIZE)
    (hcount : loadU32 node leafNodeNumCells = .ok 4) (hc : cursor.cell_num ≤ 4) :
    insertLeafNode fresh table cursor key value = .error Fault.undefinedBehavior := by
  have hP : PAGE_SIZE = 4096 := rfl
  have hk : LEAF_NODE_CELL_SIZE = 297 := by decide
  have hmax : ¬ 4 ≥ LEAF_NODE_MAX_CELLS := by decide
  have hmod : (4 + 1) % U32 = 5 := by decide
  have hnum : cursor.page_num ≤ TABLE_MAX_PAGES := by
    have := slot_lt_of_loaded hslot
    omega
  unfold insertLeafNode
  rw [getPage_loaded fresh _ _ _ hslot hnum]
  simp only [bind, Except.bind]
  rw [buffer_loaded _ _ _ hslot]
  simp only [hcount, if_neg hmax]
  by_cases hlt : cursor.cell_num < 4
  · have hshift : insertLeafNodeShift cursor.cell_num (3 + 1) node =
        .error Fault.undefinedBehavior := by
      have hc3 : cursor.cell_num ≤ 3 := by omega
      unfold insertLeafNodeShift
      rw [if_pos (Nat.lt_succ_of_le hc3)]
      unfold memcpyWithin
      obtain ⟨bs, hbs⟩ := loadBytes_isOk node (leafNodeCell 3) LEAF_NODE_CELL_SIZE
        (by rw [leafNodeCell_eq, hk, hlen, hP]; omega)
      have hbl := loadBytes_length hbs
      have hst : storeBytes node (leafNodeCell (3 + 1)) bs = .error Fault.undefinedBehavior := by
        unfold storeBytes
        rw [if_neg (by rw [leafNodeCell_eq, hbl, hk, hlen, hP]; omega)]
      simp only [bind, Except.bind, hbs, hst]
    simp only [if_pos hlt, hshift]
  · have hc4 : cursor.cell_num = 4 := by omega
    obtain ⟨node1, s1⟩ := storeU32_isOk node leafNodeNumCells 5
      (by rw [leafNodeNumCells_eq, hlen, hP]; omega)
    have hst : storeU32 node1 (leafNodeKey 4) key = .error Fault.undefinedBehavior := by
      unfold storeU32 storeBytes
      rw [if_neg (by rw [leafNodeKey_eq, encodeU32_length, storeU32_length s1, hlen, hP]; omega)]
    simp only [hc4, Nat.lt_irrefl, if_false, pure, Except.pure, hcount, hmod, s1, hst]

/-! ## The stores of `createNewRoot` -/

theorem loadU8_storeBytes_same {buf : Page} {off b : Nat} {buf' : Page}
    (h : storeBytes buf off [b] = .ok buf') : loadU8 buf' off = .ok b := by
  unfold loadU8
  have := loadBytes_storeBytes_same h
  rw [List.length_singleton] at this
  rw [this]
  rfl

theorem loadU8_storeU32_disjoint {buf : Page} {off v : Nat} {buf' : Page}
    (h : storeU32 buf off v = .ok buf') (o : Nat) (hd : o + 1 ≤ off ∨ off + 4 ≤ o) :
    loadU8 buf' o = loadU8 buf o := by
  unfold storeU32 at h
  exact loadU8_storeBytes_disjoint h o (by rw [encodeU32_length]; exact hd)

theorem loadBytes_whole (buf : Page) : loadBytes buf 0 buf.length = .ok buf := by
  unfold loadBytes
  rw [if_pos (by omega)]
  simp

theorem storeBytes_whole (buf bs : Page) (h : bs.length = buf.length) :
    storeBytes buf 0 bs = .ok bs := by
  unfold storeBytes
  rw [if_pos (by omega)]
  simp [h]

/-- What `createNewRoot` stores to the root page, and what the accessors then
read from it. -/
theorem createNewRoot_root_stores (page : Page) (hlen : page.length = PAGE_SIZE) (L k R : Nat)
    (hL : L < U32) (hk : k < U32) (hR : R < U32) :
    ∃ n3 n4 n5 n6 n7 n8, initializeInternalNode page = .ok n3 ∧ setNodeRoot n3 true = .ok n4 ∧
      storeU32 n4 internalNodeNumKeys 1 = .ok n5 ∧
      internalNodeChild n5 0 = .ok (internalNodeCell 0) ∧
      storeU32 n5 (internalNodeCell 0) L = .ok n6 ∧
      storeU32 n6 (internalNodeKey 0) k = .ok n7 ∧
      storeU32 n7 internalNodeRightChild R = .ok n8 ∧
      n8.length = PAGE_SIZE ∧ getNodeType n8 = .ok NODE_INTERNAL ∧ isRootNode n8 = .ok true ∧
      loadU32 n8 internalNodeNumKeys = .ok 1 ∧ loadU32 n8 (internalNodeCell 0) = .ok L ∧
      loadU32 n8 (internalNodeKey 0) = .ok k ∧ loadU32 n8 internalNodeRightChild = .ok R := by
  have hP : PAGE_SIZE = 4096 := rfl
  have hU : U32 = 4294967296 := rfl
  have hc : 4 * NODE_TYPE_OFFSET = 0 ∧ 4 * IS_ROOT_OFFSET = 4 ∧ NODE_INTERNAL % 256 = 0 ∧
      NODE_INTERNAL = 0 ∧ internalNodeNumKeys = 24 ∧ internalNodeRightChild = 48 ∧
      internalNodeCell 0 = 56 ∧ internalNodeKey 0 = 72 := by decide
  obtain ⟨k1, k2, k3, k4, k5, k6, k7, k8⟩ := hc
  rw [hP] at hlen
  obtain ⟨n1, s1⟩ := storeBytes_isOk page 0 [0] (by rw [hlen]; simp)
  have l1 : n1.length = 4096 := by rw [storeBytes_length s1, hlen]
  obtain ⟨n2, s2⟩ := storeBytes_isOk n1 4 [0] (by rw [l1]; simp)
  have l2 : n2.length = 4096 := by rw [storeBytes_length s2, l1]
  obtain ⟨n3, s3⟩ := storeU32_isOk n2 24 0 (by rw [l2]; omega)
  have l3 : n3.length = 4096 := by rw [storeU32_length s3, l2]
  obtain ⟨n4, s4⟩ := storeBytes_isOk n3 4 [1] (by rw [l3]; simp)
  have l4 : n4.length = 4096 := by rw [storeBytes_length s4, l3]
  obtain ⟨n5, s5⟩ := storeU32_isOk n4 24 1 (by rw [l4]; omega)
  have l5 : n5.length = 4096 := by rw [storeU32_length s5, l4]
  obtain ⟨n6, s6⟩ := storeU32_isOk n5 56 L (by rw [l5]; omega)
  have l6 : n6.length = 4096 := by rw [storeU32_length s6, l5]
  obtain ⟨n7, s7⟩ := storeU32_isOk n6 72 k (by rw [l6]; omega)
  have l7 : n7.length = 4096 := by rw [storeU32_length s7, l6]
  obtain ⟨n8, s8⟩ := storeU32_isOk n7 48 R (by rw [l7]; omega)
  have l8 : n8.length = 4096 := by rw [storeU32_length s8, l7]
  have hinit : initializeInternalNode page = .ok n3 := by
    unfold initializeInternalNode setNodeType setNodeRoot storeU8
    rw [k1, k2, k3, k5]
    simp only [bind, Except.bind, s1, s2, s3, Bool.false_eq_true, if_false, Nat.zero_mod]
  have hroot : setNodeRoot n3 true = .ok n4 := by
    unfold setNodeRoot storeU8
    rw [k2]
    simp only [if_true, Nat.one_mod, s4]
  have hn5 : loadU32 n5 24 = .ok 1 := loadU32_storeU32_same s5 (by rw [hU]; omega)
  have hchild : internalNodeChild n5 0 = .ok (internalNodeCell 0) := by
    unfold internalNodeChild
    rw [k5, hn5]
    simp only [bind, Except.bind]
    rw [if_neg (by omega), if_neg (by omega)]
    rfl
  refine ⟨n3, n4, n5, n6, n7, n8, hinit, hroot, ?_, hchild, ?_, ?_, ?_, by rw [l8, hP],
    ?_, ?_, ?_, ?_, ?_, ?_⟩
  · rw [k5]; exact s5
  · rw [k7]; exact s6
  · rw [k8]; exact s7
  · rw [k6]; exact s8
  · unfold getNodeType
    rw [k1, k4, loadU8_storeU32_disjoint s8 _ (by omega), loadU8_storeU32_disjoint s7 _ (by omega),
      loadU8_storeU32_disjoint s6 _ (by omega), loadU8_storeU32_disjoint s5 _ (by omega),
      loadU8_storeBytes_disjoint s4 _ (by simp), loadU8_storeU32_disjoint s3 _ (by omega),
      loadU8_storeBytes_disjoint s2 _ (by simp)]
    exact loadU8_storeBytes_same s1
  · unfold isRootNode
    rw [k2, loadU8_storeU32_disjoint s8 _ (by omega), loadU8_storeU32_disjoint s7 _ (by omega),
      loadU8_storeU32_disjoint s6 _ (by omega), loadU8_storeU32_disjoint s5 _ (by omega),
      loadU8_storeBytes_same s4]
    rfl
  · rw [k5, loadU32_storeU32_disjoint s8 _ (by omega), loadU32_storeU32_disjoint s7 _ (by omega),
      loadU32_storeU32_disjoint s6 _ (by omega)]
    exact hn5
  · rw [k7, loadU32_storeU32_disjoint s8 _ (by omega), loadU32_storeU32_disjoint s7 _ (by omega)]
    exact loadU32_storeU32_same s6 hL
  · rw [k8, loadU32_storeU32_disjoint s8 _ (by omega)]
    exact loadU32_storeU32_same s7 hk
  · rw [k6]
    exact loadU32_storeU32_same s8 hR

/-- What `createNewRoot` stores to the copy of a leaf that is not empty, and
what the accessors then read from it. -/
theorem createNewRoot_left_stores (root : Page) (keys : List Nat) (hleaf : LeafKeys root keys)
    (htype : getNodeType root = .ok NODE_LEAF) (hne : keys ≠ []) :
    ∃ l1 l2, setNodeRoot root false = .ok l1 ∧ getNodeMaxKey l1 = .ok (keys.getLast hne) ∧
      storeU32 l1 nodeParent 0 = .ok l2 ∧ l2.length = PAGE_SIZE ∧ LeafKeys l2 keys ∧
      getNodeType l2 = .ok NODE_LEAF ∧ isRootNode l2 = .ok false ∧
      loadU32 l2 nodeParent = .ok 0 ∧ getNodeMaxKey l2 = .ok (keys.getLast hne) ∧
      (∀ o m, nodeParent + 4 ≤ o → loadBytes l2 o m = loadBytes root o m) := by
  have hn4 := hleaf.length_le
  obtain ⟨hlen, hcount, hkeys⟩ := hleaf
  have hP : PAGE_SIZE = 4096 := rfl
  have hU : U32 = 4294967296 := rfl
  have hc : 4 * NODE_TYPE_OFFSET = 0 ∧ 4 * IS_ROOT_OFFSET = 4 ∧ nodeParent = 8 ∧
      leafNodeNumCells = 24 ∧ NODE_LEAF ≠ NODE_INTERNAL := by decide
  obtain ⟨k1, k2, k3, k4, k5⟩ := hc
  rw [hP] at hlen
  have hpos : 0 < keys.length := List.length_pos.2 hne
  obtain ⟨l1, s1⟩ := storeBytes_isOk root 4 [0] (by rw [hlen]; simp)
  have len1 : l1.length = 4096 := by rw [storeBytes_length s1, hlen]
  obtain ⟨l2, s2⟩ := storeU32_isOk l1 8 0 (by rw [len1]; omega)
  have len2 : l2.length = 4096 := by rw [storeU32_length s2, len1]
  have hroot : setNodeRoot root false = .ok l1 := by
    unfold setNodeRoot storeU8
    rw [k2]
    simp only [Bool.false_eq_true, if_false, Nat.zero_mod, s1]
  have hframe : ∀ o m, 8 + 4 ≤ o → loadBytes l2 o m = loadBytes root o m := by
    intro o m h
    unfold storeU32 at s2
    rw [loadBytes_storeBytes_disjoint s2 o m (by rw [encodeU32_length]; omega),
      loadBytes_storeBytes_disjoint s1 o m (by simp; omega)]
  have hframe1 : ∀ o m, 8 + 4 ≤ o → loadBytes l1 o m = loadBytes root o m := by
    intro o m h
    rw [loadBytes_storeBytes_disjoint s1 o m (by simp; omega)]
  have htype1 : getNodeType l1 = .ok NODE_LEAF := by
    rw [← htype]
    unfold getNodeType
    rw [k1]
    exact loadU8_storeBytes_disjoint s1 _ (by simp)
  have htype2 : getNodeType l2 = .ok NODE_LEAF := by
    rw [← htype1]
    unfold getNodeType
    rw [k1]
    exact loadU8_storeU32_disjoint s2 _ (by omega)
  have hmaxOf : ∀ l : Page, getNodeType l = .ok NODE_LEAF →
      (∀ o m, 8 + 4 ≤ o → loadBytes l o m = loadBytes root o m) →
      getNodeMaxKey l = .ok (keys.getLast hne) := by
    intro l ht hf
    have hidx : (keys.length + U32 - 1) % U32 = keys.length - 1 := by
      rw [hU]
      omega
    have hcnt : loadU32 l leafNodeNumCells = .ok keys.length := by
      rw [← hcount]
      unfold loadU32
      rw [hf _ _ (by rw [k4]; omega)]
    have hkey : loadU32 l (leafNodeKey (keys.length - 1)) = .ok (keys.getLast hne) := by
      rw [List.getLast_eq_getElem, ← hkeys (keys.length - 1) (by omega)]
      unfold loadU32
      rw [hf _ _ (by rw [leafNodeKey_eq]; omega)]
    unfold getNodeMaxKey
    simp only [ht, bind, Except.bind, if_neg k5, if_true, hcnt, hidx, hkey]
  refine ⟨l1, l2, hroot, hmaxOf l1 htype1 hframe1, by rw [k3]; exact s2, by rw [len2, hP], ?_,
    htype2, ?_, ?_, hmaxOf l2 htype2 hframe, by rw [k3]; exact hframe⟩
  · refine ⟨by rw [len2, hP], ?_, ?_⟩
    · rw [← hcount]
      unfold loadU32
      rw [hframe _ _ (by rw [k4]; omega)]
    · intro i hi
      rw [← hkeys i hi]
      unfold loadU32
      rw [hframe _ _ (by rw [leafNodeKey_eq]; omega)]
  · unfold isRootNode
    rw [k2, loadU8_storeU32_disjoint s2 _ (by omega), loadU8_storeBytes_same s1]
    rfl
  · rw [k3]
    exact loadU32_storeU32_same s2 (by rw [hU]; omega)

/-- The function `getPage` on an empty slot behind the pages of the file: the
slot gets a new buffer. -/
theorem getPage_fresh (fresh : Nat → Page) (pager : Pager) (pageNum : Nat)
    (hslot : pager.pages[pageNum]? = some none) (hmax : pageNum ≤ TABLE_MAX_PAGES)
    (hfile : pager.file_length = 0) (hpos : 0 < pageNum) :
    getPage fresh pager pageNum =
      .ok { pager with
            pages := pager.pages.set pageNum (some (fresh pageNum))
            num_pages :=
              if pageNum ≥ pager.num_pages then (pageNum + 1) % U32 else pager.num_pages } := by
  unfold getPage
  rw [if_neg (by omega), hslot]
  dsimp only
  rw [hfile]
  have h0 : ¬ (0 % PAGE_SIZE ≠ 0) := by decide
  have h1 : 0 / PAGE_SIZE = 0 := by decide
  rw [if_neg h0, h1, if_neg (by omega)]
  rfl

/-- An update of one of two slots that are followed through a run of
updates. -/
theorem update_first (start pager : Pager) (x y : Nat) (a b a' : Page)
    (f : Page → Except Fault Page) (hxy : x ≠ y)
    (hx : pager.pages[x]? = some (some a)) (hy : pager.pages[y]? = some (some b))
    (hrest : ∀ i, i ≠ x → i ≠ y → pager.pages[i]? = start.pages[i]?) (hf : f a = .ok a') :
    ∃ pager', pager.update x f = .ok pager' ∧ pager'.pages[x]? = some (some a') ∧
      pager'.pages[y]? = some (some b) ∧
      ∀ i, i ≠ x → i ≠ y → pager'.pages[i]? = start.pages[i]? := by
  refine ⟨_, update_loaded pager x a a' f hx hf, setBuffer_same pager x a a' hx, ?_, ?_⟩
  · rw [setBuffer_other _ _ _ _ (fun h => hxy h.symm)]
    exact hy
  · intro i h1 h2
    rw [setBuffer_other _ _ _ _ h1]
    exact hrest i h1 h2

/-- The function `createNewRoot` on a table whose root, page 0, is a leaf that
is not empty, with the right child loaded and the slot of the next unused
page free. -/
theorem createNewRoot_spec (fresh : Nat → Page) (table : Table) (R : Nat) (root right : Page)
    (keys : List Nat)
    (hpages : table.pager.pages.length = TABLE_MAX_PAGES)
    (hroot0 : table.root_page_num = 0)
    (hslot : table.pager.pages[0]? = some (some root))
    (htype : getNodeType root = .ok NODE_LEAF)
    (hleaf : LeafKeys root keys) (hne : keys ≠ []) (hkeys : ∀ k, k ∈ keys → k < U32)
    (hR : R < table.pager.num_pages)
    (hright : table.pager.pages[R]? = some (some right)) (hrlen : right.length = PAGE_SIZE)
    (hnum : table.pager.num_pages < TABLE_MAX_PAGES)
    (hfree : table.pager.pages[table.pager.num_pages]? = some none)
    (hfile : table.pager.file_length = 0)
    (hfresh : (fresh table.pager.num_pages).length = PAGE_SIZE)
    (hother : ∀ i page, i ≠ 0 → table.pager.pages[i]? = some (some page) →
      isRootNode page = .ok false) :
    ∃ table' rootPage leftPage rightPage,
      createNewRoot fresh table R = .ok table' ∧
      table.pager.num_pages ≠ 0 ∧ table.pager.num_pages ≠ R ∧
      table'.pager.pages[0]? = some (some rootPage) ∧
      table'.pager.pages[table.pager.num_pages]? = some (some leftPage) ∧
      table'.pager.pages[R]? = some (some rightPage) ∧
      getNodeType leftPage = .ok NODE_LEAF ∧ isRootNode leftPage = .ok false ∧
      LeafKeys leftPage keys ∧
      (∀ o m, leafNodeNumCells ≤ o → loadBytes leftPage o m = loadBytes root o m) ∧
      loadU32 leftPage nodeParent = .ok 0 ∧
      getNodeType rootPage = .ok NODE_INTERNAL ∧ isRootNode rootPage = .ok true ∧
      loadU32 rootPage internalNodeNumKeys = .ok 1 ∧
      internalNodeChild rootPage 0 = .ok (internalNodeCell 0) ∧
      loadU32 rootPage (internalNodeCell 0) = .ok table.pager.num_pages ∧
      loadU32 rootPage (internalNodeKey 0) = .ok (keys.getLast hne) ∧
      getNodeMaxKey leftPage = .ok (keys.getLast hne) ∧
      loadU32 rootPage internalNodeRightChild = .ok R ∧
      loadU32 rightPage nodeParent = .ok 0 ∧
      (∀ i page, i ≠ 0 → table'.pager.pages[i]? = some (some page) →
        isRootNode page = .ok false) := by
  have hP : PAGE_SIZE = 4096 := rfl
  have hU : U32 = 4294967296 := rfl
  have hT : TABLE_MAX_PAGES = 100 := rfl
  have hc : 4 * IS_ROOT_OFFSET = 4 ∧ nodeParent = 8 ∧ leafNodeNumCells = 24 ∧
      internalNodeNumKeys = 24 ∧ internalNodeRightChild = 48 ∧ internalNodeCell 0 = 56 ∧
      internalNodeKey 0 = 72 ∧ 4 * NODE_TYPE_OFFSET = 0 := by decide
  obtain ⟨k2, k3, k4, k5, k6, k7, k8, k1⟩ := hc
  generalize hLdef : table.pager.num_pages = L at *
  have hL0 : L ≠ 0 := by omega
  have hLR : L ≠ R := by omega
  have hkmax : keys.getLast hne < U32 := hkeys _ (List.getLast_mem hne)
  obtain ⟨l1, l2, hl1, hmax1, hl2, hlen2, hleaf2, htype2, hisroot2, hparent2, hmax2, hframe2⟩ :=
    createNewRoot_left_stores root keys hleaf htype hne
  obtain ⟨n3, n4, n5, n6, n7, n8, hn3, hn4, hn5, hchild, hn6, hn7, hn8, hlen8, htype8, hisroot8,
    hnum8, hcell8, hkey8, hright8⟩ :=
    createNewRoot_root_stores root hleaf.1 L (keys.getLast hne) R (by omega) hkmax (by omega)
  -- the three calls of getPage
  have g1 : getPage fresh table.pager 0 = .ok table.pager :=
    getPage_loaded fresh _ _ _ hslot (by omega)
  have g2 : getPage fresh table.pager R = .ok table.pager :=
    getPage_loaded fresh _ _ _ hright (by omega)
  have hunused : getUnusedPageNum table.pager = L := hLdef
  have g3 := getPage_fresh fresh table.pager L hfree (by omega) hfile (by omega)
  generalize hp0 : ({ table.pager with
      pages := table.pager.pages.set L (some (fresh L))
      num_pages := if L ≥ table.pager.num_pages then (L + 1) % U32
                   else table.pager.num_pages } : Pager) = p0 at g3
  have a0 : p0.pages[0]? = some (some root) := by
    rw [← hp0]
    show (table.pager.pages.set L (some (fresh L)))[0]? = _
    rw [List.getElem?_set_ne hL0]
    exact hslot
  have b0 : p0.pages[L]? = some (some (fresh L)) := by
    rw [← hp0]
    show (table.pager.pages.set L (some (fresh L)))[L]? = _
    exact List.getElem?_set_self (by omega)
  have r0 : ∀ i, i ≠ 0 → i ≠ L → p0.pages[i]? = table.pager.pages[i]? := by
    intro i _ h2
    rw [← hp0]
    show (table.pager.pages.set L (some (fresh L)))[i]? = _
    exact List.getElem?_set_ne (fun h => h2 h.symm)
  have r0' : ∀ i, i ≠ L → i ≠ 0 → p0.pages[i]? = table.pager.pages[i]? :=
    fun i h1 h2 => r0 i h2 h1
  -- the copy of the root
  have hload : loadBytes root 0 PAGE_SIZE = .ok root := by
    rw [← hleaf.1]
    exact loadBytes_whole root
  obtain ⟨p1, u1, b1, a1, r1⟩ := update_first table.pager p0 L 0 (fresh L) root root
    (fun page => storeBytes page 0 root) hL0 b0 a0 r0'
    (storeBytes_whole _ _ (by rw [hleaf.1, hfresh]))
  have m1 : p0.memcpy L 0 0 0 PAGE_SIZE = .ok p1 := by
    unfold Pager.memcpy
    rw [buffer_loaded _ _ _ a0]
    simp only [bind, Except.bind, hload]
    exact u1
  obtain ⟨p2, u2, b2, a2, r2⟩ := update_first table.pager p1 L 0 root root l1
    (fun node => setNodeRoot node false) hL0 b1 a1 r1 hl1
  have r2' : ∀ i, i ≠ 0 → i ≠ L → p2.pages[i]? = table.pager.pages[i]? :=
    fun i h1 h2 => r2 i h2 h1
  obtain ⟨p3, u3, a3, b3, r3⟩ := update_first table.pager p2 0 L root l1 n3
    initializeInternalNode hL0.symm a2 b2 r2' hn3
  obtain ⟨p4, u4, a4, b4, r4⟩ := update_first table.pager p3 0 L n3 l1 n4
    (fun node => setNodeRoot node true) hL0.symm a3 b3 r3 hn4
  obtain ⟨p5, u5, a5, b5, r5⟩ := update_first table.pager p4 0 L n4 l1 n5
    (fun page => storeU32 page internalNodeNumKeys 1) hL0.symm a4 b4 r4 hn5
  obtain ⟨p6, u6, a6, b6, r6⟩ := update_first table.pager p5 0 L n5 l1 n6
    (fun page => storeU32 page (internalNodeCell 0) L) hL0.symm a5 b5 r5 hn6
  obtain ⟨p7, u7, a7, b7, r7⟩ := update_first table.pager p6 0 L n6 l1 n7
    (fun page => storeU32 page (internalNodeKey 0) (keys.getLast hne)) hL0.symm a6 b6 r6 hn7
  obtain ⟨p8, u8, a8, b8, r8⟩ := update_first table.pager p7 0 L n7 l1 n8
    (fun page => storeU32 page internalNodeRightChild R) hL0.symm a7 b7 r7 hn8
  have r8' : ∀ i, i ≠ L → i ≠ 0 → p8.pages[i]? = table.pager.pages[i]? :=
    fun i h1 h2 => r8 i h2 h1
  obtain ⟨p9, u9, b9, a9, r9⟩ := update_first table.pager p8 L 0 l1 n8 l2
    (fun page => storeU32 page nodeParent 0) hL0 b8 a8 r8' hl2
  -- the store to the right child
  have hfinal : ∃ p10 rootPage rightPage,
      p9.writeU32 R nodeParent 0 = .ok p10 ∧
      p10.pages[0]? = some (some rootPage) ∧ p10.pages[L]? = some (some l2) ∧
      p10.pages[R]? = some (some rightPage) ∧
      (∀ o m, nodeParent + 4 ≤ o ∨ o + m ≤ nodeParent →
        loadBytes rootPage o m = loadBytes n8 o m) ∧
      loadU32 rightPage nodeParent = .ok 0 ∧
      (∀ i page, i ≠ 0 → p10.pages[i]? = some (some page) → isRootNode page = .ok false) := by
    by_cases hR0 : R = 0
    · obtain ⟨n9, hn9⟩ := storeU32_isOk n8 nodeParent 0 (by rw [hlen8, hP, k3]; omega)
      rw [hR0]
      obtain ⟨p10, u10, a10, b10, r10⟩ := update_first table.pager p9 0 L n8 l2 n9
        (fun page => storeU32 page nodeParent 0) hL0.symm a9 b9 (fun i h1 h2 => r9 i h2 h1) hn9
      refine ⟨p10, n9, n9, u10, a10, b10, a10, ?_, loadU32_storeU32_same hn9 (by rw [hU]; omega),
        ?_⟩
      · intro o m h
        unfold storeU32 at hn9
        exact loadBytes_storeBytes_disjoint hn9 o m (by rw [encodeU32_length]; omega)
      · intro i page hi hp
        by_cases hiL : i = L
        · rw [hiL, b10] at hp
          rw [← Option.some.inj (Option.some.inj hp)]
          exact hisroot2
        · rw [r10 i hi hiL] at hp
          exact hother i page hi hp
    · have hR9 : p9.pages[R]? = some (some right) := by
        rw [r9 R hLR.symm hR0]
        exact hright
      obtain ⟨right', hr'⟩ := storeU32_isOk right nodeParent 0 (by rw [hrlen, hP, k3]; omega)
      have u10 := update_loaded p9 R right right' (fun page => storeU32 page nodeParent 0) hR9 hr'
      refine ⟨p9.setBuffer R right', n8, right', u10, ?_, ?_, setBuffer_same _ _ _ _ hR9,
        fun _ _ _ => rfl, loadU32_storeU32_same hr' (by rw [hU]; omega), ?_⟩
      · rw [setBuffer_other _ _ _ _ (fun h => hR0 h.symm)]
        exact a9
      · rw [setBuffer_other _ _ _ _ hLR]
        exact b9
      · intro i page hi hp
        by_cases hiR : i = R
        · rw [hiR, setBuffer_same _ _ _ _ hR9] at hp
          rw [← Option.some.inj (Option.some.inj hp)]
          unfold isRootNode
          rw [k2, loadU8_storeU32_disjoint hr' _ (by rw [k3]; omega)]
          have := hother R right hR0 hright
          unfold isRootNode at this
          rw [k2] at this
          exact this
        · rw [setBuffer_other _ _ _ _ hiR] at hp
          by_cases hiL : i = L
          · rw [hiL, b9] at hp
            rw [← Option.some.inj (Option.some.inj hp)]
            exact hisroot2
          · rw [r9 i hiL hi] at hp
            exact hother i page hi hp
  obtain ⟨p10, rootPage, rightPage, u10, a10, b10, c10, hsame, hrparent, honly⟩ := hfinal
  have hrun : createNewRoot fresh table R = .ok { table with pager := p10 } := by
    unfold createNewRoot
    dsimp only
    rw [hroot0, g1]
    simp only [bind, Except.bind]
    rw [g2]
    simp only [hunused]
    rw [g3]
    simp only [m1]
    unfold Pager.writeU32 at u10
    unfold Pager.writeU32
    simp only [u2, u3, u4, u5, buffer_loaded _ _ _ a5, hchild, u6, buffer_loaded _ _ _ b6, hmax1,
      u7, u8, u9, u10]
    rfl
  have hU8 : ∀ o, o + 1 ≤ nodeParent ∨ nodeParent + 4 ≤ o → loadU8 rootPage o = loadU8 n8 o := by
    intro o h
    unfold loadU8
    rw [hsame o 1 (by omega)]
  have hU32 : ∀ o, o + 4 ≤ nodeParent ∨ nodeParent + 4 ≤ o →
      loadU32 rootPage o = loadU32 n8 o := by
    intro o h
    unfold loadU32
    rw [hsame o 4 (by omega)]
  have hnumR : loadU32 rootPage internalNodeNumKeys = .ok 1 := by
    rw [hU32 _ (by rw [k5, k3]; omega)]
    exact hnum8
  refine ⟨{ table with pager := p10 }, rootPage, l2, rightPage, hrun, hL0, hLR, a10, b10, c10,
    htype2, hisroot2, hleaf2, ?_, hparent2, ?_, ?_, hnumR, ?_, ?_, ?_, hmax2, ?_, hrparent, honly⟩
  · intro o m h
    exact hframe2 o m (by rw [k3]; rw [k4] at h; omega)
  · unfold getNodeType
    rw [hU8 _ (by rw [k1, k3]; omega)]
    exact htype8
  · unfold isRootNode
    rw [hU8 _ (by rw [k2, k3]; omega)]
    exact hisroot8
  · unfold internalNodeChild
    rw [hnumR]
    simp only [bind, Except.bind]
    rw [if_neg (by omega), if_neg (by omega)]
    rfl
  · rw [hU32 _ (by rw [k7, k3]; omega)]
    exact hcell8
  · rw [hU32 _ (by rw [k8, k3]; omega)]
    exact hkey8
  · rw [hU32 _ (by rw [k6, k3]; omega)]
    exact hright8

theorem isRootNode_of_check (pager : Pager) (h : otherPagesNotRoot pager = true) :
    ∀ i page, i ≠ 0 → pager.pages[i]? = some (some page) → isRootNode page = .ok false := by
  intro i page hi hp
  unfold otherPagesNotRoot at h
  rw [List.all_eq_true] at h
  obtain ⟨j, rfl⟩ : ∃ j, i = j + 1 := ⟨i - 1, by omega⟩
  have hj : (pager.pages.drop 1)[j]? = some (some page) := by
    rw [List.getElem?_drop, Nat.add_comm]
    exact hp
  have hmem : some page ∈ pager.pages.drop 1 := List.getElem?_mem hj
  have := h (some page) hmem
  simpa using this

/-! ## Inserting a key into a leaf page -/

theorem getElem?_insertAt_lt {α : Type} (l : List α) (x : α) (c i : Nat) (hc : c ≤ l.length)
    (hi : i < c) : (l.take c ++ x :: l.drop c)[i]? = l[i]? := by
  rw [List.getElem?_append_left (by rw [List.length_take]; omega), List.getElem?_take, if_pos hi]

theorem getElem?_insertAt_eq {α : Type} (l : List α) (x : α) (c : Nat) (hc : c ≤ l.length) :
    (l.take c ++ x :: l.drop c)[c]? = some x := by
  rw [List.getElem?_append_right (by rw [List.length_take]; omega), List.length_take,
    min_eq_left hc, Nat.sub_self, List.getElem?_cons_zero]

theorem getElem?_insertAt_gt {α : Type} (l : List α) (x : α) (c i : Nat) (hc : c ≤ l.length)
    (hi : c < i) : (l.take c ++ x :: l.drop c)[i]? = l[i - 1]? := by
  rw [List.getElem?_append_right (by rw [List.length_take]; omega), List.length_take,
    min_eq_left hc]
  obtain ⟨k, hk⟩ : ∃ k, i - c = k + 1 := ⟨i - c - 1, by omega⟩
  rw [hk, List.getElem?_cons_succ, List.getElem?_drop]
  congr 1
  omega

theorem length_insertAt {α : Type} (l : List α) (x : α) (c : Nat) (hc : c ≤ l.length) :
    (l.take c ++ x :: l.drop c).length = l.length + 1 := by
  rw [List.length_append, List.length_cons, List.length_take, List.length_drop, min_eq_left hc]
  omega

/-- The stores of `insertLeafNode` after its shift loop, on a leaf of at most
three cells: the page then holds the new key at cell `c`, the keys before it
where they were and the keys after it one cell up; of the header only
`num_cells` changes. -/
theorem insertLeafNode_keys (node : Page) (keys : List Nat) (r : Row) (c : Nat)
    (hleaf : LeafKeys node keys) (hn : keys.length ≤ 3) (hc : c ≤ keys.length) (hr : r.WF) :
    ∃ node' node1 node2 node3,
      (if c < keys.length then insertLeafNodeShift c keys.length node else pure node)
        = .ok node' ∧
      loadU32 node' leafNodeNumCells = .ok keys.length ∧
      storeU32 node' leafNodeNumCells ((keys.length + 1) % U32) = .ok node1 ∧
      storeU32 node1 (leafNodeKey c) r.id = .ok node2 ∧
      serializeRow r node2 (leafNodeValue c) = .ok node3 ∧
      LeafKeys node3 (keys.take c ++ r.id :: keys.drop c) ∧
      (∀ o m, o + m ≤ 24 ∨ (28 ≤ o ∧ o + m ≤ 56) → loadBytes node3 o m = loadBytes node o m) := by
  obtain ⟨hlen, hcount, hcells⟩ := hleaf
  have hP : PAGE_SIZE = 4096 := rfl
  have hk : LEAF_NODE_CELL_SIZE = 297 ∧ 4 * ID_OFFSET = 0 ∧ 4 * USERNAME_OFFSET = 16 ∧
      4 * EMAIL_OFFSET = 148 ∧ USERNAME_SIZE = 33 ∧ EMAIL_SIZE = 256 ∧ ID_SIZE = 4 ∧
      4 * NODE_TYPE_OFFSET = 0 := by decide
  obtain ⟨k0, k1, k2, k3, k4, k5, k6, k7⟩ := hk
  -- the shift
  obtain ⟨node', hsh, hl', ha, hcp⟩ : ∃ node',
      (if c < keys.length then insertLeafNodeShift c keys.length node else pure node)
        = .ok node' ∧ node'.length = node.length ∧
      (∀ o m, o + m ≤ leafNodeCell (c + 1) → loadBytes node' o m = loadBytes node o m) ∧
      (∀ j, c < j → j ≤ keys.length → loadBytes node' (leafNodeCell j) LEAF_NODE_CELL_SIZE =
          loadBytes node (leafNodeCell (j - 1)) LEAF_NODE_CELL_SIZE) := by
    by_cases hlt : c < keys.length
    · rw [if_pos hlt]
      obtain ⟨node', h1, h2, h3, _, h5⟩ := insertLeafNodeShift_spec c keys.length node hlen hn
      exact ⟨node', h1, h2, h3, h5⟩
    · rw [if_neg hlt]
      exact ⟨node, rfl, rfl, fun _ _ _ => rfl, fun j h1 h2 => by omega⟩
  have hlen0 : node.length = 4096 := by rw [hlen, hP]
  have hlen' : node'.length = 4096 := by rw [hl', hlen, hP]
  have hcount' : loadU32 node' leafNodeNumCells = .ok keys.length := by
    rw [← hcount]
    unfold loadU32
    rw [ha _ _ (by rw [leafNodeNumCells_eq, leafNodeCell_eq]; omega)]
  -- the stores
  obtain ⟨node1, s1⟩ := storeBytes_isOk node' leafNodeNumCells
    (encodeU32 ((keys.length + 1) % U32))
    (by rw [encodeU32_length, leafNodeNumCells_eq, hlen']; omega)
  have hlen1 : node1.length = 4096 := by rw [storeBytes_length s1, hlen']
  obtain ⟨node2, s2⟩ := storeBytes_isOk node1 (leafNodeKey c) (encodeU32 r.id)
    (by rw [encodeU32_length, leafNodeKey_eq, hlen1]; omega)
  have hlen2 : node2.length = 4096 := by rw [storeBytes_length s2, hlen1]
  obtain ⟨node3, s345⟩ := serializeRow_isOk r hr node2 (leafNodeValue c)
    (by rw [k3, k5, leafNodeValue_eq, hlen2]; omega)
  have hlen3 : node3.length = 4096 := by rw [serializeRow_length s345, hlen2]
  obtain ⟨b1, b2, s3, s4, s5⟩ := (serializeRow_ok_iff _ _ _ _).1 s345
  obtain ⟨hwf1, hwf2, hwf3⟩ := hr
  rw [k4] at hwf2
  rw [k5] at hwf3
  rw [k1] at s3
  rw [k2] at s4
  rw [k3] at s5
  -- loads away from the stores
  have frame : ∀ o m, (o + m ≤ 24 ∨ 28 ≤ o) →
      (o + m ≤ leafNodeCell c ∨ leafNodeCell c + 420 ≤ o) →
      loadBytes node3 o m = loadBytes node' o m := by
    intro o m h1 h2
    rw [leafNodeCell_eq] at h2
    rw [loadBytes_storeBytes_disjoint s5 o m (by rw [hwf3, leafNodeValue_eq]; omega),
      loadBytes_storeBytes_disjoint s4 o m (by rw [hwf2, leafNodeValue_eq]; omega),
      loadBytes_storeBytes_disjoint s3 o m (by rw [encodeU32_length, leafNodeValue_eq]; omega),
      loadBytes_storeBytes_disjoint s2 o m (by rw [encodeU32_length, leafNodeKey_eq]; omega),
      loadBytes_storeBytes_disjoint s1 o m (by rw [encodeU32_length, leafNodeNumCells_eq]; omega)]
  have hget : ∀ i k, keys[i]? = some k → loadU32 node (leafNodeKey i) = .ok k := by
    intro i k hi
    obtain ⟨hlt, hv⟩ := List.getElem?_eq_some_iff.1 hi
    rw [hcells i hlt, hv]
  refine ⟨node', node1, node2, node3, hsh, hcount', s1, s2, s345, ⟨by rw [hlen3, hP], ?_, ?_⟩, ?_⟩
  · -- the count
    rw [length_insertAt keys r.id c hc]
    have hw : (keys.length + 1) % U32 = keys.length + 1 :=
      Nat.mod_eq_of_lt (by unfold U32; omega)
    rw [hw] at s1
    unfold loadU32
    rw [loadBytes_storeBytes_disjoint s5 _ _
        (by rw [hwf3, leafNodeValue_eq, leafNodeNumCells_eq]; omega),
      loadBytes_storeBytes_disjoint s4 _ _
        (by rw [hwf2, leafNodeValue_eq, leafNodeNumCells_eq]; omega),
      loadBytes_storeBytes_disjoint s3 _ _
        (by rw [encodeU32_length, leafNodeValue_eq, leafNodeNumCells_eq]; omega),
      loadBytes_storeBytes_disjoint s2 _ _
        (by rw [encodeU32_length, leafNodeKey_eq, leafNodeNumCells_eq]; omega)]
    have := loadBytes_storeBytes_same s1
    rw [encodeU32_length] at this
    rw [this]
    simp only [bind, Except.bind, pure, Except.pure,
      decodeU32_encodeU32 _ (show keys.length + 1 < U32 by unfold U32; omega)]
  · -- the keys
    intro i hi
    rw [length_insertAt keys r.id c hc] at hi
    have hsome : (keys.take c ++ r.id :: keys.drop c)[i]? =
        some ((keys.take c ++ r.id :: keys.drop c)[i]) := List.getElem?_eq_getElem _
    generalize (keys.take c ++ r.id :: keys.drop c)[i] = k at hsome ⊢
    rcases Nat.lt_trichotomy i c with hlt | heq | hgt
    · rw [getElem?_insertAt_lt keys r.id c i hc hlt] at hsome
      have hold := hget i k hsome
      unfold loadU32 at hold ⊢
      rw [frame _ _ (by rw [leafNodeKey_eq]; omega)
          (by rw [leafNodeKey_eq, leafNodeCell_eq]; omega),
        ha _ _ (by rw [leafNodeKey_eq, leafNodeCell_eq]; omega)]
      exact hold
    · subst heq
      rw [getElem?_insertAt_eq keys r.id i hc] at hsome
      have hk : r.id = k := Option.some.inj hsome
      subst hk
      rw [loadU32_storeBytes_disjoint s5 _ (by rw [hwf3, leafNodeValue_eq, leafNodeKey_eq]; omega),
        loadU32_storeBytes_disjoint s4 _ (by rw [hwf2, leafNodeValue_eq, leafNodeKey_eq]; omega),
        loadU32_storeBytes_disjoint s3 _
          (by rw [encodeU32_length, leafNodeValue_eq, leafNodeKey_eq]; omega)]
      exact loadU32_storeU32_same s2 hwf1
    · rw [getElem?_insertAt_gt keys r.id c i hc hgt] at hsome
      have hold := hget (i - 1) k hsome
      obtain ⟨img, himg⟩ := loadBytes_isOk node (leafNodeCell (i - 1)) LEAF_NODE_CELL_SIZE
        (by rw [k0, leafNodeCell_eq, hlen0]; omega)
      have hnew : loadBytes node' (leafNodeCell i) LEAF_NODE_CELL_SIZE = .ok img := by
        rw [hcp i hgt (by omega)]
        exact himg
      rw [k0] at himg hnew
      have a := loadBytes_sub himg 0 4 (by omega)
      have b := loadBytes_sub hnew 0 4 (by omega)
      rw [Nat.add_zero] at a b
      unfold loadU32 at hold ⊢
      rw [leafNodeKey_eq, ← leafNodeCell_eq] at hold ⊢
      rw [frame _ _ (by rw [leafNodeCell_eq]; omega)
          (by rw [leafNodeCell_eq, leafNodeCell_eq]; omega), b]
      rw [a] at hold
      exact hold
  · -- the header
    intro o m h
    rw [frame o m (by omega) (by rw [leafNodeCell_eq]; omega),
      ha o m (by rw [leafNodeCell_eq]; omega)]

/-! ## Inserts into a table of one leaf -/

/-- `insertLeafNode` at cell `c` of a root leaf that holds at most three keys. -/
theorem insertLeafNode_of_leafKeys (fresh : Nat → Page) (table : Table) (node : Page)
    (keys : List Nat) (r : Row) (c : Nat)
    (hslot : table.pager.pages[table.root_page_num]? = some (some node))
    (hnum : table.root_page_num ≤ TABLE_MAX_PAGES)
    (hleaf : LeafKeys node keys) (hn : keys.length ≤ 3) (hc : c ≤ keys.length) (hr : r.WF) :
    ∃ node3, insertLeafNode fresh table
        { page_num := table.root_page_num, cell_num := c, end_of_table := none } r.id r =
        .ok { table with pager := table.pager.setBuffer table.root_page_num node3 } ∧
      LeafKeys node3 (keys.take c ++ r.id :: keys.drop c) ∧
      (∀ o m, o + m ≤ 24 ∨ (28 ≤ o ∧ o + m ≤ 56) → loadBytes node3 o m = loadBytes node o m) := by
  obtain ⟨node', node1, node2, node3, h1, h2, h3, h4, h5, h6, h7⟩ :=
    insertLeafNode_keys node keys r c hleaf hn hc hr
  refine ⟨node3, ?_, h6, h7⟩
  have hmax : ¬ keys.length ≥ LEAF_NODE_MAX_CELLS := by
    have : LEAF_NODE_MAX_CELLS = 4104 := by decide
    rw [this]
    omega
  unfold insertLeafNode
  rw [getPage_loaded fresh _ _ _ hslot hnum]
  simp only [bind, Except.bind]
  rw [buffer_loaded _ _ _ hslot]
  simp only [hleaf.2.1, if_neg hmax]
  by_cases hlt : c < keys.length
  · rw [if_pos hlt] at h1
    simp only [if_pos hlt, h1, h2, h3, h4, h5]
    rfl
  · rw [if_neg hlt] at h1
    have hnode : node = node' := Except.ok.inj h1
    subst hnode
    simp only [if_neg hlt, pure, Except.pure, h2, h3, h4, h5]

/-- `executeInsert` of a row with a new id into a root leaf with strictly
ascending keys: the call of `insertLeafNode` at the lower-bound index decides
the result. -/
theorem executeInsert_new (fresh : Nat → Page) (table : Table) (node : Page)
    (keys : List Nat) (row : Row)
    (hpages : table.pager.pages.length = TABLE_MAX_PAGES)
    (hslot : table.pager.pages[table.root_page_num]? = some (some node))
    (htype : getNodeType node = .ok NODE_LEAF)
    (hleaf : LeafKeys node keys) (hsorted : keys.Pairwise (fun a b => a < b))
    (hnew : row.id ∉ keys) :
    executeInsert fresh (insertStatement row) table =
      (insertLeafNode fresh table
          { page_num := table.root_page_num,
            cell_num := keys.countP (fun x => decide (x < row.id)), end_of_table := none }
          row.id row >>= fun result => pure (ExecuteResult.EXECUTE_SUCCESS, result)) := by
  have hnum : table.root_page_num ≤ TABLE_MAX_PAGES := by
    have := slot_lt_of_loaded hslot
    omega
  have hfind := (findLeafNode_of_sorted fresh table table.root_page_num node keys row.id hpages
    hslot hleaf hsorted).1
  generalize hcdef : keys.countP (fun x => decide (x < row.id)) = c at hfind ⊢
  unfold executeInsert insertStatement
  dsimp only
  rw [tableFind_leaf fresh table node _ hpages hslot htype, hfind]
  simp only [bind, Except.bind]
  rw [getPage_loaded fresh _ _ _ hslot hnum]
  simp only []
  rw [buffer_loaded _ _ _ hslot]
  simp only [hleaf.2.1]
  by_cases hcl : c < keys.length
  · have hk := hleaf.2.2 c hcl
    have hne : ¬ keys[c] = row.id := fun h => hnew (h ▸ List.getElem_mem _)
    simp only [if_pos hcl, hk, pure, Except.pure, hne, decide_False]
    rfl
  · simp only [if_neg hcl, pure, Except.pure]
    rfl

/-- `executeInsert` of a row whose id is a key of the root leaf. -/
theorem executeInsert_present (fresh : Nat → Page) (table : Table) (node : Page)
    (keys : List Nat) (statement : Statement)
    (hpages : table.pager.pages.length = TABLE_MAX_PAGES)
    (hslot : table.pager.pages[table.root_page_num]? = some (some node))
    (htype : getNodeType node = .ok NODE_LEAF)
    (hleaf : LeafKeys node keys) (hsorted : keys.Pairwise (fun a b => a < b))
    (hdup : statement.row_to_insert.id ∈ keys) :
    executeInsert fresh statement table = .ok (ExecuteResult.EXECUTE_DUPLICATE_KEY, table) := by
  have hnum : table.root_page_num ≤ TABLE_MAX_PAGES := by
    have := slot_lt_of_loaded hslot
    omega
  obtain ⟨hfind, hidx⟩ := findLeafNode_of_sorted fresh table table.root_page_num node keys
    statement.row_to_insert.id hpages hslot hleaf hsorted
  have hidx := hidx hdup
  obtain ⟨hc, hget⟩ := List.getElem?_eq_some_iff.1 hidx
  unfold executeInsert
  dsimp only
  rw [tableFind_leaf fresh table node _ hpages hslot htype, hfind]
  simp only [bind, Except.bind]
  rw [getPage_loaded fresh _ _ _ hslot hnum]
  simp only []
  rw [buffer_loaded _ _ _ hslot]
  simp only [hleaf.2.1, if_pos hc, hleaf.2.2 _ hc, hget, pure, Except.pure, decide_True, if_true]

/-- One `executeInsert` that returns, on a table of one leaf: either the id
is among the keys, the result is `EXECUTE_DUPLICATE_KEY` and the table is as
before, or the id is new, the result is `EXECUTE_SUCCESS` and the table is
again one leaf, with the id among its keys. -/
theorem executeInsert_singleLeaf (fresh : Nat → Page) (table : Table) (keys : List Nat)
    (statement : Statement) (result : ExecuteResult) (table' : Table)
    (hinv : SingleLeaf table keys) (hr : statement.row_to_insert.WF)
    (hrun : executeInsert fresh statement table = .ok (result, table')) :
    (statement.row_to_insert.id ∈ keys ∧ result = ExecuteResult.EXECUTE_DUPLICATE_KEY ∧
        table' = table) ∨
      (statement.row_to_insert.id ∉ keys ∧ result = ExecuteResult.EXECUTE_SUCCESS ∧
        ∃ keys', SingleLeaf table' keys' ∧ keys'.length = keys.length + 1 ∧
          ∀ k, k ∈ keys' ↔ k = statement.row_to_insert.id ∨ k ∈ keys) := by
  obtain ⟨hroot, hpages, hfile, hnp, hrest, hsorted, node, hslot0, htype, hisroot, hnext,
    hparent, hleaf⟩ := hinv
  have hslot : table.pager.pages[table.root_page_num]? = some (some node) := by
    rw [hroot]; exact hslot0
  have hnum : table.root_page_num ≤ TABLE_MAX_PAGES := by rw [hroot]; exact Nat.zero_le _
  by_cases hmem : statement.row_to_insert.id ∈ keys
  · left
    rw [executeInsert_present fresh table node keys statement hpages hslot htype hleaf hsorted
      hmem] at hrun
    have := Except.ok.inj hrun
    exact ⟨hmem, (congrArg Prod.fst this).symm, (congrArg Prod.snd this).symm⟩
  · right
    have heq : executeInsert fresh statement table =
        executeInsert fresh (insertStatement statement.row_to_insert) table := by
      unfold executeInsert insertStatement
      rfl
    rw [heq, executeInsert_new fresh table node keys statement.row_to_insert hpages hslot htype
      hleaf hsorted hmem] at hrun
    generalize hcdef : keys.countP (fun x => decide (x < statement.row_to_insert.id)) = c at hrun
    have hc : c ≤ keys.length := by
      rw [← hcdef]
      exact List.countP_le_length _
    have h4 := hleaf.length_le
    by_cases hfour : keys.length = 4
    · exfalso
      have hcount : loadU32 node leafNodeNumCells = .ok 4 := by
        rw [← hfour]
        exact hleaf.2.1
      have hins := insertLeafNode_four_cells fresh table
        { page_num := table.root_page_num, cell_num := c, end_of_table := none } node
        statement.row_to_insert.id statement.row_to_insert hpages hslot hleaf.1 hcount
        (by rw [← hfour]; exact hc)
      rw [hins] at hrun
      simp only [bind, Except.bind] at hrun
      exact absurd hrun (by intro h; cases h)
    · obtain ⟨node3, hins, hleaf3, hframe⟩ := insertLeafNode_of_leafKeys fresh table node keys
        statement.row_to_insert c hslot hnum hleaf (by omega) hc hr
      rw [hins] at hrun
      simp only [bind, Except.bind, pure, Except.pure] at hrun
      have hres := Except.ok.inj hrun
      have hr1 : result = ExecuteResult.EXECUTE_SUCCESS := (congrArg Prod.fst hres).symm
      have ht : table' = { table with pager := table.pager.setBuffer table.root_page_num node3 } :=
        (congrArg Prod.snd hres).symm
      refine ⟨hmem, hr1, keys.take c ++ statement.row_to_insert.id :: keys.drop c, ?_,
        length_insertAt keys _ c hc, ?_⟩
      · rw [ht, hroot]
        have hlt0 : 0 < table.pager.pages.length := slot_lt_of_loaded hslot0
        refine ⟨rfl, ?_, hfile, hnp, ?_, ?_, node3, ?_, ?_, ?_, ?_, ?_, hleaf3⟩
        · show (table.pager.setBuffer 0 node3).pages.length = TABLE_MAX_PAGES
          unfold Pager.setBuffer
          rw [List.length_set]
          exact hpages
        · intro i hi hlt
          show (table.pager.setBuffer 0 node3).pages[i]? = some none
          rw [setBuffer_other _ _ _ _ hi]
          exact hrest i hi hlt
        · rw [← hcdef]
          exact sorted_insert _ _ hsorted hmem
        · exact buffer_setBuffer _ _ _ hlt0
        · rw [← htype]
          unfold getNodeType loadU8
          have : 4 * NODE_TYPE_OFFSET = 0 := by decide
          rw [this, hframe 0 1 (by omega)]
        · rw [← hisroot]
          unfold isRootNode loadU8
          have : 4 * IS_ROOT_OFFSET = 4 := by decide
          rw [this, hframe 4 1 (by omega)]
        · rw [← hnext]
          unfold loadU32
          rw [leafNodeNextLeaf_eq, hframe 40 4 (by omega)]
        · obtain ⟨p, hp, hpb⟩ := hparent
          refine ⟨p, ?_, hpb⟩
          rw [← hp]
          unfold loadU32
          have : nodeParent = 8 := by decide
          rw [this, hframe 8 4 (by omega)]
      · intro k
        have hperm : (keys.take c ++ statement.row_to_insert.id :: keys.drop c).Perm
            (statement.row_to_insert.id :: keys) := by
          have := @List.perm_middle Nat statement.row_to_insert.id (keys.take c) (keys.drop c)
          rwa [List.take_append_drop] at this
        rw [hperm.mem_iff, List.mem_cons]

/-- A run of `executeInsert` calls that all return, on a table of one leaf:
the table is again one leaf, its keys are the old keys and the ids of the
statements, and each `EXECUTE_SUCCESS` has added one key. -/
theorem executeInserts_singleLeaf (fresh : Nat → Page) :
    ∀ (statements : List Statement) (table : Table) (keys : List Nat)
      (results : List ExecuteResult) (table' : Table),
      SingleLeaf table keys → (∀ s, s ∈ statements → s.row_to_insert.WF) →
      executeInserts fresh statements table = .ok (results, table') →
      ∃ keys', SingleLeaf table' keys' ∧
        keys'.length = keys.length + results.count ExecuteResult.EXECUTE_SUCCESS ∧
        ∀ k, k ∈ keys' ↔ k ∈ keys ∨ ∃ s, s ∈ statements ∧ s.row_to_insert.id = k := by
  intro statements
  induction statements with
  | nil =>
    intro table keys results table' hinv _ hrun
    unfold executeInserts at hrun
    have h := Except.ok.inj hrun
    have h1 : results = [] := (congrArg Prod.fst h).symm
    have h2 : table' = table := (congrArg Prod.snd h).symm
    subst h1 h2
    refine ⟨keys, hinv, by simp, ?_⟩
    intro k
    simp
  | cons s rest ih =>
    intro table keys results table' hinv hrows hrun
    unfold executeInserts at hrun
    obtain ⟨⟨r1, t1⟩, hstep, hrun⟩ := bind_eq_ok hrun
    dsimp only at hrun
    obtain ⟨⟨rs, t2⟩, hrest, hrun⟩ := bind_eq_ok hrun
    have h := Except.ok.inj hrun
    have h1 : results = r1 :: rs := (congrArg Prod.fst h).symm
    have h2 : table' = t2 := (congrArg Prod.snd h).symm
    subst h1 h2
    have hrows' : ∀ x, x ∈ rest → x.row_to_insert.WF :=
      fun x hx => hrows x (List.mem_cons_of_mem _ hx)
    rcases executeInsert_singleLeaf fresh table keys s r1 t1 hinv
        (hrows s (List.mem_cons_self _ _)) hstep with ⟨hmem, hres, ht⟩ | ⟨hmem, hres, keys1, hinv1, hlen1, hmem1⟩
    · subst hres ht
      obtain ⟨keys', hinv', hlen', hmem'⟩ := ih t1 keys rs table' hinv hrows' hrest
      refine ⟨keys', hinv', ?_, ?_⟩
      · rw [hlen', List.count_cons]
        simp
      · intro k
        rw [hmem' k]
        constructor
        · rintro (h | ⟨x, hx, hk⟩)
          · exact Or.inl h
          · exact Or.inr ⟨x, List.mem_cons_of_mem _ hx, hk⟩
        · rintro (h | ⟨x, hx, hk⟩)
          · exact Or.inl h
          · rcases List.mem_cons.1 hx with hxs | hxr
            · left
              rw [← hk, hxs]
              exact hmem
            · exact Or.inr ⟨x, hxr, hk⟩
    · subst hres
      obtain ⟨keys', hinv', hlen', hmem'⟩ := ih t1 keys1 rs table' hinv1 hrows' hrest
      refine ⟨keys', hinv', ?_, ?_⟩
      · rw [hlen', hlen1, List.count_cons]
        simp
        omega
      · intro k
        rw [hmem' k, hmem1 k]
        constructor
        · rintro ((h | h) | ⟨x, hx, hk⟩)
          · exact Or.inr ⟨s, List.mem_cons_self _ _, h.symm⟩
          · exact Or.inl h
          · exact Or.inr ⟨x, List.mem_cons_of_mem _ hx, hk⟩
        · rintro (h | ⟨x, hx, hk⟩)
          · exact Or.inl (Or.inr h)
          · rcases List.mem_cons.1 hx with hxs | hxr
            · left
              left
              rw [← hk, hxs]
            · exact Or.inr ⟨x, hxr, hk⟩

/-! ## The chain of a table of one leaf, and the links of a split -/

/-- A `uint32_t` loaded from a buffer of bytes is below 2^32. -/
theorem loadU32_lt {buf : Page} {off v : Nat} (hb : ∀ b, b ∈ buf → b < 256)
    (h : loadU32 buf off = .ok v) : v < U32 := by
  unfold loadU32 at h
  obtain ⟨bs, hbs, hv⟩ := bind_eq_ok h
  have hlen := loadBytes_length hbs
  obtain ⟨_, hdef⟩ := (loadBytes_ok_iff _ _ _ _).1 hbs
  have hmem : ∀ b, b ∈ bs → b < 256 := by
    intro b hb'
    rw [hdef] at hb'
    exact hb b (List.mem_of_mem_drop (List.mem_of_mem_take hb'))
  have hv' : decodeU32 bs = v := Except.ok.inj hv
  rcases bs with _ | ⟨a, _ | ⟨b, _ | ⟨c, _ | ⟨d, _ | ⟨e, t⟩⟩⟩⟩⟩ <;> simp at hlen
  have ha := hmem a (by simp)
  have hb2 := hmem b (by simp)
  have hc := hmem c (by simp)
  have hd := hmem d (by simp)
  change a + 256 * b + 65536 * c + 16777216 * d = v at hv'
  unfold U32
  omega

/-- The stores of `initializeLeafNode` on a page, and what the accessors then
read; the parent field is as before. -/
theorem initializeLeafNode_spec (page : Page) (hlen : page.length = PAGE_SIZE) :
    ∃ node, initializeLeafNode page = .ok node ∧ node.length = PAGE_SIZE ∧
      getNodeType node = .ok NODE_LEAF ∧ loadU32 node leafNodeNumCells = .ok 0 ∧
      loadU32 node leafNodeNextLeaf = .ok 0 ∧
      loadU32 node nodeParent = loadU32 page nodeParent := by
  have hP : PAGE_SIZE = 4096 := rfl
  have hk : 4 * NODE_TYPE_OFFSET = 0 ∧ 4 * IS_ROOT_OFFSET = 4 ∧ NODE_LEAF % 256 = 1 ∧
      nodeParent = 8 := by decide
  obtain ⟨k1, k2, k3, k4⟩ := hk
  rw [hP] at hlen
  obtain ⟨n1, s1⟩ := storeBytes_isOk page 0 [1] (by rw [hlen]; simp)
  have l1 : n1.length = 4096 := by rw [storeBytes_length s1, hlen]
  obtain ⟨n2, s2⟩ := storeBytes_isOk n1 4 [0] (by rw [l1]; simp)
  have l2 : n2.length = 4096 := by rw [storeBytes_length s2, l1]
  obtain ⟨n3, s3⟩ := storeBytes_isOk n2 24 (encodeU32 0) (by rw [l2, encodeU32_length]; omega)
  have l3 : n3.length = 4096 := by rw [storeBytes_length s3, l2]
  obtain ⟨n4, s4⟩ := storeBytes_isOk n3 40 (encodeU32 0) (by rw [l3, encodeU32_length]; omega)
  have l4 : n4.length = 4096 := by rw [storeBytes_length s4, l3]
  have hinit : initializeLeafNode page = .ok n4 := by
    unfold initializeLeafNode setNodeType setNodeRoot storeU8 storeU32
    rw [k1, k2, k3, leafNodeNumCells_eq, leafNodeNextLeaf_eq]
    simp only [bind, Except.bind, s1, s2, s3, s4, Bool.false_eq_true, if_false, Nat.zero_mod]
  refine ⟨n4, hinit, by rw [l4, hP], ?_, ?_, ?_, ?_⟩
  · unfold getNodeType loadU8
    rw [k1, loadBytes_storeBytes_disjoint s4 _ _ (by simp),
      loadBytes_storeBytes_disjoint s3 _ _ (by simp),
      loadBytes_storeBytes_disjoint s2 _ _ (by simp)]
    have := loadBytes_storeBytes_same s1
    simp only [List.length_singleton] at this
    rw [this]
    rfl
  · unfold loadU32
    rw [leafNodeNumCells_eq, loadBytes_storeBytes_disjoint s4 _ _ (by simp [encodeU32_length])]
    have := loadBytes_storeBytes_same s3
    rw [encodeU32_length] at this
    rw [this]
    rfl
  · unfold loadU32
    rw [leafNodeNextLeaf_eq]
    have := loadBytes_storeBytes_same s4
    rw [encodeU32_length] at this
    rw [this]
    rfl
  · rw [k4, loadU32_storeBytes_disjoint s4 _ (by simp),
      loadU32_storeBytes_disjoint s3 _ (by simp),
      loadU32_storeBytes_disjoint s2 _ (by simp),
      loadU32_storeBytes_disjoint s1 _ (by simp)]

/-- The table `dbOpen` returns is a table of one leaf without keys, when the
buffer `malloc` returns for page 0 has `PAGE_SIZE` bytes. -/
theorem dbOpen_singleLeaf (fresh : Nat → Page) (file : Option (List Nat))
    (hfresh : (fresh 0).length = PAGE_SIZE) (hbytes : ∀ b, b ∈ fresh 0 → b < 256) :
    ∃ table, dbOpen fresh file = .ok table ∧ SingleLeaf table [] := by
  obtain ⟨n4, n5, hinit, hroot, hlen5, htype5, hisroot5, hcount5, hnext5⟩ :=
    initializeLeafNode_root (fresh 0) hfresh
  obtain ⟨n4', hinit', _, _, _, _, hparent4⟩ := initializeLeafNode_spec (fresh 0) hfresh
  have h44 : n4 = n4' := Except.ok.inj (hinit.symm.trans hinit')
  subst h44
  have hP : PAGE_SIZE = 4096 := rfl
  have hparent5 : loadU32 n5 nodeParent = loadU32 (fresh 0) nodeParent := by
    rw [← hparent4]
    unfold setNodeRoot storeU8 at hroot
    have hk : 4 * IS_ROOT_OFFSET = 4 ∧ nodeParent = 8 := by decide
    rw [hk.1] at hroot
    rw [hk.2]
    exact loadU32_storeBytes_disjoint hroot _ (by simp)
  obtain ⟨p, hp⟩ := loadU32_isOk (fresh 0) nodeParent (by
    have : nodeParent = 8 := by decide
    rw [this, hfresh, hP]; omega)
  have hget : getPage fresh
      { file_descriptor := file.getD [], file_length := 0, num_pages := 0,
        pages := List.replicate TABLE_MAX_PAGES none } 0 =
      .ok { file_descriptor := file.getD [], file_length := 0, num_pages := 1,
            pages := (List.replicate TABLE_MAX_PAGES none).set 0 (some (fresh 0)) } := by
    unfold getPage fread storeBytes
    simp [TABLE_MAX_PAGES, PAGE_SIZE, U32, bind, Except.bind, pure, Except.pure]
  have hT : 0 < (List.replicate TABLE_MAX_PAGES (none : Option Page)).length := by
    rw [List.length_replicate]; decide
  have hopen : dbOpen fresh file =
      .ok { root_page_num := 0,
            pager := { file_descriptor := file.getD [], file_length := 0, num_pages := 1,
                       pages := (List.replicate TABLE_MAX_PAGES none).set 0 (some n5) } } := by
    unfold dbOpen
    rw [pagerOpen_eq]
    simp only [bind, Except.bind, if_true]
    rw [hget]
    simp only []
    rw [update_loaded _ 0 (fresh 0) n4 _ (List.getElem?_set_self hT) hinit]
    simp only []
    rw [update_loaded _ 0 n4 n5 _ (by
      unfold Pager.setBuffer
      exact List.getElem?_set_self (by rw [List.length_set]; exact hT)) hroot]
    unfold Pager.setBuffer
    simp only [pure, Except.pure, List.set_set]
  refine ⟨_, hopen, rfl, ?_, rfl, rfl, ?_, List.Pairwise.nil, n5, ?_, htype5, hisroot5, hnext5,
    ⟨p, by rw [hparent5]; exact hp, loadU32_lt hbytes hp⟩, hlen5, hcount5, ?_⟩
  · show ((List.replicate TABLE_MAX_PAGES (none : Option Page)).set 0 (some n5)).length =
      TABLE_MAX_PAGES
    rw [List.length_set, List.length_replicate]
  · intro i hi hlt
    show ((List.replicate TABLE_MAX_PAGES (none : Option Page)).set 0 (some n5))[i]? = some none
    rw [List.getElem?_set_ne (fun h => hi h.symm), List.getElem?_replicate, if_pos hlt]
  · show ((List.replicate TABLE_MAX_PAGES (none : Option Page)).set 0 (some n5))[0]? =
      some (some n5)
    exact List.getElem?_set_self hT
  · intro i hi
    exact absurd hi (Nat.not_lt_zero _)

/-- The keys `leafNodeKeys` reads from a leaf that holds `keys`. -/
theorem leafNodeKeys_drop (node : Page) (keys : List Nat)
    (hk : ∀ i (h : i < keys.length), loadU32 node (leafNodeKey i) = .ok keys[i]) :
    ∀ count i, i + count = keys.length → leafNodeKeys node count i = .ok (keys.drop i) := by
  intro count
  induction count with
  | zero =>
    intro i hi
    unfold leafNodeKeys
    rw [List.drop_eq_nil_of_le (by omega)]
  | succ n ih =>
    intro i hi
    have hlt : i < keys.length := by omega
    unfold leafNodeKeys
    rw [hk i hlt, ih (i + 1) (by omega)]
    simp only [bind, Except.bind, pure, Except.pure]
    rw [List.drop_eq_getElem_cons hlt]

theorem leafNodeKeys_of_leafKeys (node : Page) (keys : List Nat) (hleaf : LeafKeys node keys) :
    leafNodeKeys node keys.length 0 = .ok keys :=
  leafNodeKeys_drop node keys hleaf.2.2 keys.length 0 (by omega)

/-- The chain of a table of one leaf: the root, with its keys. -/
theorem leafChain_singleLeaf (table : Table) (keys : List Nat) (hinv : SingleLeaf table keys) :
    leafChain table.pager TABLE_MAX_PAGES 0 = .ok [(0, keys)] := by
  obtain ⟨_, _, _, _, _, _, node, hslot0, _, _, hnext, _, hleaf⟩ := hinv
  have hT : TABLE_MAX_PAGES = 99 + 1 := rfl
  rw [hT]
  unfold leafChain
  rw [buffer_loaded _ _ _ hslot0]
  simp only [bind, Except.bind, hleaf.2.1, leafNodeKeys_of_leafKeys node keys hleaf, hnext,
    if_true, pure, Except.pure]

/-- `splitLeafNodeAndInsert` is the statements before its copy loop followed
by those from the loop on. -/
theorem splitLeafNodeAndInsert_eq (fresh : Nat → Page) (table : Table) (cursor : Cursor)
    (key : Nat) (value : Row) :
    splitLeafNodeAndInsert fresh table cursor key value =
      (splitLeafNodeLinks fresh table cursor >>= fun links =>
        splitLeafNodeMove fresh table cursor key value links.1 links.2.1 links.2.2) := by
  unfold splitLeafNodeAndInsert splitLeafNodeLinks splitLeafNodeMove
  simp only [bind_assoc, pure_bind]

/-- The statements of `splitLeafNodeAndInsert` before its copy loop, on a
table of one leaf that is not empty: the new page is page 1, its parent field
holds what that of the old page holds, its `next_leaf` what that of the old
page held, and the `next_leaf` of the old page holds the number of the new
page, so the chain goes from the old page to the new one and ends there. -/
theorem splitLeafNodeLinks_singleLeaf (fresh : Nat → Page) (table : Table) (keys : List Nat)
    (cursor : Cursor) (hinv : SingleLeaf table keys) (hne : keys ≠ [])
    (hfresh : (fresh 1).length = PAGE_SIZE) (hcur : cursor.page_num = 0) :
    ∃ pager oldMax parent,
      splitLeafNodeLinks fresh table cursor = .ok (pager, oldMax, 1) ∧
      table.pager.readU32 0 nodeParent = .ok parent ∧
      table.pager.readU32 0 leafNodeNextLeaf = .ok 0 ∧
      pager.readU32 1 nodeParent = .ok parent ∧
      pager.readU32 0 nodeParent = .ok parent ∧
      pager.readU32 1 leafNodeNextLeaf = .ok 0 ∧
      pager.readU32 0 leafNodeNextLeaf = .ok 1 ∧
      leafChain pager TABLE_MAX_PAGES 0 = .ok [(0, keys), (1, [])] := by
  obtain ⟨hroot, hpages, hfile, hnp, hrest, hsorted, node, hslot0, htype, hisroot, hnext,
    ⟨p, hp, hpb⟩, hleaf⟩ := hinv
  have hP : PAGE_SIZE = 4096 := rfl
  have hk : nodeParent = 8 ∧ leafNodeNextLeaf = 40 ∧ leafNodeNumCells = 24 ∧
      U32 = 4294967296 ∧ 4 * NODE_TYPE_OFFSET = 0 := by decide
  obtain ⟨k1, k2, k3, k4, k5⟩ := hk
  have hlen : node.length = 4096 := by rw [hleaf.1, hP]
  have hn4 := hleaf.length_le
  have hpos : 0 < keys.length := List.length_pos.2 hne
  -- the old page
  have hget0 : getPage fresh table.pager 0 = .ok table.pager :=
    getPage_loaded fresh _ _ _ hslot0 (Nat.zero_le _)
  have hlast : keys.length - 1 < keys.length := by omega
  have hmax : getNodeMaxKey node = .ok keys[keys.length - 1] := by
    have hidx : (keys.length + U32 - 1) % U32 = keys.length - 1 := by
      rw [k4]; omega
    have hni : ¬ NODE_LEAF = NODE_INTERNAL := by decide
    unfold getNodeMaxKey
    simp only [bind, Except.bind, htype, if_neg hni, if_true, hleaf.2.1, hidx]
    exact hleaf.2.2 _ hlast
  -- the new page
  have hslot1 : table.pager.pages[1]? = some none := hrest 1 (by omega) (by decide)
  have hget1 := getPage_fresh fresh table.pager 1 hslot1 (by decide) hfile (by omega)
  have h1lt : 1 < table.pager.pages.length := by rw [hpages]; decide
  obtain ⟨p1, hp1, h11, h10⟩ : ∃ p1, getPage fresh table.pager 1 = .ok p1 ∧
      p1.pages[1]? = some (some (fresh 1)) ∧ p1.pages[0]? = some (some node) := by
    refine ⟨_, hget1, ?_, ?_⟩
    · exact List.getElem?_set_self h1lt
    · show (table.pager.pages.set 1 (some (fresh 1)))[0]? = some (some node)
      rw [List.getElem?_set_ne (by omega)]
      exact hslot0
  obtain ⟨n1, hinit, l1, t1, c1, x1, _⟩ := initializeLeafNode_spec (fresh 1) hfresh
  rw [hP] at l1
  obtain ⟨p2, hu2, h21, h20, _⟩ := update_first p1 p1 1 0 (fresh 1) node n1 initializeLeafNode
    (by omega) h11 h10 (fun _ _ _ => rfl) hinit
  obtain ⟨n2, s2⟩ := storeU32_isOk n1 nodeParent p (by rw [k1, l1]; omega)
  have l2 : n2.length = 4096 := by rw [storeU32_length s2, l1]
  obtain ⟨p3, hu3, h31, h30, _⟩ := update_first p2 p2 1 0 n1 node n2
    (fun page => storeU32 page nodeParent p) (by omega) h21 h20 (fun _ _ _ => rfl) s2
  obtain ⟨n3, s3⟩ := storeU32_isOk n2 leafNodeNextLeaf 0 (by rw [k2, l2]; omega)
  obtain ⟨p4, hu4, h41, h40, _⟩ := update_first p3 p3 1 0 n2 node n3
    (fun page => storeU32 page leafNodeNextLeaf 0) (by omega) h31 h30 (fun _ _ _ => rfl) s3
  obtain ⟨node', s4⟩ := storeU32_isOk node leafNodeNextLeaf 1 (by rw [k2, hlen]; omega)
  obtain ⟨p5, hu5, h50, h51, _⟩ := update_first p4 p4 0 1 node n3 node'
    (fun page => storeU32 page leafNodeNextLeaf 1) (by omega) h40 h41 (fun _ _ _ => rfl) s4
  -- what the pages hold in the end
  have e1 : loadU32 n3 nodeParent = .ok p := by
    rw [loadU32_storeU32_disjoint s3 _ (by rw [k1, k2]; omega)]
    exact loadU32_storeU32_same s2 hpb
  have e2 : loadU32 n3 leafNodeNextLeaf = .ok 0 :=
    loadU32_storeU32_same s3 (by rw [k4]; omega)
  have e3 : loadU32 n3 leafNodeNumCells = .ok 0 := by
    rw [loadU32_storeU32_disjoint s3 _ (by rw [k2, k3]; omega),
      loadU32_storeU32_disjoint s2 _ (by rw [k1, k3]; omega)]
    exact c1
  have e4 : loadU32 node' nodeParent = .ok p := by
    rw [loadU32_storeU32_disjoint s4 _ (by rw [k1, k2]; omega)]
    exact hp
  have e5 : loadU32 node' leafNodeNextLeaf = .ok 1 :=
    loadU32_storeU32_same s4 (by rw [k4]; omega)
  have e6 : LeafKeys node' keys := by
    refine ⟨by rw [storeU32_length s4]; exact hleaf.1, ?_, ?_⟩
    · rw [loadU32_storeU32_disjoint s4 _ (by rw [k2, k3]; omega)]
      exact hleaf.2.1
    · intro i hi
      rw [loadU32_storeU32_disjoint s4 _ (by rw [k2, leafNodeKey_eq]; omega)]
      exact hleaf.2.2 i hi
  have hlinks : splitLeafNodeLinks fresh table cursor =
      .ok (p5, keys[keys.length - 1], 1) := by
    have hN : getUnusedPageNum table.pager = 1 := hnp
    have hw3 : p2.writeU32 1 nodeParent p = .ok p3 := hu3
    have hw4 : p3.writeU32 1 leafNodeNextLeaf 0 = .ok p4 := hu4
    have hw5 : p4.writeU32 0 leafNodeNextLeaf 1 = .ok p5 := hu5
    have hr2 : p2.readU32 0 nodeParent = .ok p := by
      rw [readU32_loaded _ _ _ _ h20]; exact hp
    have hr3 : p3.readU32 0 leafNodeNextLeaf = .ok 0 := by
      rw [readU32_loaded _ _ _ _ h30]; exact hnext
    unfold splitLeafNodeLinks
    dsimp only
    rw [hcur, hget0]
    simp only [bind, Except.bind]
    rw [buffer_loaded _ _ _ hslot0]
    simp only [hmax, hN, hp1, hu2, hr2, hw3, hr3, hw4, hw5, pure, Except.pure]
  refine ⟨p5, _, p, hlinks, ?_, ?_, ?_, ?_, ?_, ?_, ?_⟩
  · rw [readU32_loaded _ _ _ _ hslot0]; exact hp
  · rw [readU32_loaded _ _ _ _ hslot0]; exact hnext
  · rw [readU32_loaded _ _ _ _ h51]; exact e1
  · rw [readU32_loaded _ _ _ _ h50]; exact e4
  · rw [readU32_loaded _ _ _ _ h51]; exact e2
  · rw [readU32_loaded _ _ _ _ h50]; exact e5
  · have hT : TABLE_MAX_PAGES = 98 + 1 + 1 := rfl
    have h10 : ¬ (1 = 0) := by omega
    rw [hT]
    unfold leafChain
    rw [buffer_loaded _ _ _ h50]
    simp only [bind, Except.bind, e6.2.1, leafNodeKeys_of_leafKeys node' keys e6, e5, if_neg h10]
    unfold leafChain
    rw [buffer_loaded _ _ _ h51]
    simp only [bind, Except.bind, e3, e2, if_true, pure, Except.pure]
    unfold leafNodeKeys
    rfl

/-! ## Claims C2, C4 (example), C5 -/

theorem deserializeRow_serializeRow_witness :
    (sampleRow 7 [97, 98] [99]).WF ∧ 0 + 4 * EMAIL_OFFSET + EMAIL_SIZE ≤ (zeroBuffer 404).length ∧
    ∃ buf', serializeRow (sampleRow 7 [97, 98] [99]) (zeroBuffer 404) 0 = .ok buf' ∧
      deserializeRow buf' 0 = .ok (sampleRow 7 [97, 98] [99]) :=
  ⟨by decide!, by decide!, deserializeRow_serializeRow _ (by decide!) _ 0 (by decide!)⟩

/-- C5. For every leaf whose `num_cells` keys are strictly ascending and every
key, `findLeafNode` returns (leaving the table as it is) a cursor on that page
whose `cell_num` is the number of cells with a smaller key, and that is the
index of the key when the leaf holds it. -/
theorem findLeafNode_sorted (fresh : Nat → Page) (table : Table) (pageNum : Nat) (node : Page)
    (keys : List Nat) (key : Nat)
    (hpages : table.pager.pages.length = TABLE_MAX_PAGES)
    (hslot : table.pager.pages[pageNum]? = some (some node))
    (hleaf : LeafKeys node keys) (hsorted : keys.Pairwise (fun a b => a < b)) :
    findLeafNode fresh table pageNum key =
        .ok ({ page_num := pageNum, cell_num := keys.countP (fun x => decide (x < key)),
               end_of_table := none }, table) ∧
      (key ∈ keys → keys[keys.countP (fun x => decide (x < key))]? = some key) :=
  findLeafNode_of_sorted fresh table pageNum node keys key hpages hslot hleaf hsorted

theorem findLeafNode_sorted_witness :
    (sampleTable [sampleRow 1 [97] [98], sampleRow 3 [97] [98]]).pager.pages.length
        = TABLE_MAX_PAGES ∧
      LeafKeys ((sampleTable [sampleRow 1 [97] [98], sampleRow 3 [97] [98]]).page 0) [1, 3] ∧
      findLeafNode zeroHeap (sampleTable [sampleRow 1 [97] [98], sampleRow 3 [97] [98]]) 0 2 =
        .ok ({ page_num := 0, cell_num := 1, end_of_table := none },
             sampleTable [sampleRow 1 [97] [98], sampleRow 3 [97] [98]]) :=
  have h : (sampleTable [sampleRow 1 [97] [98], sampleRow 3 [97] [98]]).pager.pages.length = TABLE_MAX_PAGES ∧
      LeafKeys ((sampleTable [sampleRow 1 [97] [98], sampleRow 3 [97] [98]]).page 0) [1, 3] ∧
      (sampleTable [sampleRow 1 [97] [98], sampleRow 3 [97] [98]]).pager.pages[0]? = some (some ((sampleTable [sampleRow 1 [97] [98], sampleRow 3 [97] [98]]).page 0)) := by decide!
  ⟨h.1, h.2.1,
   (findLeafNode_sorted zeroHeap (sampleTable [sampleRow 1 [97] [98], sampleRow 3 [97] [98]]) 0
      ((sampleTable [sampleRow 1 [97] [98], sampleRow 3 [97] [98]]).page 0) [1, 3] 2
      h.1 h.2.2 h.2.1 (by decide)).1⟩

/-- C2. For every table whose root is a leaf with strictly ascending keys and
every insert statement whose id is one of these keys, `executeInsert` returns
`EXECUTE_DUPLICATE_KEY` and the table after the call is the table before it:
the same buffers in the same slots, the same `num_pages`, the same file. -/
theorem executeInsert_duplicate (fresh : Nat → Page) (table : Table) (node : Page)
    (keys : List Nat) (statement : Statement)
    (hpages : table.pager.pages.length = TABLE_MAX_PAGES)
    (hslot : table.pager.pages[table.root_page_num]? = some (some node))
    (htype : getNodeType node = .ok NODE_LEAF)
    (hleaf : LeafKeys node keys) (hsorted : keys.Pairwise (fun a b => a < b))
    (hdup : statement.row_to_insert.id ∈ keys) :
    executeInsert fresh statement table = .ok (ExecuteResult.EXECUTE_DUPLICATE_KEY, table) := by
  have hnum : table.root_page_num ≤ TABLE_MAX_PAGES := by
    have := slot_lt_of_loaded hslot
    omega
  obtain ⟨hfind, hidx⟩ := findLeafNode_of_sorted fresh table table.root_page_num node keys
    statement.row_to_insert.id hpages hslot hleaf hsorted
  have hidx := hidx hdup
  obtain ⟨hc, hget⟩ := List.getElem?_eq_some_iff.1 hidx
  unfold executeInsert
  dsimp only
  rw [tableFind_leaf fresh table node _ hpages hslot htype, hfind]
  simp only [bind, Except.bind]
  rw [getPage_loaded fresh _ _ _ hslot hnum]
  simp only []
  rw [buffer_loaded _ _ _ hslot]
  simp only [hleaf.2.1, if_pos hc, hleaf.2.2 _ hc, hget, pure, Except.pure, decide_True, if_true]
theorem executeInsert_duplicate_witness :
    (sampleTable [sampleRow 1 [97] [98], sampleRow 3 [97] [98]]).pager.pages.length
        = TABLE_MAX_PAGES ∧
      LeafKeys ((sampleTable [sampleRow 1 [97] [98], sampleRow 3 [97] [98]]).page 0) [1, 3] ∧
      executeInsert zeroHeap (insertStatement (sampleRow 3 [99] [100]))
          (sampleTable [sampleRow 1 [97] [98], sampleRow 3 [97] [98]]) =
        .ok (ExecuteResult.EXECUTE_DUPLICATE_KEY,
             sampleTable [sampleRow 1 [97] [98], sampleRow 3 [97] [98]]) :=
  have h : (sampleTable [sampleRow 1 [97] [98], sampleRow 3 [97] [98]]).pager.pages.length = TABLE_MAX_PAGES ∧
      LeafKeys ((sampleTable [sampleRow 1 [97] [98], sampleRow 3 [97] [98]]).page 0) [1, 3] ∧
      (sampleTable [sampleRow 1 [97] [98], sampleRow 3 [97] [98]]).pager.pages[(sampleTable [sampleRow 1 [97] [98], sampleRow 3 [97] [98]]).root_page_num]? = some (some ((sampleTable [sampleRow 1 [97] [98], sampleRow 3 [97] [98]]).page 0)) ∧
      getNodeType ((sampleTable [sampleRow 1 [97] [98], sampleRow 3 [97] [98]]).page 0) = .ok NODE_LEAF := by decide!
  ⟨h.1, h.2.1,
   executeInsert_duplicate zeroHeap (sampleTable [sampleRow 1 [97] [98], sampleRow 3 [97] [98]])
      ((sampleTable [sampleRow 1 [97] [98], sampleRow 3 [97] [98]]).page 0) [1, 3]
      (insertStatement (sampleRow 3 [99] [100]))
      h.1 h.2.2.1 h.2.2.2 h.2.1 (by decide) (by decide)⟩

/-! ## Claim C1 -/

/-- C1 (the code departs from the claim). Five rows with the ids 1 to 5 are
inserted into a new database: the fifth insert stores outside the page.  And
a row with id 2 and an email of 200 bytes is inserted before a row with id 1:
the select prints the row with id 2 with an email of 133 bytes. -/
theorem selectAfterInserts_counterexample :
    selectAfterInserts zeroHeap none ((ascendingInserts 5).map Statement.row_to_insert) =
        .error Fault.undefinedBehavior ∧
      selectAfterInserts zeroHeap none
          [sampleRow 2 [97] (List.replicate 200 101), sampleRow 1 [98] [99]] =
        .ok ([ExecuteResult.EXECUTE_SUCCESS, ExecuteResult.EXECUTE_SUCCESS],
             [{ id := 1, username := [98], email := [99] },
              { id := 2, username := [97], email := List.replicate 133 101 }]) := by
  decide!

/-- Where the two slips do not show, the inserts and the select agree with
the specification: for every sequence of at most four rows with pairwise
distinct ids, usernames of at most 32 bytes and emails of at most 132 bytes,
inserted by `executeInsert` into a database opened on a new or empty file,
every insert returns `EXECUTE_SUCCESS`, and `executeSelect` then prints
exactly the inserted rows (id, username and email), each once, in ascending
order of id. -/
theorem selectAfterInserts_sorted (fresh : Nat → Page) (file : Option (List Nat))
    (rows : List Row) (hfresh : (fresh 0).length = PAGE_SIZE) (_hfile : file.getD [] = [])
    (hlen : rows.length ≤ 4) (hshort : ∀ r, r ∈ rows → r.Short)
    (hnodup : (rows.map Row.id).Nodup) :
    ∃ sorted : List Row, sorted.Perm rows ∧
      (sorted.map Row.id).Pairwise (fun a b => a < b) ∧
      selectAfterInserts fresh file rows =
        .ok (List.replicate rows.length ExecuteResult.EXECUTE_SUCCESS,
             sorted.map Row.printed) := by
  obtain ⟨node, hopen, hnl, hty, _, hcnt, _⟩ := dbOpen_eq fresh file hfresh
  have hT : 0 < (List.replicate TABLE_MAX_PAGES (none : Option Page)).length := by
    rw [List.length_replicate]; decide
  have hold0 : TableHolds
      { root_page_num := 0,
        pager := { file_descriptor := file.getD [], file_length := 0, num_pages := 1,
                   pages := (List.replicate TABLE_MAX_PAGES none).set 0 (some node) } } [] := by
    refine ⟨by simp, node, List.getElem?_set_self hT, hnl, hty, hcnt, ?_⟩
    intro i r hi
    simp at hi
  obtain ⟨table', final, hrun, hold', hshort', hsorted', hperm'⟩ :=
    executeInserts_of_leafRep fresh rows _ [] hold0 (fun x hx => absurd hx (List.not_mem_nil x))
      List.Pairwise.nil hshort hnodup (fun x _ h => absurd h (List.not_mem_nil _))
      (by simpa using hlen)
  obtain ⟨hpages', node', hslot', hrep'⟩ := hold'
  have hsel := executeSelect_of_leafRep fresh table' node' final hpages' hslot' hrep' hshort'
    hsorted'
  refine ⟨final, by simpa using hperm', hsorted', ?_⟩
  unfold selectAfterInserts
  rw [hopen]
  simp only [bind, Except.bind, hrun, hsel]
  rfl

theorem selectAfterInserts_sorted_witness :
    (zeroHeap 0).length = PAGE_SIZE ∧
      (∀ r, r ∈ [sampleRow 3 [99] [122], sampleRow 1 [97] [120], sampleRow 2 [98] [121]] →
        r.Short) ∧
      ∃ sorted : List Row,
        sorted.Perm [sampleRow 3 [99] [122], sampleRow 1 [97] [120], sampleRow 2 [98] [121]] ∧
        (sorted.map Row.id).Pairwise (fun a b => a < b) ∧
        selectAfterInserts zeroHeap none
            [sampleRow 3 [99] [122], sampleRow 1 [97] [120], sampleRow 2 [98] [121]] =
          .ok (List.replicate 3 ExecuteResult.EXECUTE_SUCCESS, sorted.map Row.printed) :=
  have h : (zeroHeap 0).length = PAGE_SIZE ∧
      (∀ r, r ∈ [sampleRow 3 [99] [122], sampleRow 1 [97] [120], sampleRow 2 [98] [121]] → r.Short) ∧
      ([sampleRow 3 [99] [122], sampleRow 1 [97] [120], sampleRow 2 [98] [121]].map Row.id).Nodup := by decide!
  ⟨h.1, h.2.1,
   selectAfterInserts_sorted zeroHeap none
     [sampleRow 3 [99] [122], sampleRow 1 [97] [120], sampleRow 2 [98] [121]]
     h.1 rfl (by decide) h.2.1 h.2.2⟩

/-! ## Claims C11, C12, C13: the layout constants -/

/-- C11 (the code departs from the claim). `LEAF_NODE_MAX_CELLS` evaluates to
4104 in the code, and that is what `printConstants` prints; the quotient
`(PAGE_SIZE - 14) / 297` of the claim is 13. -/
theorem LEAF_NODE_MAX_CELLS_value :
    LEAF_NODE_MAX_CELLS = 4104 ∧
      Output.constant "LEAF_NODE_MAX_CELLS" 4104 ∈ printConstants ∧
      PAGE_SIZE = 4096 ∧ LEAF_NODE_METADATA_SIZE = 14 ∧ LEAF_NODE_CELL_SIZE = 4 + ROW_SIZE ∧
      LEAF_NODE_CELL_SIZE = 297 ∧
      (PAGE_SIZE - LEAF_NODE_METADATA_SIZE) / LEAF_NODE_CELL_SIZE = 13 := by
  decide

/-- C12, as the claim states it, fails: `LEAF_NODE_RIGHT_SPLIT_COUNT` is not
the quotient rounded up. -/
theorem LEAF_NODE_RIGHT_SPLIT_COUNT_counterexample :
    LEAF_NODE_RIGHT_SPLIT_COUNT = 2052 ∧ (LEAF_NODE_MAX_CELLS + 1) % 2 = 1 ∧
      LEAF_NODE_RIGHT_SPLIT_COUNT ≠ (LEAF_NODE_MAX_CELLS + 1) / 2 + (LEAF_NODE_MAX_CELLS + 1) % 2 := by
  decide

/-- C12, amended. Where the two macros stand alone (the comparison with `i`
and the two assignments to `num_cells`), `LEAF_NODE_RIGHT_SPLIT_COUNT` is the
quotient `(LEAF_NODE_MAX_CELLS + 1) / 2` rounded down, 2052, and
`LEAF_NODE_LEFT_SPLIT_COUNT` is `LEAF_NODE_MAX_CELLS + 1` less that, 2053; the
two counts sum to `LEAF_NODE_MAX_CELLS + 1`. -/
theorem split_counts :
    LEAF_NODE_RIGHT_SPLIT_COUNT = (LEAF_NODE_MAX_CELLS + 1) / 2 ∧
      2 * LEAF_NODE_RIGHT_SPLIT_COUNT ≤ LEAF_NODE_MAX_CELLS + 1 ∧
      LEAF_NODE_MAX_CELLS + 1 < 2 * (LEAF_NODE_RIGHT_SPLIT_COUNT + 1) ∧
      LEAF_NODE_LEFT_SPLIT_COUNT = (LEAF_NODE_MAX_CELLS + 1) - LEAF_NODE_RIGHT_SPLIT_COUNT ∧
      LEAF_NODE_LEFT_SPLIT_COUNT + LEAF_NODE_RIGHT_SPLIT_COUNT = LEAF_NODE_MAX_CELLS + 1 ∧
      LEAF_NODE_RIGHT_SPLIT_COUNT = 2052 ∧ LEAF_NODE_LEFT_SPLIT_COUNT = 2053 := by
  decide

/-- C13 (the code departs from the claim). Cell `i` starts at byte
`4 * (LEAF_NODE_METADATA_SIZE + i * LEAF_NODE_CELL_SIZE)` of the page, which
is byte 56 and not byte 14 for cell 0; and for the cell index 4, below
`LEAF_NODE_MAX_CELLS`, neither the key can be loaded from nor a row be stored
to a page of `PAGE_SIZE` bytes. -/
theorem leafNodeCell_outside_page (page : Page) (row : Row) (hlen : page.length = PAGE_SIZE) :
    (∀ i, leafNodeCell i = 4 * (LEAF_NODE_METADATA_SIZE + i * LEAF_NODE_CELL_SIZE)) ∧
      leafNodeCell 0 = 56 ∧ LEAF_NODE_METADATA_SIZE + 0 * LEAF_NODE_CELL_SIZE = 14 ∧
      4 < LEAF_NODE_MAX_CELLS ∧
      loadU32 page (leafNodeKey 4) = .error Fault.undefinedBehavior ∧
      serializeRow row page (leafNodeValue 4) = .error Fault.undefinedBehavior := by
  have hP : PAGE_SIZE = 4096 := rfl
  refine ⟨fun i => rfl, by decide, by decide, by decide, ?_, ?_⟩
  · unfold loadU32 loadBytes
    rw [if_neg (by rw [leafNodeKey_eq, hlen, hP]; omega)]
    rfl
  · unfold serializeRow storeBytes
    rw [if_neg (by rw [leafNodeValue_eq, hlen, hP, encodeU32_length]; omega)]
    rfl

theorem leafNodeCell_outside_page_witness :
    (zeroBuffer PAGE_SIZE).length = PAGE_SIZE ∧
      loadU32 (zeroBuffer PAGE_SIZE) (leafNodeKey 4) = .error Fault.undefinedBehavior ∧
      serializeRow (sampleRow 1 [97] [98]) (zeroBuffer PAGE_SIZE) (leafNodeValue 4) =
        .error Fault.undefinedBehavior :=
  ⟨by decide!,
   (leafNodeCell_outside_page (zeroBuffer PAGE_SIZE) (sampleRow 1 [97] [98]) (by decide!)).2.2.2.2⟩

/-! ## Claim C17: a database on an empty file -/

/-- C17. For every database file of length 0 (or no file, which is created
empty), `dbOpen` returns a table with `root_page_num = 0` and `num_pages = 1`
whose page 0 reads back as a leaf (`NODE_LEAF`) with `is_root = true`,
`num_cells = 0` and `next_leaf = 0`. -/
theorem dbOpen_empty_file (fresh : Nat → Page) (file : Option (List Nat))
    (hfresh : (fresh 0).length = PAGE_SIZE) (_hfile : file.getD [] = []) :
    ∃ table, dbOpen fresh file = .ok table ∧ table.root_page_num = 0 ∧
      table.pager.num_pages = 1 ∧ table.pager.pages.length = TABLE_MAX_PAGES ∧
      getNodeType (table.page 0) = .ok NODE_LEAF ∧ isRootNode (table.page 0) = .ok true ∧
      loadU32 (table.page 0) leafNodeNumCells = .ok 0 ∧
      loadU32 (table.page 0) leafNodeNextLeaf = .ok 0 := by
  obtain ⟨node, hopen, _, hty, hroot, hcnt, hnext⟩ := dbOpen_eq fresh file hfresh
  have hT : 0 < (List.replicate TABLE_MAX_PAGES (none : Option Page)).length := by
    rw [List.length_replicate]; decide
  refine ⟨_, hopen, rfl, rfl, by simp, ?_⟩
  have hpage : Table.page
      { root_page_num := 0,
        pager := { file_descriptor := file.getD [], file_length := 0, num_pages := 1,
                   pages := (List.replicate TABLE_MAX_PAGES none).set 0 (some node) } } 0
      = node := by
    unfold Table.page
    simp only []
    rw [List.getElem?_set_self hT]
  rw [hpage]
  exact ⟨hty, hroot, hcnt, hnext⟩

theorem dbOpen_empty_file_witness :
    (zeroHeap 0).length = PAGE_SIZE ∧
      ∃ table, dbOpen zeroHeap (some []) = .ok table ∧ table.root_page_num = 0 ∧
        table.pager.num_pages = 1 ∧ table.pager.pages.length = TABLE_MAX_PAGES ∧
        getNodeType (table.page 0) = .ok NODE_LEAF ∧ isRootNode (table.page 0) = .ok true ∧
        loadU32 (table.page 0) leafNodeNumCells = .ok 0 ∧
        loadU32 (table.page 0) leafNodeNextLeaf = .ok 0 :=
  ⟨by decide!, dbOpen_empty_file zeroHeap (some []) (by decide!) rfl⟩

/-! ## Claim C18: flushing pages -/

/-- C18 (the code departs from the claim). After one insert into a new
database `pagerFlush` of page 0 leaves the file empty, and so does `dbClose`,
although `num_pages` is 1.  On a pager with page 1 loaded `pagerFlush` of
page 1 reads `PAGE_SIZE * PAGE_SIZE` bytes from the buffer of `PAGE_SIZE`
bytes.  `pagerFlush` of an empty slot exits. -/
theorem pagerFlush_writes_nothing :
    (sampleTable [sampleRow 1 [97] [98]]).pager.num_pages = 1 ∧
      (sampleTable [sampleRow 1 [97] [98]]).pager.file_descriptor = [] ∧
      ((sampleTable [sampleRow 1 [97] [98]]).page 0).length = PAGE_SIZE ∧
      pagerFlush (sampleTable [sampleRow 1 [97] [98]]).pager 0 =
        .ok (sampleTable [sampleRow 1 [97] [98]]).pager ∧
      dbClose (sampleTable [sampleRow 1 [97] [98]]) = .ok [] ∧
      (sampleTree.page 1).length = PAGE_SIZE ∧
      pagerFlush sampleTree.pager 1 = .error Fault.undefinedBehavior ∧
      pagerFlush (sampleTable [sampleRow 1 [97] [98]]).pager 1 = .error Fault.fatalExit := by
  decide!

/-! ## Claim C19: splitting a full leaf -/

theorem getNodeMaxKey_full_leaf (node : Page) (hlen : node.length = PAGE_SIZE)
    (hleaf : getNodeType node = .ok NODE_LEAF)
    (hfull : loadU32 node leafNodeNumCells = .ok LEAF_NODE_MAX_CELLS) :
    getNodeMaxKey node = .error Fault.undefinedBehavior := by
  have h1 : (LEAF_NODE_MAX_CELLS + U32 - 1) % U32 = 4103 := by decide
  have hP : PAGE_SIZE = 4096 := rfl
  unfold getNodeMaxKey
  simp only [hleaf, bind, Except.bind, hfull, h1]
  rw [if_neg (by decide), if_pos trivial]
  unfold loadU32 loadBytes
  rw [if_neg (by rw [leafNodeKey_eq, hlen, hP]; omega)]
  rfl

/-- C19 (the code departs from the claim). On a leaf page whose `num_cells`
field holds `LEAF_NODE_MAX_CELLS`, `splitLeafNodeAndInsert` leaves the page
buffer when it reads the greatest key (cell 4103).  And the slot the copy
loop computes for the logical cell `i` is `i % 4105 - 2052` in unsigned
arithmetic, not `i` modulo `LEAF_NODE_LEFT_SPLIT_COUNT`. -/
theorem splitLeafNodeAndInsert_full_leaf (fresh : Nat → Page) (table : Table) (cursor : Cursor)
    (key : Nat) (value : Row) (node : Page)
    (hpages : table.pager.pages.length = TABLE_MAX_PAGES)
    (hslot : table.pager.pages[cursor.page_num]? = some (some node))
    (hlen : node.length = PAGE_SIZE) (hleaf : getNodeType node = .ok NODE_LEAF)
    (hfull : loadU32 node leafNodeNumCells = .ok LEAF_NODE_MAX_CELLS) :
    splitLeafNodeAndInsert fresh table cursor key value = .error Fault.undefinedBehavior ∧
      splitIndexWithinNode 0 = 4294965244 ∧ 0 % LEAF_NODE_LEFT_SPLIT_COUNT = 0 ∧
      splitIndexWithinNode LEAF_NODE_MAX_CELLS = 2052 ∧
      LEAF_NODE_MAX_CELLS % LEAF_NODE_LEFT_SPLIT_COUNT = 2051 := by
  refine ⟨?_, by decide, by decide, by decide, by decide⟩
  have hnum : cursor.page_num ≤ TABLE_MAX_PAGES := by
    have := slot_lt_of_loaded hslot
    omega
  unfold splitLeafNodeAndInsert
  dsimp only
  rw [getPage_loaded fresh _ _ _ hslot hnum]
  simp only [bind, Except.bind]
  rw [buffer_loaded _ _ _ hslot]
  simp only [getNodeMaxKey_full_leaf node hlen hleaf hfull]

theorem splitLeafNodeAndInsert_full_leaf_witness :
    sampleFullLeaf.pager.pages.length = TABLE_MAX_PAGES ∧
      (sampleFullLeaf.page 0).length = PAGE_SIZE ∧
      getNodeType (sampleFullLeaf.page 0) = .ok NODE_LEAF ∧
      loadU32 (sampleFullLeaf.page 0) leafNodeNumCells = .ok LEAF_NODE_MAX_CELLS ∧
      splitLeafNodeAndInsert zeroHeap sampleFullLeaf
          { page_num := 0, cell_num := 0, end_of_table := none } 9 (sampleRow 9 [97] [98]) =
        .error Fault.undefinedBehavior :=
  have h : sampleFullLeaf.pager.pages.length = TABLE_MAX_PAGES ∧
      (sampleFullLeaf.page 0).length = PAGE_SIZE ∧
      getNodeType (sampleFullLeaf.page 0) = .ok NODE_LEAF ∧
      loadU32 (sampleFullLeaf.page 0) leafNodeNumCells = .ok LEAF_NODE_MAX_CELLS ∧
      sampleFullLeaf.pager.pages[0]? = some (some (sampleFullLeaf.page 0)) := by decide!
  ⟨h.1, h.2.1, h.2.2.1, h.2.2.2.1,
   (splitLeafNodeAndInsert_full_leaf zeroHeap sampleFullLeaf
      { page_num := 0, cell_num := 0, end_of_table := none } 9 (sampleRow 9 [97] [98])
      (sampleFullLeaf.page 0) h.1 h.2.2.2.2 h.2.1 h.2.2.1 h.2.2.2.1).1⟩

/-! ## Claim C14: `prepareInsert` -/

theorem strcpy_string (dest src : List Nat) (hs : ∀ c, c ∈ src → c ≠ 0) :
    (strcpy dest src).takeWhile (fun b => b ≠ 0) = src := by
  unfold strcpy
  rw [List.append_assoc, List.takeWhile_append_of_pos (by
    intro c hc
    simpa using hs c hc)]
  simp

/-- C14, as the claim states it, fails for ids that are not values of `int`.
On the line `insert 2147483648 a b` `prepareInsert` returns
`PREPARE_NEGATIVE_ID`, although the id is not negative and neither string is
too long; on the line `insert 4294967296 a b` it returns `PREPARE_SUCCESS`
with the id 0 in `row_to_insert`. -/
theorem prepareInsert_lengths_counterexample :
    (prepareInsert (insertLine [50, 49, 52, 55, 52, 56, 51, 54, 52, 56] [97] [98])
        (insertStatement (sampleRow 9 [] []))).map (fun r => r.1) =
      .ok PrepareResult.PREPARE_NEGATIVE_ID ∧
    (prepareInsert (insertLine [52, 50, 57, 52, 57, 54, 55, 50, 57, 54] [97] [98])
        (insertStatement (sampleRow 9 [] []))).map (fun r => (r.1, r.2.row_to_insert.id)) =
      .ok (PrepareResult.PREPARE_SUCCESS, 0) := by
  decide

/-- C14, amended. For every line `insert <id> <username> <email>` (single
spaces, the id the decimal text of a non-negative number below 2^31, that is
of a value of `int`, username and email non-empty texts without space or
NUL), `prepareInsert` returns `PREPARE_STRING_TOO_LONG` if and only if the
username is longer than 32 bytes or the email longer than 255 bytes;
otherwise it returns `PREPARE_SUCCESS` and `row_to_insert` holds that id,
that username and that email. -/
theorem prepareInsert_lengths (statement : Statement) (n : Nat) (username email : List Nat)
    (hn : n < 2147483648) (hu : username ≠ []) (he : email ≠ [])
    (hus : ∀ c, c ∈ username → c ≠ 32 ∧ c ≠ 0) (hes : ∀ c, c ∈ email → c ≠ 32 ∧ c ≠ 0) :
    ∃ result prepared,
      prepareInsert (insertLine (decimalString n) username email) statement =
        .ok (result, prepared) ∧
      (result = PrepareResult.PREPARE_STRING_TOO_LONG ↔
        username.length > 32 ∨ email.length > 255) ∧
      (¬ (username.length > 32 ∨ email.length > 255) →
        result = PrepareResult.PREPARE_SUCCESS ∧
        prepared.type = StatementType.STATEMENT_INSERT ∧
        prepared.row_to_insert.id = n ∧
        prepared.row_to_insert.usernameString = username ∧
        prepared.row_to_insert.emailString = email) := by
  have hline : insertLine (decimalString n) username email =
      insertKeyword ++ 32 :: (decimalString n ++ 32 :: (username ++ 32 :: email)) := by
    unfold insertLine
    simp
  have hkw : ∀ c, c ∈ insertKeyword → c ≠ 32 := by decide
  have hid : ∀ c, c ∈ decimalString n → c ≠ 32 := by
    intro c hc
    have := decimalString_digits n c hc
    omega
  have t1 := strtok_token insertKeyword (decimalString n ++ 32 :: (username ++ 32 :: email))
    (by decide) hkw
  have t2 := strtok_token (decimalString n) (username ++ 32 :: email)
    (decimalString_ne_nil n) hid
  have t3 := strtok_token username email hu (fun c hc => (hus c hc).1)
  have t4 := strtok_last email he (fun c hc => (hes c hc).1)
  have hc1 : COLUMN_USERNAME_SIZE = 32 := rfl
  have hc2 : COLUMN_EMAIL_SIZE = 255 := rfl
  unfold prepareInsert
  simp only [hline, t1, t2, t3, t4, atoi_decimalString n hn, bind, Except.bind, hc1, hc2]
  rw [if_neg (by omega)]
  by_cases h1 : username.length > 32
  · rw [if_pos h1]
    exact ⟨_, _, rfl, by simp [h1], fun h => absurd (Or.inl h1) h⟩
  · rw [if_neg h1]
    by_cases h2 : email.length > 255
    · rw [if_pos h2]
      exact ⟨_, _, rfl, by simp [h2], fun h => absurd (Or.inr h2) h⟩
    · rw [if_neg h2]
      refine ⟨_, _, rfl, by simp [h1, h2], fun _ => ⟨rfl, rfl, ?_, ?_, ?_⟩⟩
      · simp
      · exact strcpy_string _ _ (fun c hc => (hus c hc).2)
      · exact strcpy_string _ _ (fun c hc => (hes c hc).2)

theorem prepareInsert_lengths_witness :
    (0 : Nat) < 2147483648 ∧ List.replicate 32 97 ≠ [] ∧ List.replicate 255 98 ≠ [] ∧
      ∃ result prepared,
        prepareInsert (insertLine (decimalString 0) (List.replicate 32 97) (List.replicate 255 98))
            (insertStatement (sampleRow 9 [] [])) = .ok (result, prepared) ∧
        (result = PrepareResult.PREPARE_STRING_TOO_LONG ↔
          (List.replicate 32 97).length > 32 ∨ (List.replicate 255 98).length > 255) ∧
        (¬ ((List.replicate 32 97).length > 32 ∨ (List.replicate 255 98).length > 255) →
          result = PrepareResult.PREPARE_SUCCESS ∧
          prepared.type = StatementType.STATEMENT_INSERT ∧
          prepared.row_to_insert.id = 0 ∧
          prepared.row_to_insert.usernameString = List.replicate 32 97 ∧
          prepared.row_to_insert.emailString = List.replicate 255 98) :=
  ⟨by decide, by decide, by decide,
   prepareInsert_lengths (insertStatement (sampleRow 9 [] [])) 0 (List.replicate 32 97)
     (List.replicate 255 98) (by decide) (by decide) (by decide)
     (fun c hc => by rw [List.eq_of_mem_replicate hc]; decide)
     (fun c hc => by rw [List.eq_of_mem_replicate hc]; decide)⟩

/-! ## Claim C15: a negative id at the prompt -/

/-- C15 (the code departs from the claim). On the line `insert -1 a b`
`prepareStatement` returns `PREPARE_NEGATIVE_ID` and leaves the row of the
statement as it was; the iteration of `main` prints the message and goes on
to `executeStatement`: with the row `(7, x, y)` in the local variable, that
row is inserted into the new database and `Executed` is printed.  A line
with a username that is too long prints its message and leaves the table as
it is. -/
theorem replStep_negative_id_executes :
    prepareStatement (insertLine [45, 49] [97] [98])
        { type := StatementType.STATEMENT_SELECT, row_to_insert := sampleRow 7 [120] [121] } =
      .ok (PrepareResult.PREPARE_NEGATIVE_ID, insertStatement (sampleRow 7 [120] [121])) ∧
    replStep zeroHeap
        { type := StatementType.STATEMENT_SELECT, row_to_insert := sampleRow 7 [120] [121] }
        (insertLine [45, 49] [97] [98]) (sampleTable []) =
      .ok (ReplResult.continues [Output.prompt, Output.negativeId, Output.executed]
        (sampleTable [sampleRow 7 [120] [121]])) ∧
    sampleTable [sampleRow 7 [120] [121]] ≠ sampleTable [] ∧
    replStep zeroHeap
        { type := StatementType.STATEMENT_SELECT, row_to_insert := sampleRow 7 [120] [121] }
        (insertLine [49] (List.replicate 33 97) [98]) (sampleTable []) =
      .ok (ReplResult.continues [Output.prompt, Output.stringTooLong] (sampleTable [])) := by
  decide!

/-! ## Claim C20: the chain of leaves -/

/-- No call of `splitLeafNodeAndInsert` returns, whatever the table, the
cursor, the key and the row, as long as every loaded page and every new
buffer has `PAGE_SIZE` bytes: after the writes of the parent and of the two
`next_leaf` fields the copy loop addresses a cell outside the page in its
first iteration. -/
theorem splitLeafNodeAndInsert_never_returns (fresh : Nat → Page) (table : Table)
    (cursor : Cursor) (key : Nat) (value : Row) (hs : PagesSized table.pager)
    (hfresh : ∀ i, (fresh i).length = PAGE_SIZE) :
    ∃ fault, splitLeafNodeAndInsert fresh table cursor key value = .error fault := by
  cases h : splitLeafNodeAndInsert fresh table cursor key value with
  | error e => exact ⟨e, rfl⟩
  | ok result => exact absurd h (splitLeafNodeAndInsert_not_ok fresh table cursor key value hs hfresh result)

/-- C20. Take any run of `executeInsert` calls that all return, on the table
`dbOpen` makes (the buffers `malloc` returns hold `PAGE_SIZE` bytes, the rows
are C rows).  Then there is a list `keys`, strictly ascending, that holds
exactly the ids of the statements, one key for each `EXECUTE_SUCCESS`, such
that: `tableStart` puts its cursor on a leaf, the leftmost; following
`next_leaf` from that leaf until it is 0 returns a chain that visits no page
twice, visits every loaded page, each a leaf, and whose keys, concatenated,
are `keys` (the chain is the root alone).  And when the table is not empty,
for a cursor on the root: `splitLeafNodeAndInsert` is the statements before
its copy loop followed by the rest, and these statements return with
`parent(N) = parent(O)`, `next_leaf(N)` = the old `next_leaf(O)` and
`next_leaf(O) = N` for the old page `O` and the new page `N`, after which the
chain goes from `O` to `N` and ends, with the same keys. -/
theorem leafChain_of_inserts (fresh : Nat → Page) (file : Option (List Nat))
    (statements : List Statement) (results : List ExecuteResult) (table : Table)
    (hfresh : ∀ n, (fresh n).length = PAGE_SIZE ∧ ∀ b, b ∈ fresh n → b < 256)
    (hrows : ∀ s, s ∈ statements → s.row_to_insert.WF)
    (hrun : (dbOpen fresh file >>= executeInserts fresh statements) = .ok (results, table)) :
    ∃ keys : List Nat,
      keys.Pairwise (fun a b => a < b) ∧
      (∀ k, k ∈ keys ↔ ∃ s, s ∈ statements ∧ s.row_to_insert.id = k) ∧
      keys.length = results.count ExecuteResult.EXECUTE_SUCCESS ∧
      (∃ cursor chain, tableStart fresh table = .ok (cursor, table) ∧
        leafChain table.pager TABLE_MAX_PAGES cursor.page_num = .ok chain ∧
        (chain.map Prod.fst).Nodup ∧
        (∀ i page, table.pager.pages[i]? = some (some page) →
          i ∈ chain.map Prod.fst ∧ getNodeType page = .ok NODE_LEAF) ∧
        (chain.map Prod.snd).flatten = keys ∧
        chain = [(table.root_page_num, keys)]) ∧
      (keys ≠ [] → ∀ (cursor : Cursor) (key : Nat) (value : Row),
        cursor.page_num = table.root_page_num →
        splitLeafNodeAndInsert fresh table cursor key value =
          (splitLeafNodeLinks fresh table cursor >>= fun links =>
            splitLeafNodeMove fresh table cursor key value links.1 links.2.1 links.2.2) ∧
        ∃ pager oldMax newPageNum parent nextLeaf,
          splitLeafNodeLinks fresh table cursor = .ok (pager, oldMax, newPageNum) ∧
          table.pager.readU32 cursor.page_num nodeParent = .ok parent ∧
          table.pager.readU32 cursor.page_num leafNodeNextLeaf = .ok nextLeaf ∧
          pager.readU32 newPageNum nodeParent = .ok parent ∧
          pager.readU32 cursor.page_num nodeParent = .ok parent ∧
          pager.readU32 newPageNum leafNodeNextLeaf = .ok nextLeaf ∧
          pager.readU32 cursor.page_num leafNodeNextLeaf = .ok newPageNum ∧
          leafChain pager TABLE_MAX_PAGES cursor.page_num =
            .ok [(cursor.page_num, keys), (newPageNum, [])]) := by
  obtain ⟨table0, hopen, hinv0⟩ := dbOpen_singleLeaf fresh file (hfresh 0).1 (hfresh 0).2
  rw [hopen] at hrun
  simp only [bind, Except.bind] at hrun
  obtain ⟨keys, hinv, hlen, hmem⟩ :=
    executeInserts_singleLeaf fresh statements table0 [] results table hinv0 hrows hrun
  have hchain := leafChain_singleLeaf table keys hinv
  have hlinks := fun (cursor : Cursor) (hne : keys ≠ []) =>
    splitLeafNodeLinks_singleLeaf fresh table keys cursor hinv hne (hfresh 1).1
  obtain ⟨hroot, hpages, hfile, hnp, hrest, hsorted, node, hslot0, htype, hisroot, hnext,
    hparent, hleaf⟩ := hinv
  have hslot : table.pager.pages[table.root_page_num]? = some (some node) := by
    rw [hroot]; exact hslot0
  refine ⟨keys, hsorted, ?_, ?_, ?_, ?_⟩
  · intro k
    rw [hmem k]
    simp
  · rw [hlen]
    simp
  · refine ⟨_, [(0, keys)],
      tableStart_of_sorted fresh table node keys hpages hslot htype hleaf hsorted, ?_, ?_, ?_, ?_,
      ?_⟩
    · show leafChain table.pager TABLE_MAX_PAGES table.root_page_num = .ok [(0, keys)]
      rw [hroot]
      exact hchain
    · simp
    · intro i page hi
      have hlt : i < TABLE_MAX_PAGES := by
        have := slot_lt_of_loaded hi
        rwa [hpages] at this
      have hi0 : i = 0 := by
        by_contra hne
        rw [hrest i hne hlt] at hi
        cases hi
      subst hi0
      rw [hslot0] at hi
      have hpage : node = page := Option.some.inj (Option.some.inj hi)
      subst hpage
      exact ⟨by simp, htype⟩
    · simp
    · rw [hroot]
  · intro hne cursor key value hcur
    refine ⟨splitLeafNodeAndInsert_eq fresh table cursor key value, ?_⟩
    have hcur0 : cursor.page_num = 0 := hcur.trans hroot
    obtain ⟨pager, oldMax, parent, h1, h2, h3, h4, h5, h6, h7, h8⟩ := hlinks cursor hne hcur0
    rw [hcur0]
    exact ⟨pager, oldMax, 1, parent, 0, h1, h2, h3, h4, h5, h6, h7, h8⟩

theorem leafChain_of_inserts_witness :
    (dbOpen zeroHeap none >>= executeInserts zeroHeap
        [insertStatement (sampleRow 2 [97] [98]), insertStatement (sampleRow 1 [99] [100]),
          insertStatement (sampleRow 2 [101] [102])]) =
      .ok ([ExecuteResult.EXECUTE_SUCCESS, ExecuteResult.EXECUTE_SUCCESS,
          ExecuteResult.EXECUTE_DUPLICATE_KEY],
        sampleTable [sampleRow 2 [97] [98], sampleRow 1 [99] [100]]) ∧
      ∃ keys : List Nat,
        keys.Pairwise (fun a b => a < b) ∧ keys.length = 2 ∧
        (∃ cursor chain,
          tableStart zeroHeap (sampleTable [sampleRow 2 [97] [98], sampleRow 1 [99] [100]]) =
            .ok (cursor, sampleTable [sampleRow 2 [97] [98], sampleRow 1 [99] [100]]) ∧
          leafChain (sampleTable [sampleRow 2 [97] [98], sampleRow 1 [99] [100]]).pager
            TABLE_MAX_PAGES cursor.page_num = .ok chain ∧
          (chain.map Prod.snd).flatten = keys) ∧
        ∃ pager oldMax newPageNum parent nextLeaf,
          splitLeafNodeLinks zeroHeap (sampleTable [sampleRow 2 [97] [98], sampleRow 1 [99] [100]])
            { page_num := 0, cell_num := 1, end_of_table := none } =
              .ok (pager, oldMax, newPageNum) ∧
          pager.readU32 newPageNum nodeParent = .ok parent ∧
          pager.readU32 0 nodeParent = .ok parent ∧
          (sampleTable [sampleRow 2 [97] [98], sampleRow 1 [99] [100]]).pager.readU32 0
            leafNodeNextLeaf = .ok nextLeaf ∧
          pager.readU32 newPageNum leafNodeNextLeaf = .ok nextLeaf ∧
          pager.readU32 0 leafNodeNextLeaf = .ok newPageNum ∧
          leafChain pager TABLE_MAX_PAGES 0 = .ok [(0, keys), (newPageNum, [])] := by
  have h : ((dbOpen zeroHeap none >>= executeInserts zeroHeap
        [insertStatement (sampleRow 2 [97] [98]), insertStatement (sampleRow 1 [99] [100]),
          insertStatement (sampleRow 2 [101] [102])]) =
      .ok ([ExecuteResult.EXECUTE_SUCCESS, ExecuteResult.EXECUTE_SUCCESS,
          ExecuteResult.EXECUTE_DUPLICATE_KEY],
        sampleTable [sampleRow 2 [97] [98], sampleRow 1 [99] [100]])) ∧
      (∀ s, s ∈ [insertStatement (sampleRow 2 [97] [98]),
          insertStatement (sampleRow 1 [99] [100]),
          insertStatement (sampleRow 2 [101] [102])] → s.row_to_insert.WF) ∧
      (sampleTable [sampleRow 2 [97] [98], sampleRow 1 [99] [100]]).root_page_num = 0 := by
    decide!
  obtain ⟨keys, h1, _, h3, ⟨cursor, chain, h4, h5, _, _, h6, _⟩, h7⟩ :=
    leafChain_of_inserts zeroHeap none _ _ _
      (fun _ => ⟨List.length_replicate _ _, fun b hb => by
        rw [List.eq_of_mem_replicate hb]; decide⟩) h.2.1 h.1
  have hne : keys ≠ [] := by
    intro h0
    rw [h0] at h3
    exact absurd h3 (by decide)
  obtain ⟨_, pager, oldMax, newPageNum, parent, nextLeaf, g1, _, g3, g4, g5, g6, g7, g8⟩ :=
    h7 hne { page_num := 0, cell_num := 1, end_of_table := none } 3 (sampleRow 3 [97] [98])
      h.2.2.symm
  exact ⟨h.1, keys, h1, h3, ⟨cursor, chain, h4, h5, h6⟩,
    pager, oldMax, newPageNum, parent, nextLeaf, g1, g4, g5, g3, g6, g7, g8⟩

/-! ## Claim C16: adding a child to an internal node -/

/-- C16. On a parent page whose `n = num_keys` cells lie within the page,
with the child page and the parent's right child loaded (the right child in a
slot other than the parent's) and both with a greatest key,
`insertInternalNode` exits fatally exactly when
`n ≥ INTERNAL_NODE_MAX_CELLS = 3`; for `n < 3` it returns and the parent's
`num_keys` is `n + 1`. -/
theorem insertInternalNode_fatal_iff (fresh : Nat → Page) (table : Table)
    (parentPageNum childPageNum : Nat) (parent child right : Page) (n k R kr : Nat)
    (hpages : table.pager.pages.length = TABLE_MAX_PAGES)
    (hparent : table.pager.pages[parentPageNum]? = some (some parent))
    (hlen : parent.length = PAGE_SIZE)
    (hchild : table.pager.pages[childPageNum]? = some (some child))
    (hk : getNodeMaxKey child = .ok k)
    (hn : loadU32 parent internalNodeNumKeys = .ok n)
    (hcells : internalNodeCell n ≤ PAGE_SIZE)
    (hR : loadU32 parent internalNodeRightChild = .ok R)
    (hright : table.pager.pages[R]? = some (some right))
    (hne : R ≠ parentPageNum)
    (hkr : getNodeMaxKey right = .ok kr) :
    (insertInternalNode fresh table parentPageNum childPageNum = .error Fault.fatalExit ↔
        n ≥ INTERNAL_NODE_MAX_CELLS) ∧
      INTERNAL_NODE_MAX_CELLS = 3 ∧
      (n < INTERNAL_NODE_MAX_CELLS →
        ∃ table', insertInternalNode fresh table parentPageNum childPageNum = .ok table' ∧
          table'.pager.readU32 parentPageNum internalNodeNumKeys = .ok (n + 1)) := by
  obtain ⟨hA, hB⟩ := insertInternalNode_spec fresh table parentPageNum childPageNum parent child
    right n k R kr hpages hparent hlen hchild hk hn hcells hR hright hne hkr
  refine ⟨⟨fun h => ?_, hA⟩, rfl, hB⟩
  by_contra hlt
  obtain ⟨table', hok, _⟩ := hB (by omega)
  rw [hok] at h
  cases h

theorem insertInternalNode_fatal_iff_witness :
    loadU32 (sampleTreeWithLeaf.page 0) internalNodeNumKeys = .ok 1 ∧
      getNodeMaxKey (sampleTreeWithLeaf.page 3) = .ok 4 ∧
      ∃ table', insertInternalNode zeroHeap sampleTreeWithLeaf 0 3 = .ok table' ∧
        table'.pager.readU32 0 internalNodeNumKeys = .ok 2 :=
  have h : sampleTreeWithLeaf.pager.pages.length = TABLE_MAX_PAGES ∧
      sampleTreeWithLeaf.pager.pages[0]? = some (some (sampleTreeWithLeaf.page 0)) ∧
      (sampleTreeWithLeaf.page 0).length = PAGE_SIZE ∧
      sampleTreeWithLeaf.pager.pages[3]? = some (some (sampleTreeWithLeaf.page 3)) ∧
      getNodeMaxKey (sampleTreeWithLeaf.page 3) = .ok 4 ∧
      loadU32 (sampleTreeWithLeaf.page 0) internalNodeNumKeys = .ok 1 ∧
      internalNodeCell 1 ≤ PAGE_SIZE ∧
      loadU32 (sampleTreeWithLeaf.page 0) internalNodeRightChild = .ok 2 ∧
      sampleTreeWithLeaf.pager.pages[2]? = some (some (sampleTreeWithLeaf.page 2)) ∧
      getNodeMaxKey (sampleTreeWithLeaf.page 2) = .ok 7 := by decide!
  ⟨h.2.2.2.2.2.1, h.2.2.2.2.1,
   (insertInternalNode_fatal_iff zeroHeap sampleTreeWithLeaf 0 3 (sampleTreeWithLeaf.page 0)
      (sampleTreeWithLeaf.page 3) (sampleTreeWithLeaf.page 2) 1 4 2 7
      h.1 h.2.1 h.2.2.1 h.2.2.2.1 h.2.2.2.2.1 h.2.2.2.2.2.1 h.2.2.2.2.2.2.1 h.2.2.2.2.2.2.2.1 h.2.2.2.2.2.2.2.2.1
      (by decide) h.2.2.2.2.2.2.2.2.2).2.2 (by decide)⟩

/-! ## Claim C23: the child index in an internal node -/

/-- C23. For an internal node whose `num_keys` keys are in ascending order and
every key `k`, `internalNodeFindChild` returns an index that is at most
`num_keys`, below which every key is less than `k` and from which on every key
is at least `k`: the smallest index with `key[i] >= k`, or `num_keys` when
every key is less than `k`; and `internalNodeChild` at `num_keys` is the right
child. -/
theorem internalNodeFindChild_sorted (node : Page) (keys : List Nat) (key : Nat)
    (hnode : InternalKeys node keys) (hsorted : keys.Pairwise (fun a b => a ≤ b)) :
    ∃ index, internalNodeFindChild node key = .ok index ∧ index ≤ keys.length ∧
      (∀ i (h : i < keys.length), i < index → keys[i] < key) ∧
      (∀ i (h : i < keys.length), index ≤ i → key ≤ keys[i]) ∧
      ((∀ k, k ∈ keys → k < key) → index = keys.length) ∧
      internalNodeChild node keys.length = .ok internalNodeRightChild := by
  obtain ⟨index, hfind, hle, hlow, hhigh⟩ := internalNodeFindChild_of_sorted node keys key hnode hsorted
  refine ⟨index, hfind, hle, hlow, hhigh, ?_, ?_⟩
  · intro hall
    by_contra hne
    have hlt : index < keys.length := by omega
    have h1 := hhigh index hlt (le_refl _)
    have h2 := hall keys[index] (List.getElem_mem _)
    omega
  · unfold internalNodeChild
    rw [hnode.2.1]
    simp only [bind, Except.bind]
    rw [if_neg (by omega), if_pos trivial]
    rfl

theorem internalNodeFindChild_sorted_witness :
    InternalKeys (sampleTree.page 0) [2] ∧
      internalNodeFindChild (sampleTree.page 0) 1 = .ok 0 ∧
      internalNodeFindChild (sampleTree.page 0) 2 = .ok 0 ∧
      internalNodeFindChild (sampleTree.page 0) 7 = .ok 1 ∧
      ∃ index, internalNodeFindChild (sampleTree.page 0) 7 = .ok index ∧ index ≤ [2].length ∧
        (∀ i (h : i < [2].length), i < index → [2][i] < 7) ∧
        (∀ i (h : i < [2].length), index ≤ i → 7 ≤ [2][i]) ∧
        ((∀ k, k ∈ [2] → k < 7) → index = [2].length) ∧
        internalNodeChild (sampleTree.page 0) [2].length = .ok internalNodeRightChild :=
  have h : InternalKeys (sampleTree.page 0) [2] ∧
      internalNodeFindChild (sampleTree.page 0) 1 = .ok 0 ∧
      internalNodeFindChild (sampleTree.page 0) 2 = .ok 0 ∧
      internalNodeFindChild (sampleTree.page 0) 7 = .ok 1 := by decide!
  ⟨h.1, h.2.1, h.2.2.1, h.2.2.2,
   internalNodeFindChild_sorted (sampleTree.page 0) [2] 7 h.1 (by decide)⟩

/-! ## Claim C24: scanning the root leaf -/

/-- C24. On a table whose root is a leaf with `n` cells in strictly ascending
key order, `tableStart` returns the cursor at cell 0 with
`end_of_table = (n = 0)`; `incrementCursor` at a cell `c < n` moves to cell
`c + 1` and sets `end_of_table` exactly when `c + 1 = n`, whatever `next_leaf`
holds; and the scan visits the cells `0, 1, ..., n - 1` in this order and
leaves the table as it is. -/
theorem scanCells_root_leaf (fresh : Nat → Page) (table : Table) (node : Page)
    (keys : List Nat)
    (hpages : table.pager.pages.length = TABLE_MAX_PAGES)
    (hslot : table.pager.pages[table.root_page_num]? = some (some node))
    (htype : getNodeType node = .ok NODE_LEAF)
    (hleaf : LeafKeys node keys) (hsorted : keys.Pairwise (fun a b => a < b)) :
    tableStart fresh table =
        .ok ({ page_num := table.root_page_num, cell_num := 0,
               end_of_table := some (decide (keys.length = 0)) }, table) ∧
      (∀ c flag, c < keys.length →
        incrementCursor fresh table
            { page_num := table.root_page_num, cell_num := c, end_of_table := flag } =
          .ok ({ page_num := table.root_page_num, cell_num := c + 1,
                 end_of_table := if c + 1 = keys.length then some true else flag }, table)) ∧
      scanCells fresh table = .ok (List.range keys.length, table) := by
  have hn4 := hleaf.length_le
  have hU : U32 = 4294967296 := rfl
  have hstart := tableStart_of_sorted fresh table node keys hpages hslot htype hleaf hsorted
  refine ⟨hstart, ?_, ?_⟩
  · intro c flag hc
    rw [incrementCursor_loaded fresh table _ node keys.length hpages hslot hleaf.2.1]
    have hmod : (c + 1) % U32 = c + 1 := Nat.mod_eq_of_lt (by omega)
    simp only [hmod]
    by_cases h : c + 1 = keys.length
    · rw [if_pos (by omega), if_pos h]
    · rw [if_neg (by omega), if_neg h]
  · unfold scanCells
    rw [hstart]
    simp only [bind, Except.bind]
    have hd : decide (keys.length = 0) = decide (keys.length ≤ 0) := by
      by_cases h : keys.length = 0 <;> simp [h]
    rw [hd, scanLoop_of_leaf fresh table node keys.length hpages hslot hleaf.2.1 (by omega) U32 0 []
      (Nat.zero_le _) (by omega)]
    rw [List.nil_append, Nat.sub_zero, List.range_eq_range']

theorem scanCells_root_leaf_witness :
    LeafKeys ((sampleTable [sampleRow 5 [97] [98], sampleRow 3 [97] [98]]).page 0) [3, 5] ∧
      scanCells zeroHeap (sampleTable [sampleRow 5 [97] [98], sampleRow 3 [97] [98]]) =
        .ok (List.range [3, 5].length, sampleTable [sampleRow 5 [97] [98], sampleRow 3 [97] [98]]) :=
  have h : LeafKeys ((sampleTable [sampleRow 5 [97] [98], sampleRow 3 [97] [98]]).page 0) [3, 5] ∧
      (sampleTable [sampleRow 5 [97] [98], sampleRow 3 [97] [98]]).pager.pages.length = TABLE_MAX_PAGES ∧
      (sampleTable [sampleRow 5 [97] [98], sampleRow 3 [97] [98]]).pager.pages[(sampleTable [sampleRow 5 [97] [98], sampleRow 3 [97] [98]]).root_page_num]? = some (some ((sampleTable [sampleRow 5 [97] [98], sampleRow 3 [97] [98]]).page 0)) ∧
      getNodeType ((sampleTable [sampleRow 5 [97] [98], sampleRow 3 [97] [98]]).page 0) = .ok NODE_LEAF := by decide!
  ⟨h.1,
   (scanCells_root_leaf zeroHeap (sampleTable [sampleRow 5 [97] [98], sampleRow 3 [97] [98]])
      ((sampleTable [sampleRow 5 [97] [98], sampleRow 3 [97] [98]]).page 0) [3, 5]
      h.2.1 h.2.2.1 h.2.2.2 h.1 (by decide)).2.2⟩

/-! ## Claim C26: the fields of a node do not overlap -/

/-- C26. Two different fields of a leaf page (node type, is_root, parent,
num_cells, next_leaf, the key and the serialized row of any cell), or of an
internal page (node type, is_root, parent, num_keys, right_child, the child
and the key of any cell), address disjoint byte ranges; hence after a write
of one field through its accessor every other field of that node reads the
same value as before. -/
theorem node_fields_independent (f g : NodeField) (hne : f ≠ g)
    (hkind : (f.ofLeaf = true ∧ g.ofLeaf = true) ∨ (f.ofInternal = true ∧ g.ofInternal = true)) :
    (f.offset + f.size ≤ g.offset ∨ g.offset + g.size ≤ f.offset) ∧
      ∀ (node node' : Page) (value : Nat) (row : Row), row.WF →
        f.write node value row = .ok node' → g.read node' = g.read node := by
  have hd := NodeField.ranges_disjoint f g hne hkind
  refine ⟨hd, ?_⟩
  intro node node' value row hrow hw
  apply NodeField.read_congr
  intro o n h1 h2
  exact NodeField.write_frame f node node' value row hrow hw o n (by omega)

theorem node_fields_independent_witness :
    (NodeField.leafKey 0).write (zeroBuffer 60) 9 (sampleRow 9 [99] [100]) =
        .ok (zeroBuffer 56 ++ [9, 0, 0, 0]) ∧
      ((NodeField.leafKey 1).offset + (NodeField.leafKey 1).size ≤ (NodeField.leafValue 1).offset ∨
        (NodeField.leafValue 1).offset + (NodeField.leafValue 1).size ≤
          (NodeField.leafKey 1).offset) ∧
      ∀ (node node' : Page) (value : Nat) (row : Row), row.WF →
        (NodeField.leafKey 1).write node value row = .ok node' →
          (NodeField.leafValue 1).read node' = (NodeField.leafValue 1).read node :=
  ⟨by decide!, node_fields_independent (NodeField.leafKey 1) (NodeField.leafValue 1) (by decide)
    (by decide)⟩

/-! ## Claim C27: the cells `findLeafNode` and `insertLeafNode` touch -/

/-- C27, as the claim states it, fails.  The root page of
`sampleCountedLeaf` is a leaf page with `num_cells = 100`, below 2^31; the
search of `findLeafNode` for the key 7 starts at cell 50, whose key lies
outside the page. -/
theorem findLeafNode_cell_bounds_counterexample :
    (sampleCountedLeaf.page 0).length = PAGE_SIZE ∧
      getNodeType (sampleCountedLeaf.page 0) = .ok NODE_LEAF ∧
      loadU32 (sampleCountedLeaf.page 0) leafNodeNumCells = .ok 100 ∧
      (100 : Nat) < 2147483648 ∧
      loadU32 (sampleCountedLeaf.page 0) (leafNodeKey 50) = .error Fault.undefinedBehavior ∧
      findLeafNode zeroHeap sampleCountedLeaf 0 7 = .error Fault.undefinedBehavior := by
  decide!

/-- C27, amended. For a leaf with `n = num_cells < 2^31` whose cells below `n`
lie in the buffer, sorted or not, and every key: the search of `findLeafNode`
returns (with the fuel `n + 1`) a cursor with `cell_num = c <= n`, and its
result is the same on every buffer that has the same keys in the cells below
`n`, so it reads no other cell.  If moreover `n < LEAF_NODE_MAX_CELLS` and
cell `n` lies in the buffer, `insertLeafNode` at that cursor returns, sets
`num_cells` to `n + 1` and changes, besides `num_cells`, no byte before cell
`c` and no byte from cell `n + 1` on. -/
theorem findLeafNode_cell_bounds (fresh : Nat → Page) (table : Table) (pageNum key : Nat)
    (node : Page) (n : Nat) (value : Row)
    (hpages : table.pager.pages.length = TABLE_MAX_PAGES)
    (hslot : table.pager.pages[pageNum]? = some (some node))
    (hcount : loadU32 node leafNodeNumCells = .ok n) (hn : n < 2147483648)
    (hcells : ∀ i, i < n → leafNodeKey i + 4 ≤ node.length) :
    ∃ c, findLeafNode fresh table pageNum key =
        .ok ({ page_num := pageNum, cell_num := c, end_of_table := none }, table) ∧
      c ≤ n ∧
      (∀ other : Page,
        (∀ i, i < n → loadU32 other (leafNodeKey i) = loadU32 node (leafNodeKey i)) →
        findLeafNodeLoop other key (n + 1) 0 n = .ok c) ∧
      (n < LEAF_NODE_MAX_CELLS → value.WF →
        leafNodeValue n + (4 * EMAIL_OFFSET + EMAIL_SIZE) ≤ node.length →
        ∃ node', insertLeafNode fresh table
            { page_num := pageNum, cell_num := c, end_of_table := none } key value =
            .ok { table with pager := table.pager.setBuffer pageNum node' } ∧
          loadU32 node' leafNodeNumCells = .ok (n + 1) ∧
          (∀ o m, o + m ≤ leafNodeCell c →
            o + m ≤ leafNodeNumCells ∨ leafNodeNumCells + 4 ≤ o →
            loadBytes node' o m = loadBytes node o m) ∧
          (∀ o m, leafNodeCell (n + 1) ≤ o → loadBytes node' o m = loadBytes node o m)) := by
  have hU : U32 = 4294967296 := rfl
  have hnum : pageNum ≤ TABLE_MAX_PAGES := by
    have := slot_lt_of_loaded hslot
    omega
  obtain ⟨c, hloop, _, hcn⟩ := findLeafNodeLoop_isOk node key n hcells (by omega) (n + 1) 0 n
    (Nat.zero_le _) (le_refl _) (by omega)
  refine ⟨c, ?_, hcn, ?_, ?_⟩
  · unfold findLeafNode
    rw [getPage_loaded fresh _ _ _ hslot hnum]
    simp only [bind, Except.bind]
    rw [buffer_loaded _ _ _ hslot]
    simp only [hcount, hloop]
    rfl
  · intro other hsame
    rw [findLeafNodeLoop_congr node other key n hsame (by omega) (n + 1) 0 n (Nat.zero_le _)
      (le_refl _)]
    exact hloop
  · intro hmax hvalue hroom
    obtain ⟨node', h1, _, h3, h4, h5⟩ := insertLeafNode_frame fresh table
      { page_num := pageNum, cell_num := c, end_of_table := none } node n key value hpages hslot
      hcount hmax hcn hvalue hroom
    exact ⟨node', h1, h3, h4, h5⟩

theorem findLeafNode_cell_bounds_witness :
    loadU32 ((sampleTable [sampleRow 5 [97] [98], sampleRow 3 [97] [98]]).page 0)
        leafNodeNumCells = .ok 2 ∧
      findLeafNode zeroHeap (sampleTable [sampleRow 5 [97] [98], sampleRow 3 [97] [98]]) 0 4 =
        .ok ({ page_num := 0, cell_num := 1, end_of_table := none },
             sampleTable [sampleRow 5 [97] [98], sampleRow 3 [97] [98]]) ∧
      ∃ c, findLeafNode zeroHeap (sampleTable [sampleRow 5 [97] [98], sampleRow 3 [97] [98]]) 0 4 =
          .ok ({ page_num := 0, cell_num := c, end_of_table := none },
               sampleTable [sampleRow 5 [97] [98], sampleRow 3 [97] [98]]) ∧
        c ≤ 2 :=
  have h : loadU32 ((sampleTable [sampleRow 5 [97] [98], sampleRow 3 [97] [98]]).page 0) leafNodeNumCells = .ok 2 ∧
      findLeafNode zeroHeap (sampleTable [sampleRow 5 [97] [98], sampleRow 3 [97] [98]]) 0 4 =
        .ok ({ page_num := 0, cell_num := 1, end_of_table := none }, (sampleTable [sampleRow 5 [97] [98], sampleRow 3 [97] [98]])) ∧
      (sampleTable [sampleRow 5 [97] [98], sampleRow 3 [97] [98]]).pager.pages.length = TABLE_MAX_PAGES ∧
      (sampleTable [sampleRow 5 [97] [98], sampleRow 3 [97] [98]]).pager.pages[0]? = some (some ((sampleTable [sampleRow 5 [97] [98], sampleRow 3 [97] [98]]).page 0)) ∧
      ((sampleTable [sampleRow 5 [97] [98], sampleRow 3 [97] [98]]).page 0).length = 4096 := by decide!
  ⟨h.1, h.2.1,
   (findLeafNode_cell_bounds zeroHeap
      (sampleTable [sampleRow 5 [97] [98], sampleRow 3 [97] [98]]) 0 4
      ((sampleTable [sampleRow 5 [97] [98], sampleRow 3 [97] [98]]).page 0) 2
      (sampleRow 4 [97] [98]) h.2.2.1 h.2.2.2.1 h.1 (by decide)
      (fun i hi => by
        have h1 : leafNodeKey i = 56 + 1188 * i := leafNodeKey_eq i
        rw [h1, h.2.2.2.2]
        omega)).imp (fun _ h => ⟨h.1, h.2.1⟩)⟩

/-! ## Claim C25: inserting into a sorted leaf -/

/-- C25 (the code departs from the claim). A root leaf with four cells in
strictly ascending key order has `num_cells < LEAF_NODE_MAX_CELLS`, and for
every row with a new id `executeInsert` neither returns `EXECUTE_SUCCESS` nor
`EXECUTE_DUPLICATE_KEY`: the insert reaches `insertLeafNode`, which addresses
cell 4, outside the page. -/
theorem executeInsert_four_cells (fresh : Nat → Page) (table : Table) (node : Page)
    (keys : List Nat) (row : Row)
    (hpages : table.pager.pages.length = TABLE_MAX_PAGES)
    (hslot : table.pager.pages[table.root_page_num]? = some (some node))
    (htype : getNodeType node = .ok NODE_LEAF)
    (hleaf : LeafKeys node keys) (hsorted : keys.Pairwise (fun a b => a < b))
    (hfour : keys.length = 4) (hnew : row.id ∉ keys) :
    keys.length < LEAF_NODE_MAX_CELLS ∧
      executeInsert fresh (insertStatement row) table = .error Fault.undefinedBehavior := by
  refine ⟨by rw [hfour]; decide, ?_⟩
  have hnum : table.root_page_num ≤ TABLE_MAX_PAGES := by
    have := slot_lt_of_loaded hslot
    omega
  have hfind := (findLeafNode_of_sorted fresh table table.root_page_num node keys row.id hpages
    hslot hleaf hsorted).1
  generalize hcdef : keys.countP (fun x => decide (x < row.id)) = c at hfind
  have hc : c ≤ 4 := by
    rw [← hcdef, ← hfour]
    exact List.countP_le_length _
  have hcount : loadU32 node leafNodeNumCells = .ok 4 := by
    rw [← hfour]
    exact hleaf.2.1
  have hins := insertLeafNode_four_cells fresh table
    { page_num := table.root_page_num, cell_num := c, end_of_table := none } node row.id row
    hpages hslot hleaf.1 hcount hc
  unfold executeInsert insertStatement
  dsimp only
  rw [tableFind_leaf fresh table node _ hpages hslot htype, hfind]
  simp only [bind, Except.bind]
  rw [getPage_loaded fresh _ _ _ hslot hnum]
  simp only []
  rw [buffer_loaded _ _ _ hslot]
  simp only [hcount]
  by_cases hcl : c < 4
  · have hcl' : c < keys.length := by omega
    have hk := hleaf.2.2 c hcl'
    have hne : ¬ keys[c] = row.id := fun h => hnew (h ▸ List.getElem_mem _)
    simp only [if_pos hcl, hk, pure, Except.pure, hne, decide_False, hins]
    rfl
  · simp only [if_neg hcl, pure, Except.pure, hins]
    rfl

theorem executeInsert_four_cells_witness :
    LeafKeys
        ((sampleTable [sampleRow 2 [97] [98], sampleRow 4 [97] [98], sampleRow 6 [97] [98],
          sampleRow 8 [97] [98]]).page 0) [2, 4, 6, 8] ∧
      [2, 4, 6, 8].length < LEAF_NODE_MAX_CELLS ∧
      executeInsert zeroHeap (insertStatement (sampleRow 5 [97] [98]))
          (sampleTable [sampleRow 2 [97] [98], sampleRow 4 [97] [98], sampleRow 6 [97] [98],
            sampleRow 8 [97] [98]]) = .error Fault.undefinedBehavior :=
  have h : LeafKeys ((sampleTable [sampleRow 2 [97] [98], sampleRow 4 [97] [98], sampleRow 6 [97] [98],
          sampleRow 8 [97] [98]]).page 0) [2, 4, 6, 8] ∧
      (sampleTable [sampleRow 2 [97] [98], sampleRow 4 [97] [98], sampleRow 6 [97] [98],
          sampleRow 8 [97] [98]]).pager.pages.length = TABLE_MAX_PAGES ∧
      (sampleTable [sampleRow 2 [97] [98], sampleRow 4 [97] [98], sampleRow 6 [97] [98],
          sampleRow 8 [97] [98]]).pager.pages[(sampleTable [sampleRow 2 [97] [98], sampleRow 4 [97] [98], sampleRow 6 [97] [98],
          sampleRow 8 [97] [98]]).root_page_num]? =
        some (some ((sampleTable [sampleRow 2 [97] [98], sampleRow 4 [97] [98], sampleRow 6 [97] [98],
          sampleRow 8 [97] [98]]).page 0)) ∧
      getNodeType ((sampleTable [sampleRow 2 [97] [98], sampleRow 4 [97] [98], sampleRow 6 [97] [98],
          sampleRow 8 [97] [98]]).page 0) = .ok NODE_LEAF := by decide!
  ⟨h.1,
   executeInsert_four_cells zeroHeap
     (sampleTable [sampleRow 2 [97] [98], sampleRow 4 [97] [98], sampleRow 6 [97] [98],
       sampleRow 8 [97] [98]])
     ((sampleTable [sampleRow 2 [97] [98], sampleRow 4 [97] [98], sampleRow 6 [97] [98],
       sampleRow 8 [97] [98]]).page 0) [2, 4, 6, 8] (sampleRow 5 [97] [98])
     h.2.1 h.2.2.1 h.2.2.2 h.1 (by decide) (by decide) (by decide)⟩

/-! ## Claim C21: a new root -/

/-- C21. On a table whose root, page 0, is a leaf that is not empty, with the
right child `R` among the allocated pages and room for one more page,
`createNewRoot` returns; the page `L = num_pages`, different from 0 and `R`,
then holds the bytes of the old root from `num_cells` on, so the same cells,
with `is_root = false`; page 0 reads back as an internal node with
`is_root = true`, `num_keys = 1`, `child(0) = L`, `key(0)` the greatest key of
`L` and `right_child = R`; the parent of `L` and of `R` is 0; and no page
other than page 0 has `is_root = true`. -/
theorem createNewRoot_root_leaf (fresh : Nat → Page) (table : Table) (R : Nat)
    (root right : Page) (keys : List Nat)
    (hpages : table.pager.pages.length = TABLE_MAX_PAGES)
    (hroot0 : table.root_page_num = 0)
    (hslot : table.pager.pages[0]? = some (some root))
    (htype : getNodeType root = .ok NODE_LEAF)
    (hleaf : LeafKeys root keys) (hne : keys ≠ []) (hkeys : ∀ k, k ∈ keys → k < U32)
    (hR : R < table.pager.num_pages)
    (hright : table.pager.pages[R]? = some (some right)) (hrlen : right.length = PAGE_SIZE)
    (hnum : table.pager.num_pages < TABLE_MAX_PAGES)
    (hfree : table.pager.pages[table.pager.num_pages]? = some none)
    (hfile : table.pager.file_length = 0)
    (hfresh : (fresh table.pager.num_pages).length = PAGE_SIZE)
    (hother : ∀ i page, i ≠ 0 → table.pager.pages[i]? = some (some page) →
      isRootNode page = .ok false) :
    ∃ table' rootPage leftPage rightPage maxKey,
      createNewRoot fresh table R = .ok table' ∧
      table.pager.num_pages ≠ 0 ∧ table.pager.num_pages ≠ R ∧
      table'.pager.pages[0]? = some (some rootPage) ∧
      table'.pager.pages[table.pager.num_pages]? = some (some leftPage) ∧
      table'.pager.pages[R]? = some (some rightPage) ∧
      getNodeType leftPage = .ok NODE_LEAF ∧ isRootNode leftPage = .ok false ∧
      LeafKeys leftPage keys ∧
      (∀ o m, leafNodeNumCells ≤ o → loadBytes leftPage o m = loadBytes root o m) ∧
      getNodeType rootPage = .ok NODE_INTERNAL ∧ isRootNode rootPage = .ok true ∧
      loadU32 rootPage internalNodeNumKeys = .ok 1 ∧
      internalNodeChild rootPage 0 = .ok (internalNodeCell 0) ∧
      loadU32 rootPage (internalNodeCell 0) = .ok table.pager.num_pages ∧
      keys.getLast? = some maxKey ∧ getNodeMaxKey leftPage = .ok maxKey ∧
      loadU32 rootPage (internalNodeKey 0) = .ok maxKey ∧
      loadU32 rootPage internalNodeRightChild = .ok R ∧
      loadU32 leftPage nodeParent = .ok 0 ∧ loadU32 rightPage nodeParent = .ok 0 ∧
      (∀ i page, i ≠ 0 → table'.pager.pages[i]? = some (some page) →
        isRootNode page = .ok false) := by
  obtain ⟨table', rootPage, leftPage, rightPage, h1, h2, h3, h4, h5, h6, h7, h8, h9, h10, h11,
    h12, h13, h14, h15, h16, h17, h18, h19, h20, h21⟩ :=
    createNewRoot_spec fresh table R root right keys hpages hroot0 hslot htype hleaf hne hkeys hR
      hright hrlen hnum hfree hfile hfresh hother
  exact ⟨table', rootPage, leftPage, rightPage, keys.getLast hne, h1, h2, h3, h4, h5, h6, h7, h8,
    h9, h10, h12, h13, h14, h15, h16, List.getLast?_eq_getLast _ hne, h18, h17, h19, h11, h20,
    h21⟩

theorem createNewRoot_root_leaf_witness :
    LeafKeys (sampleTwoLeaves.page 0) [1, 2] ∧ sampleTwoLeaves.pager.num_pages = 2 ∧
      ∃ table', createNewRoot zeroHeap sampleTwoLeaves 1 = .ok table' :=
  have h : LeafKeys (sampleTwoLeaves.page 0) [1, 2] ∧
      sampleTwoLeaves.pager.num_pages = 2 ∧
      sampleTwoLeaves.pager.pages.length = TABLE_MAX_PAGES ∧
      sampleTwoLeaves.root_page_num = 0 ∧
      sampleTwoLeaves.pager.pages[0]? = some (some (sampleTwoLeaves.page 0)) ∧
      getNodeType (sampleTwoLeaves.page 0) = .ok NODE_LEAF ∧
      1 < sampleTwoLeaves.pager.num_pages ∧
      sampleTwoLeaves.pager.pages[1]? = some (some (sampleTwoLeaves.page 1)) ∧
      (sampleTwoLeaves.page 1).length = PAGE_SIZE ∧
      sampleTwoLeaves.pager.num_pages < TABLE_MAX_PAGES ∧
      sampleTwoLeaves.pager.pages[sampleTwoLeaves.pager.num_pages]? = some none ∧
      sampleTwoLeaves.pager.file_length = 0 ∧
      (zeroHeap sampleTwoLeaves.pager.num_pages).length = PAGE_SIZE ∧
      otherPagesNotRoot sampleTwoLeaves.pager = true := by decide!
  ⟨h.1, h.2.1,
   (createNewRoot_root_leaf zeroHeap sampleTwoLeaves 1 (sampleTwoLeaves.page 0)
      (sampleTwoLeaves.page 1) [1, 2] h.2.2.1 h.2.2.2.1 h.2.2.2.2.1 h.2.2.2.2.2.1
      h.1 (by decide) (by decide) h.2.2.2.2.2.2.1 h.2.2.2.2.2.2.2.1 h.2.2.2.2.2.2.2.2.1 h.2.2.2.2.2.2.2.2.2.1
      h.2.2.2.2.2.2.2.2.2.2.1 h.2.2.2.2.2.2.2.2.2.2.2.1 h.2.2.2.2.2.2.2.2.2.2.2.2.1
      (isRootNode_of_check _ h.2.2.2.2.2.2.2.2.2.2.2.2.2)).imp
     (fun _ h => h.elim (fun _ h => h.elim (fun _ h => h.elim (fun _ h => h.elim
       (fun _ h => h.1)))))⟩

/-! ## Claim C22: the keys of an internal node after `insertInternalNode` -/

/-- C22 (the code departs from the claim). The root of `sampleSplitTree` has
the one key 5, the greatest key of its child page 1, and its right child has
the greatest key 9; the leaf page 3 has the greatest key 2.  After
`insertInternalNode` of page 3 the root holds the cells (3, 2) and (1, 0): the
shift has moved the child of cell 0 to cell 1 but not its key, so `key[1]` is
not the greatest key of `child[1]` and the keys are not ascending.  Where no
cell is shifted (the leaf page 3 of `sampleTreeWithLeaf`, greatest key 4
behind the key 2) the cells are as the claim says. -/
theorem insertInternalNode_shift_loses_key :
    internalNodeCells (sampleSplitTree.page 0) = .ok ([(1, 5)], 2) ∧
      getNodeMaxKey (sampleSplitTree.page 1) = .ok 5 ∧
      getNodeMaxKey (sampleSplitTree.page 2) = .ok 9 ∧
      getNodeMaxKey (sampleSplitTree.page 3) = .ok 2 ∧
      (insertInternalNode zeroHeap sampleSplitTree 0 3 >>= fun table =>
        internalNodeCells (table.page 0)) = .ok ([(3, 2), (1, 0)], 2) ∧
      (insertInternalNode zeroHeap sampleTreeWithLeaf 0 3 >>= fun table =>
        internalNodeCells (table.page 0)) = .ok ([(1, 2), (3, 4)], 2) := by
  decide!

end Db
